import Mathlib

/-!
# little_endian_buffer: a byte buffer with a read/write cursor

Shallow embedding of `little_endian_buffer.go`.

Modelling conventions.

* A Go `byte` is a `Fin 256`.  Values of type `uintN` are natural numbers below `2 ^ N`; every
  conversion and shift of the source is written with its explicit `% 2 ^ N`.
* A Go `int` is a mathematical integer in `[minInt, maxInt]` (64-bit `int`); every `+` and `-` of
  the source on `int` goes through `wrapInt`, Go's two's-complement wrap-around.
* A Go slice is the list of its elements together with the contents of its backing array between
  its length and its capacity (`spare`).  Index expressions are checked against the length, slice
  expressions against the capacity, as in Go.
* A `[]byte` argument is the list of its elements, each one either memory of the caller or an
  element of the backing array of the storage (`Cell`): the slices that `Bytes` and `ReadBytes`
  return share that array, and `WriteBytes` reads its argument while it writes the storage.
* A run-time panic ends the operation: an operation returns `Outcome.fault` with the state of the
  buffer at the moment of the panic, or `Outcome.ok` with its result and the new state.
* Memory is not bounded: `make` and `append` succeed whenever the resulting length is a value of
  `int`.  The capacity chosen by `append` when it reallocates is a parameter `grow` of the model
  (old capacity, required length ↦ extra capacity beyond the required length).
-/

namespace LittleEndianBuffer

/-! ## Machine integers -/

/-- A Go `byte`. -/
abbrev Byte := Fin 256

/-- Largest value of a Go `int` (64-bit). -/
def maxInt : Int := 2 ^ 63 - 1

/-- Smallest value of a Go `int` (64-bit). -/
def minInt : Int := -(2 ^ 63)

/-- Two's-complement wrap-around of a mathematical integer into the range of `int`. -/
def wrapInt (x : Int) : Int := (x + 2 ^ 63) % 2 ^ 64 - 2 ^ 63

/-- Conversion `byte(x)` of an unsigned value: the low eight bits. -/
def toByte (x : Nat) : Byte := ⟨x % 256, Nat.mod_lt x (by decide)⟩

/-- Conversion `uintN(b)` of a byte followed by `<< k` at width `w`. -/
def shlAt (w : Nat) (b : Byte) (k : Nat) : Nat := ((b.val % 2 ^ w) <<< k) % 2 ^ w

/-- Conversion `uintN(v)` of a signed value: its two's-complement bit pattern. -/
def toUnsigned (w : Nat) (v : Int) : Nat := (v % 2 ^ w).toNat

/-- Conversion `intN(u)` of an unsigned value: the bit pattern read as two's complement. -/
def toSigned (w : Nat) (u : Nat) : Int :=
  if u % 2 ^ w < 2 ^ (w - 1) then ((u % 2 ^ w : Nat) : Int) else ((u % 2 ^ w : Nat) : Int) - 2 ^ w

/-! ## Slices -/

/-- A Go `[]byte`: its elements, and the rest of its backing array up to the capacity. -/
structure Slice where
  elems : List Byte
  spare : List Byte
deriving DecidableEq, Repr

namespace Slice

/-- Go `len(s)`. -/
def len (s : Slice) : Int := (s.elems.length : Int)

/-- Go `cap(s)`. -/
def cap (s : Slice) : Int := ((s.elems.length + s.spare.length : Nat) : Int)

/-- Index expression `s[i]` as a value: `none` is the run-time panic (index out of range). -/
def index (s : Slice) (i : Int) : Option Byte :=
  if 0 ≤ i ∧ i < s.len then s.elems[i.toNat]? else none

/-- Assignment `s[i] = b`: `none` is the run-time panic (index out of range). -/
def store (s : Slice) (i : Int) (b : Byte) : Option Slice :=
  if 0 ≤ i ∧ i < s.len then some { s with elems := s.elems.set i.toNat b } else none

/-- Go `append(s, make([]byte, n)...)` for `n > 0`: within the capacity the zeros overwrite the
backing array in place; otherwise a fresh zeroed array is allocated, of a capacity that exceeds the
required length by `grow (old capacity) (required length)`.  `none` is the run-time panic raised
when the resulting length is not a value of `int`. -/
def appendZeros (grow : Nat → Nat → Nat) (s : Slice) (n : Nat) : Option Slice :=
  if s.len + (n : Int) ≤ maxInt then
    if n ≤ s.spare.length then
      some { elems := s.elems ++ List.replicate n 0, spare := s.spare.drop n }
    else
      some { elems := s.elems ++ List.replicate n 0,
             spare := List.replicate
               (grow (s.elems.length + s.spare.length) (s.elems.length + n)) 0 }
  else none

/-- Slice expression `s[lo:hi]`: `none` is the run-time panic (slice bounds out of range); the
bounds are checked against the capacity. -/
def slice (s : Slice) (lo hi : Int) : Option Slice :=
  if 0 ≤ lo ∧ lo ≤ hi ∧ hi ≤ s.cap then
    some { elems := ((s.elems ++ s.spare).drop lo.toNat).take (hi.toNat - lo.toNat),
           spare := (s.elems ++ s.spare).drop hi.toNat }
  else none

end Slice

/-! ## The buffer -/

/-- `type Buffer struct { bytes []byte; pointer int }`. -/
structure Buffer where
  bytes : Slice
  pointer : Int
deriving DecidableEq, Repr

/-- The states a Go program can be in: the cursor is a value of `int` and the length of the
storage is a value of `int`. -/
def Buffer.Valid (buf : Buffer) : Prop :=
  minInt ≤ buf.pointer ∧ buf.pointer ≤ maxInt ∧ buf.bytes.len ≤ maxInt

instance (buf : Buffer) : Decidable buf.Valid := by
  unfold Buffer.Valid; infer_instance

/-- Result of running an operation: normal return with a value and the new state, or a run-time
panic with the state the buffer was left in. -/
inductive Outcome (α : Type) where
  | ok (value : α) (buf : Buffer)
  | fault (buf : Buffer)
deriving DecidableEq, Repr

/-- An operation on a buffer. -/
def Op (α : Type) : Type := Buffer → Outcome α

/-- Sequencing of operations: a panic ends the sequence. -/
def Op.bind {α β : Type} (m : Op α) (f : α → Op β) : Op β := fun buf =>
  match m buf with
  | .ok a buf1 => f a buf1
  | .fault buf1 => .fault buf1

instance : Monad Op where
  pure a := fun buf => .ok a buf
  bind := Op.bind

/-- Read `buf.pointer`. -/
def getPointer : Op Int := fun buf => .ok buf.pointer buf

/-- Read `buf.bytes[i]`. -/
def loadByte (i : Int) : Op Byte := fun buf =>
  match buf.bytes.index i with
  | some b => .ok b buf
  | none => .fault buf

/-- Statement `buf.bytes[i] = b`. -/
def storeByte (i : Int) (b : Byte) : Op Unit := fun buf =>
  match buf.bytes.store i b with
  | some s => .ok () { buf with bytes := s }
  | none => .fault buf

/-- Statement `buf.pointer += n`. -/
def advance (n : Int) : Op Unit := fun buf =>
  .ok () { buf with pointer := wrapInt (buf.pointer + n) }

/-- `func BufferFromBytes(b []byte) *Buffer`. -/
def BufferFromBytes (b : Slice) : Buffer := { bytes := b, pointer := 0 }

/-- `func (buf *Buffer) Bytes() []byte`. -/
def Bytes : Op Slice := fun buf => .ok buf.bytes buf

/-- `func (buf *Buffer) Pointer() int`. -/
def Pointer : Op Int := fun buf => .ok buf.pointer buf

/-- `func (buf *Buffer) SetPointer(newPointer int)`. -/
def SetPointer (newPointer : Int) : Op Unit := fun buf =>
  .ok () { buf with pointer := newPointer }

/-- `func (buf *Buffer) LeftToRead() int`. -/
def LeftToRead : Op Int := fun buf =>
  .ok (wrapInt (buf.bytes.len - buf.pointer)) buf

/-- `func (buf *Buffer) EnsureSize(size int)`. -/
def EnsureSize (grow : Nat → Nat → Nat) (size : Int) : Op Unit := fun buf =>
  let neededSpace := wrapInt (wrapInt (buf.pointer + size) - buf.bytes.len)
  if neededSpace > 0 then
    match buf.bytes.appendZeros grow neededSpace.toNat with
    | some s => .ok () { buf with bytes := s }
    | none => .fault buf
  else
    .ok () buf

/-- `func (buf *Buffer) ReadUint8() (value uint8)`. -/
def ReadUint8 : Op Nat := do
  let p ← getPointer
  let byte1 ← loadByte (wrapInt (p + 0))
  advance 1
  let value := 0
  let value := value ||| shlAt 8 byte1 0
  return value

/-- `func (buf *Buffer) WriteUint8(value uint8)`. -/
def WriteUint8 (grow : Nat → Nat → Nat) (value : Nat) : Op Unit := do
  EnsureSize grow 1
  let byte1 := toByte (value >>> 0)
  let p ← getPointer
  storeByte (wrapInt (p + 0)) byte1
  advance 1

/-- `func (buf *Buffer) ReadUint16() (value uint16)`. -/
def ReadUint16 : Op Nat := do
  let p ← getPointer
  let byte1 ← loadByte (wrapInt (p + 0))
  let byte2 ← loadByte (wrapInt (p + 1))
  advance 2
  let value := 0
  let value := value ||| shlAt 16 byte1 8
  let value := value ||| shlAt 16 byte2 0
  return value

/-- `func (buf *Buffer) WriteUint16(value uint16)`. -/
def WriteUint16 (grow : Nat → Nat → Nat) (value : Nat) : Op Unit := do
  EnsureSize grow 2
  let byte1 := toByte (value >>> 8)
  let byte2 := toByte (value >>> 0)
  let p ← getPointer
  storeByte (wrapInt (p + 0)) byte1
  storeByte (wrapInt (p + 1)) byte2
  advance 2

/-- `func (buf *Buffer) ReadUint32() (value uint32)`. -/
def ReadUint32 : Op Nat := do
  let p ← getPointer
  let byte1 ← loadByte (wrapInt (p + 0))
  let byte2 ← loadByte (wrapInt (p + 1))
  let byte3 ← loadByte (wrapInt (p + 2))
  let byte4 ← loadByte (wrapInt (p + 3))
  advance 4
  let value := 0
  let value := value ||| shlAt 32 byte1 24
  let value := value ||| shlAt 32 byte2 16
  let value := value ||| shlAt 32 byte3 8
  let value := value ||| shlAt 32 byte4 0
  return value

/-- `func (buf *Buffer) WriteUint32(value uint32)`. -/
def WriteUint32 (grow : Nat → Nat → Nat) (value : Nat) : Op Unit := do
  EnsureSize grow 4
  let byte1 := toByte (value >>> 24)
  let byte2 := toByte (value >>> 16)
  let byte3 := toByte (value >>> 8)
  let byte4 := toByte (value >>> 0)
  let p ← getPointer
  storeByte (wrapInt (p + 0)) byte1
  storeByte (wrapInt (p + 1)) byte2
  storeByte (wrapInt (p + 2)) byte3
  storeByte (wrapInt (p + 3)) byte4
  advance 4

/-- `func (buf *Buffer) ReadUint64() (value uint64)`. -/
def ReadUint64 : Op Nat := do
  let p ← getPointer
  let byte1 ← loadByte (wrapInt (p + 0))
  let byte2 ← loadByte (wrapInt (p + 1))
  let byte3 ← loadByte (wrapInt (p + 2))
  let byte4 ← loadByte (wrapInt (p + 3))
  let byte5 ← loadByte (wrapInt (p + 4))
  let byte6 ← loadByte (wrapInt (p + 5))
  let byte7 ← loadByte (wrapInt (p + 6))
  let byte8 ← loadByte (wrapInt (p + 7))
  advance 8
  let value := 0
  let value := value ||| shlAt 64 byte1 56
  let value := value ||| shlAt 64 byte2 48
  let value := value ||| shlAt 64 byte3 40
  let value := value ||| shlAt 64 byte4 32
  let value := value ||| shlAt 64 byte5 24
  let value := value ||| shlAt 64 byte6 16
  let value := value ||| shlAt 64 byte7 8
  let value := value ||| shlAt 64 byte8 0
  return value

/-- `func (buf *Buffer) WriteUint64(value uint64)`. -/
def WriteUint64 (grow : Nat → Nat → Nat) (value : Nat) : Op Unit := do
  EnsureSize grow 8
  let byte1 := toByte (value >>> 56)
  let byte2 := toByte (value >>> 48)
  let byte3 := toByte (value >>> 40)
  let byte4 := toByte (value >>> 32)
  let byte5 := toByte (value >>> 24)
  let byte6 := toByte (value >>> 16)
  let byte7 := toByte (value >>> 8)
  let byte8 := toByte (value >>> 0)
  let p ← getPointer
  storeByte (wrapInt (p + 0)) byte1
  storeByte (wrapInt (p + 1)) byte2
  storeByte (wrapInt (p + 2)) byte3
  storeByte (wrapInt (p + 3)) byte4
  storeByte (wrapInt (p + 4)) byte5
  storeByte (wrapInt (p + 5)) byte6
  storeByte (wrapInt (p + 6)) byte7
  storeByte (wrapInt (p + 7)) byte8
  advance 8

/-- `func (buf *Buffer) ReadInt8() int8`. -/
def ReadInt8 : Op Int := do
  let u ← ReadUint8
  return toSigned 8 u

/-- `func (buf *Buffer) WriteInt8(value int8)`. -/
def WriteInt8 (grow : Nat → Nat → Nat) (value : Int) : Op Unit :=
  WriteUint8 grow (toUnsigned 8 value)

/-- `func (buf *Buffer) ReadInt16() int16`. -/
def ReadInt16 : Op Int := do
  let u ← ReadUint16
  return toSigned 16 u

/-- `func (buf *Buffer) WriteInt16(value int16)`. -/
def WriteInt16 (grow : Nat → Nat → Nat) (value : Int) : Op Unit :=
  WriteUint16 grow (toUnsigned 16 value)

/-- `func (buf *Buffer) ReadInt32() int32`. -/
def ReadInt32 : Op Int := do
  let u ← ReadUint32
  return toSigned 32 u

/-- `func (buf *Buffer) WriteInt32(value int32)`. -/
def WriteInt32 (grow : Nat → Nat → Nat) (value : Int) : Op Unit :=
  WriteUint32 grow (toUnsigned 32 value)

/-- `func (buf *Buffer) ReadInt64() int64`. -/
def ReadInt64 : Op Int := do
  let u ← ReadUint64
  return toSigned 64 u

/-- `func (buf *Buffer) WriteInt64(value int64)`. -/
def WriteInt64 (grow : Nat → Nat → Nat) (value : Int) : Op Unit :=
  WriteUint64 grow (toUnsigned 64 value)

/-- `func (buf *Buffer) ReadBool() bool`. -/
def ReadBool : Op Bool := do
  let u ← ReadUint8
  if u = 0 then
    return false
  else
    return true

/-- `func (buf *Buffer) WriteBool(value bool)`. -/
def WriteBool (grow : Nat → Nat → Nat) (value : Bool) : Op Unit :=
  if value then
    WriteUint8 grow 1
  else
    WriteUint8 grow 0

/-- A Go `float32`, represented by its IEEE-754 binary32 bit pattern. -/
abbrev Float32 := Fin (2 ^ 32)

/-- A Go `float64`, represented by its IEEE-754 binary64 bit pattern. -/
abbrev Float64 := Fin (2 ^ 64)

/-- Go `math.Float32bits`: the IEEE-754 binary representation of a `float32`. -/
def Float32bits (f : Float32) : Nat := f.val

/-- Go `math.Float32frombits`: the `float32` with the given binary representation. -/
def Float32frombits (b : Nat) : Float32 := ⟨b % 2 ^ 32, Nat.mod_lt b (by decide)⟩

/-- Go `math.Float64bits`: the IEEE-754 binary representation of a `float64`. -/
def Float64bits (f : Float64) : Nat := f.val

/-- Go `math.Float64frombits`: the `float64` with the given binary representation. -/
def Float64frombits (b : Nat) : Float64 := ⟨b % 2 ^ 64, Nat.mod_lt b (by decide)⟩

/-- `func (buf *Buffer) ReadFloat32() float32`. -/
def ReadFloat32 : Op Float32 := do
  let u ← ReadUint32
  return Float32frombits u

/-- `func (buf *Buffer) WriteFloat32(value float32)`. -/
def WriteFloat32 (grow : Nat → Nat → Nat) (value : Float32) : Op Unit :=
  WriteUint32 grow (Float32bits value)

/-- `func (buf *Buffer) ReadFloat64() float64`. -/
def ReadFloat64 : Op Float64 := do
  let u ← ReadUint64
  return Float64frombits u

/-- `func (buf *Buffer) WriteFloat64(value float64)`. -/
def WriteFloat64 (grow : Nat → Nat → Nat) (value : Float64) : Op Unit :=
  WriteUint64 grow (Float64bits value)

/-- `func (buf *Buffer) ReadBytes(num int) (value []byte)`. -/
def ReadBytes (num : Int) : Op Slice := fun buf =>
  match buf.bytes.slice buf.pointer (wrapInt (buf.pointer + num)) with
  | some value => .ok value { buf with pointer := wrapInt (buf.pointer + num) }
  | none => .fault buf

/-- One element of a `[]byte` argument, by the memory that holds it: memory of the caller that
the buffer never writes (`own`, with the value it holds), or the element `k` of the backing array
that the storage has when the call is made (`shared`), as the elements of the slices that `Bytes`
and `ReadBytes` return are.  A slice of Go is a run of consecutive elements; a list of cells
covers as well the slices that overlap the backing array of the storage in part. -/
inductive Cell where
  | own (value : Byte)
  | shared (k : Nat)
deriving DecidableEq, Repr

/-- The value of an element of the argument in a state of the buffer: a shared element is read
from the backing array of the storage, elements and spare capacity.  (The array has no element
`k` at or beyond the capacity: such a cell is no memory the buffer writes, and reads as 0.) -/
def Cell.read (buf : Buffer) : Cell → Byte
  | .own value => value
  | .shared k => (buf.bytes.elems ++ buf.bytes.spare).getD k 0

/-- An element of the argument once `append` has moved the storage from the backing array of
`buf` to a new one: the old array is written no more, so the element keeps the value it has. -/
def Cell.freeze (buf : Buffer) (c : Cell) : Cell := .own (c.read buf)

/-- Read `bytes[i]`, the element `c` of the argument. -/
def loadCell (c : Cell) : Op Byte := fun buf => .ok (c.read buf) buf

/-- The state of the buffer. -/
def getBuffer : Op Buffer := fun buf => .ok buf buf

/-- The loop `for i := 0; i < size; i += 1 { buf.bytes[buf.pointer+i] = bytes[i] }` of
`WriteBytes`, started at index `i` with the elements `bytes[i:]` still to be copied.  Each
element is read when its turn comes, after the stores of the elements before it. -/
def WriteBytes.loop : Int → List Cell → Op Unit
  | _, [] => pure ()
  | i, c :: rest => do
    let p ← getPointer
    let b ← loadCell c
    storeByte (wrapInt (p + i)) b
    WriteBytes.loop (wrapInt (i + 1)) rest

/-- `func (buf *Buffer) WriteBytes(bytes []byte)`.  The argument may share the backing array of
the storage.  `EnsureSize` keeps that array (the zeros it appends in place are seen through the
argument) unless `append` has to reallocate, which it does exactly when it gives a larger
capacity; the argument then stays with the old array, which is written no more. -/
def WriteBytes (grow : Nat → Nat → Nat) (bytes : List Cell) : Op Unit := do
  let size := (bytes.length : Int)
  let old ← getBuffer
  EnsureSize grow size
  let new ← getBuffer
  WriteBytes.loop 0 (if new.bytes.cap = old.bytes.cap then bytes else bytes.map (Cell.freeze old))
  advance size

/-! ## Vocabulary of the statements -/

/-- The value an operation returned, `none` when it ended in a run-time panic. -/
def Outcome.result {α : Type} : Outcome α → Option α
  | .ok a _ => some a
  | .fault _ => none

/-- The state of the buffer after an operation, whether it returned or ended in a panic. -/
def Outcome.state {α : Type} : Outcome α → Buffer
  | .ok _ buf => buf
  | .fault buf => buf

/-- The storage after growth to at least `need` bytes. -/
def grown (l : List Byte) (need : Nat) : List Byte := l ++ List.replicate (need - l.length) 0

/-- The storage with the bytes `bs` written over the offsets from `n` on. -/
def overwrite (l : List Byte) (n : Nat) (bs : List Byte) : List Byte :=
  l.take n ++ bs ++ l.drop (n + bs.length)

/-- The big-endian bytes written by `WriteUint8`. -/
def bytes8 (v : Nat) : List Byte := [toByte (v >>> 0)]

/-- The big-endian bytes written by `WriteUint16`. -/
def bytes16 (v : Nat) : List Byte := [toByte (v >>> 8), toByte (v >>> 0)]

/-- The big-endian bytes written by `WriteUint32`. -/
def bytes32 (v : Nat) : List Byte :=
  [toByte (v >>> 24), toByte (v >>> 16), toByte (v >>> 8), toByte (v >>> 0)]

/-- The big-endian bytes written by `WriteUint64`. -/
def bytes64 (v : Nat) : List Byte :=
  [toByte (v >>> 56), toByte (v >>> 48), toByte (v >>> 40), toByte (v >>> 32),
   toByte (v >>> 24), toByte (v >>> 16), toByte (v >>> 8), toByte (v >>> 0)]

/-- The sequence `write; SetPointer(p); read` of the round-trip properties. -/
def writeThenRead {α : Type} (write : Op Unit) (p : Int) (read : Op α) : Op α := do
  write
  SetPointer p
  read

/-- A sample state: the storage `[1, 2, 3, 4, 5, 6, 7, 8, 9]` with the cursor at offset 1. -/
def sampleBuffer : Buffer := ⟨⟨[1, 2, 3, 4, 5, 6, 7, 8, 9], []⟩, 1⟩

/-- The scalar writes of the buffer, each with its byte width. -/
def scalarWrites (grow : Nat → Nat → Nat) (u : Nat) (i : Int) (b : Bool) (f : Float32)
    (d : Float64) : List (Op Unit × Nat) :=
  [(WriteUint8 grow u, 1), (WriteUint16 grow u, 2), (WriteUint32 grow u, 4),
   (WriteUint64 grow u, 8), (WriteInt8 grow i, 1), (WriteInt16 grow i, 2),
   (WriteInt32 grow i, 4), (WriteInt64 grow i, 8), (WriteBool grow b, 1),
   (WriteFloat32 grow f, 4), (WriteFloat64 grow d, 8)]

/-- The stores `buf.bytes[buf.pointer+i] = b`, `buf.bytes[buf.pointer+i+1] = ...` of the bytes
of a list, from the index `i` on: the stores of a scalar write, and the loop of `WriteBytes` for
bytes that the stores do not change. -/
def storeFrom : Int → List Byte → Op Unit
  | _, [] => pure ()
  | i, b :: rest => do
    let p ← getPointer
    storeByte (wrapInt (p + i)) b
    storeFrom (wrapInt (i + 1)) rest

/-- A `[]byte` argument that shares no memory with the storage. -/
def owned (bs : List Byte) : List Cell := bs.map Cell.own

/-- The slice `buf.bytes[lo : lo+n]` as an argument: what `ReadBytes(n)` returns with the cursor
at `lo`, and any part of what `Bytes()` returns. -/
def sharedSpan (lo n : Nat) : List Cell := (List.range n).map fun i => Cell.shared (lo + i)

/-- The bytes of an argument at the moment of the call. -/
def contents (buf : Buffer) (bytes : List Cell) : List Byte := bytes.map (Cell.read buf)

/-- The element `bytes[i]` of an argument of length `n` is not changed by the call
`WriteBytes(bytes)` before the loop copies it: it is memory of the caller, or it lies in the
backing array of the storage outside the offsets `[p, p+i)` that the loop has written by then and
outside the offsets `[length, p+n)` that `EnsureSize` fills with zeros. -/
def Cell.keptUntil (buf : Buffer) (n i : Nat) : Cell → Prop
  | .own _ => True
  | .shared k =>
    ((k : Int) < buf.pointer ∨ buf.pointer + (i : Int) ≤ (k : Int)) ∧
    ((k : Int) < buf.bytes.len ∨ buf.pointer + (n : Int) ≤ (k : Int))

instance (buf : Buffer) (n i : Nat) (c : Cell) : Decidable (c.keptUntil buf n i) := by
  cases c <;> unfold Cell.keptUntil <;> infer_instance

/-- The call `WriteBytes(bytes)` copies every element of `bytes` with the value it has at the
call: the write moves the storage to a new backing array (`p + len(bytes)` exceeds the capacity),
or no element is changed before the loop copies it.  An argument that shares no memory with the
storage is always so. -/
def Untouched (buf : Buffer) (bytes : List Cell) : Prop :=
  buf.bytes.cap < buf.pointer + (bytes.length : Int) ∨
  ∀ i, i < bytes.length → (bytes.getD i (.own 0)).keptUntil buf bytes.length i

instance (buf : Buffer) (bytes : List Cell) : Decidable (Untouched buf bytes) := by
  unfold Untouched; infer_instance

/-- The common shape of every write: growth by the number of bytes, copy of the bytes at the
cursor, advance of the cursor. -/
def writeSeq (grow : Nat → Nat → Nat) (bs : List Byte) : Op Unit := do
  EnsureSize grow (bs.length : Int)
  storeFrom 0 bs
  advance (bs.length : Int)

/-- Whether an operation returned (rather than ended in a run-time panic). -/
def Outcome.returned {α : Type} (o : Outcome α) : Bool := o.result.isSome

/-- The scalar reads of the buffer, each as the test "the read returns on this state", with its
byte width. -/
def scalarReads : List ((Buffer → Bool) × Nat) :=
  [(fun buf => (ReadUint8 buf).returned, 1), (fun buf => (ReadUint16 buf).returned, 2),
   (fun buf => (ReadUint32 buf).returned, 4), (fun buf => (ReadUint64 buf).returned, 8),
   (fun buf => (ReadInt8 buf).returned, 1), (fun buf => (ReadInt16 buf).returned, 2),
   (fun buf => (ReadInt32 buf).returned, 4), (fun buf => (ReadInt64 buf).returned, 8),
   (fun buf => (ReadBool buf).returned, 1), (fun buf => (ReadFloat32 buf).returned, 4),
   (fun buf => (ReadFloat64 buf).returned, 8)]

/-- An operation run for its effect on the buffer only: the returned value is dropped. -/
def discard {α : Type} (m : Op α) : Op Unit := fun buf =>
  match m buf with
  | .ok _ buf1 => .ok () buf1
  | .fault buf1 => .fault buf1

/-- The operations of the buffer with their arguments: the eleven scalar reads, the eleven scalar
writes, `ReadBytes`, `WriteBytes`, `SetPointer`, `EnsureSize` and `LeftToRead`. -/
inductive Action where
  | readUint8 | readUint16 | readUint32 | readUint64
  | readInt8 | readInt16 | readInt32 | readInt64
  | readBool | readFloat32 | readFloat64
  | writeUint8 (value : Nat) | writeUint16 (value : Nat)
  | writeUint32 (value : Nat) | writeUint64 (value : Nat)
  | writeInt8 (value : Int) | writeInt16 (value : Int)
  | writeInt32 (value : Int) | writeInt64 (value : Int)
  | writeBool (value : Bool) | writeFloat32 (value : Float32) | writeFloat64 (value : Float64)
  | readBytes (num : Int) | writeBytes (bytes : List Cell)
  | setPointer (newPointer : Int) | ensureSize (size : Int) | leftToRead

/-- The method of `Buffer` an action stands for. -/
def Action.run (grow : Nat → Nat → Nat) : Action → Op Unit
  | .readUint8 => discard ReadUint8
  | .readUint16 => discard ReadUint16
  | .readUint32 => discard ReadUint32
  | .readUint64 => discard ReadUint64
  | .readInt8 => discard ReadInt8
  | .readInt16 => discard ReadInt16
  | .readInt32 => discard ReadInt32
  | .readInt64 => discard ReadInt64
  | .readBool => discard ReadBool
  | .readFloat32 => discard ReadFloat32
  | .readFloat64 => discard ReadFloat64
  | .writeUint8 v => WriteUint8 grow v
  | .writeUint16 v => WriteUint16 grow v
  | .writeUint32 v => WriteUint32 grow v
  | .writeUint64 v => WriteUint64 grow v
  | .writeInt8 v => WriteInt8 grow v
  | .writeInt16 v => WriteInt16 grow v
  | .writeInt32 v => WriteInt32 grow v
  | .writeInt64 v => WriteInt64 grow v
  | .writeBool v => WriteBool grow v
  | .writeFloat32 v => WriteFloat32 grow v
  | .writeFloat64 v => WriteFloat64 grow v
  | .readBytes num => discard (ReadBytes num)
  | .writeBytes bytes => WriteBytes grow bytes
  | .setPointer n => SetPointer n
  | .ensureSize size => EnsureSize grow size
  | .leftToRead => discard LeftToRead

/-- The byte width of an action: the width of the kind for a scalar read or write, `num` for
`ReadBytes(num)`, `len(bytes)` for `WriteBytes(bytes)`, `size` for `EnsureSize(size)`, and 0 for
`SetPointer` and `LeftToRead`. -/
def Action.width : Action → Int
  | .readUint8 => 1 | .readUint16 => 2 | .readUint32 => 4 | .readUint64 => 8
  | .readInt8 => 1 | .readInt16 => 2 | .readInt32 => 4 | .readInt64 => 8
  | .readBool => 1 | .readFloat32 => 4 | .readFloat64 => 8
  | .writeUint8 _ => 1 | .writeUint16 _ => 2 | .writeUint32 _ => 4 | .writeUint64 _ => 8
  | .writeInt8 _ => 1 | .writeInt16 _ => 2 | .writeInt32 _ => 4 | .writeInt64 _ => 8
  | .writeBool _ => 1 | .writeFloat32 _ => 4 | .writeFloat64 _ => 8
  | .readBytes num => num
  | .writeBytes bytes => (bytes.length : Int)
  | .setPointer _ => 0
  | .ensureSize size => size
  | .leftToRead => 0

/-- The scalar reads and `ReadBytes`. -/
def Action.isRead : Action → Bool
  | .readUint8 | .readUint16 | .readUint32 | .readUint64 => true
  | .readInt8 | .readInt16 | .readInt32 | .readInt64 => true
  | .readBool | .readFloat32 | .readFloat64 => true
  | .readBytes _ => true
  | _ => false

/-- The scalar writes and `WriteBytes`. -/
def Action.isWrite : Action → Bool
  | .writeUint8 _ | .writeUint16 _ | .writeUint32 _ | .writeUint64 _ => true
  | .writeInt8 _ | .writeInt16 _ | .writeInt32 _ | .writeInt64 _ => true
  | .writeBool _ | .writeFloat32 _ | .writeFloat64 _ => true
  | .writeBytes _ => true
  | _ => false

/-- The arguments of an action are values of their Go types: an `int` argument is in the range
of `int`, and the length of a slice argument is a value of `int`. -/
def Action.Typed : Action → Prop
  | .readBytes num => minInt ≤ num ∧ num ≤ maxInt
  | .writeBytes bytes => (bytes.length : Int) ≤ maxInt
  | .setPointer n => minInt ≤ n ∧ n ≤ maxInt
  | .ensureSize size => minInt ≤ size ∧ size ≤ maxInt
  | _ => True

/-- A sequence of actions run one after the other; a panic ends the run. -/
def runAll (grow : Nat → Nat → Nat) : List Action → Op Unit
  | [] => pure ()
  | a :: rest => do
    a.run grow
    runAll grow rest

/-- The cursor-in-range predicate `0 ≤ cursor ≤ length(storage)`. -/
def Buffer.InRange (buf : Buffer) : Prop :=
  0 ≤ buf.pointer ∧ buf.pointer ≤ buf.bytes.len

instance (buf : Buffer) : Decidable buf.InRange := by
  unfold Buffer.InRange; infer_instance

/-- The sequence `WriteUint32(a); WriteUint64(b); WriteUint8(c); SetPointer(p)` followed by
`ReadUint32()`, `ReadUint64()`, `ReadUint8()`; the value is the three values read. -/
def writesThenReads (grow : Nat → Nat → Nat) (a b c : Nat) (p : Int) : Op (Nat × Nat × Nat) := do
  WriteUint32 grow a
  WriteUint64 grow b
  WriteUint8 grow c
  SetPointer p
  let x ← ReadUint32
  let y ← ReadUint64
  let z ← ReadUint8
  pure (x, y, z)

/-! ## Auxiliary facts -/

theorem wrapInt_eq {x : Int} (h1 : minInt ≤ x) (h2 : x ≤ maxInt) : wrapInt x = x := by
  unfold wrapInt; unfold minInt at h1; unfold maxInt at h2; omega

theorem grown_length (l : List Byte) (need : Nat) :
    (grown l need).length = max l.length need := by
  simp [grown]; omega

theorem overwrite_length (l : List Byte) (n : Nat) (bs : List Byte)
    (h : n + bs.length ≤ l.length) : (overwrite l n bs).length = l.length := by
  simp [overwrite]; omega

/-- `EnsureSize` when neither `pointer + size` nor `pointer + size - len` overflows. -/
theorem EnsureSize_eq (grow : Nat → Nat → Nat) (size : Int) (buf : Buffer) (hv : buf.Valid)
    (h1 : minInt ≤ buf.pointer + size) (h2 : buf.pointer + size ≤ maxInt)
    (h3 : minInt ≤ buf.pointer + size - buf.bytes.len) :
    ∃ sp, EnsureSize grow size buf =
        .ok () ⟨⟨buf.bytes.elems ++
          List.replicate (buf.pointer + size - buf.bytes.len).toNat 0, sp⟩, buf.pointer⟩ ∧
      (buf.pointer + size ≤ buf.bytes.len → sp = buf.bytes.spare) := by
  obtain ⟨⟨el, sp0⟩, p⟩ := buf
  obtain ⟨hv1, hv2, hv3⟩ := hv
  simp only [Slice.len] at *
  have hw1 : wrapInt (p + size) = p + size := wrapInt_eq h1 h2
  have hl : (0 : Int) ≤ (el.length : Int) := Int.natCast_nonneg _
  have hw2 : wrapInt (p + size - (el.length : Int)) = p + size - (el.length : Int) := by
    apply wrapInt_eq h3
    omega
  generalize hd : p + size - (el.length : Int) = d at *
  by_cases hn : d > 0
  · have hfit : ((el.length : Int) + ((d.toNat : Nat) : Int)) ≤ maxInt := by omega
    by_cases hsp : d.toNat ≤ sp0.length
    · refine ⟨sp0.drop d.toNat, ?_, ?_⟩
      · simp only [EnsureSize, Slice.len, hw1, hd, hw2, if_pos hn, Slice.appendZeros, if_pos hfit,
          if_pos hsp]
      · intro hle; omega
    · refine ⟨List.replicate (grow (el.length + sp0.length) (el.length + d.toNat)) 0, ?_, ?_⟩
      · simp only [EnsureSize, Slice.len, hw1, hd, hw2, if_pos hn, Slice.appendZeros, if_pos hfit,
          if_neg hsp]
      · intro hle; omega
  · refine ⟨sp0, ?_, fun _ => rfl⟩
    have h0 : d.toNat = 0 := by omega
    simp only [EnsureSize, Slice.len, hw1, hd, hw2, if_neg hn, h0, List.replicate_zero,
      List.append_nil]

theorem storeByte_eq (buf : Buffer) (i : Int) (b : Byte) (h0 : 0 ≤ i)
    (h1 : i < buf.bytes.len) :
    storeByte i b buf =
      .ok () ⟨⟨buf.bytes.elems.set i.toNat b, buf.bytes.spare⟩, buf.pointer⟩ := by
  simp [storeByte, Slice.store, h0, h1]

theorem loadByte_eq (buf : Buffer) (i : Int) (b : Byte) (h0 : 0 ≤ i)
    (h1 : buf.bytes.elems[i.toNat]? = some b) : loadByte i buf = .ok b buf := by
  have h2 : i.toNat < buf.bytes.elems.length := by
    by_contra hc
    rw [List.getElem?_eq_none (by omega)] at h1
    exact Option.noConfusion h1
  have h3 : i < buf.bytes.len := by simp only [Slice.len]; omega
  simp [loadByte, Slice.index, h0, h3, h1]

theorem loadByte_fault (buf : Buffer) (i : Int) (h : i < 0 ∨ buf.bytes.len ≤ i) :
    loadByte i buf = .fault buf := by
  have : ¬ (0 ≤ i ∧ i < buf.bytes.len) := by omega
  simp [loadByte, Slice.index, this]


/-! ## Sequencing -/

theorem bind_ok {α β : Type} {m : Op α} {f : α → Op β} {buf buf1 : Buffer} {a : α}
    (h : m buf = .ok a buf1) : (m >>= f) buf = f a buf1 := by
  show Op.bind m f buf = _
  unfold Op.bind
  rw [h]

theorem bind_fault {α β : Type} {m : Op α} {f : α → Op β} {buf buf1 : Buffer}
    (h : m buf = .fault buf1) : (m >>= f) buf = .fault buf1 := by
  show Op.bind m f buf = _
  unfold Op.bind
  rw [h]

theorem pure_apply {α : Type} (a : α) (buf : Buffer) : (pure a : Op α) buf = .ok a buf := by
  show (fun b => Outcome.ok a b) buf = _
  exact Eq.refl _

theorem bind_pure_apply {α β : Type} (a : α) (f : α → Op β) (buf : Buffer) :
    (pure a >>= f) buf = f a buf := bind_ok (pure_apply a buf)

theorem bind_assoc_apply {α β γ : Type} (m : Op α) (f : α → Op β) (g : β → Op γ)
    (buf : Buffer) : (m >>= f >>= g) buf = (m >>= fun a => f a >>= g) buf := by
  cases h : m buf with
  | fault b1 => rw [bind_fault (bind_fault h), bind_fault h]
  | ok a b1 =>
    rw [bind_ok h]
    cases h2 : f a b1 with
    | fault b2 => rw [bind_fault h2, bind_fault (show (m >>= f) buf = _ from (bind_ok h).trans h2)]
    | ok c b2 => rw [bind_ok h2, bind_ok (show (m >>= f) buf = _ from (bind_ok h).trans h2)]

theorem bind_getPointer {β : Type} (f : Int → Op β) (buf : Buffer) :
    (getPointer >>= f) buf = f buf.pointer buf := bind_ok (by unfold getPointer; rfl)

theorem bind_storeByte {β : Type} (i : Int) (b : Byte) (f : Unit → Op β) (buf : Buffer) :
    (storeByte i b >>= f) buf =
      match buf.bytes.store i b with
      | some s => f () ⟨s, buf.pointer⟩
      | none => .fault buf := by
  cases h : buf.bytes.store i b with
  | none => exact bind_fault (by unfold storeByte; rw [h])
  | some s => exact bind_ok (by unfold storeByte; rw [h])


theorem getElem?_overwrite (l : List Byte) (n : Nat) (bs : List Byte) (k : Nat)
    (h : n + bs.length ≤ l.length) :
    (overwrite l n bs)[k]? =
      if k < n then l[k]? else if k < n + bs.length then bs[k - n]? else l[k]? := by
  unfold overwrite
  by_cases h1 : k < n
  · rw [if_pos h1, List.append_assoc, List.getElem?_append_left (by simp; omega)]
    simp [List.getElem?_take, h1]
  · rw [if_neg h1, List.append_assoc, List.getElem?_append_right (by simp; omega)]
    have hlen : (List.take n l).length = n := by simp; omega
    rw [hlen]
    by_cases h2 : k < n + bs.length
    · rw [if_pos h2, List.getElem?_append_left (by omega)]
    · rw [if_neg h2, List.getElem?_append_right (by omega), List.getElem?_drop]
      congr 1
      omega

theorem overwrite_set (l : List Byte) (n : Nat) (b : Byte) (bs : List Byte)
    (h : n + 1 + bs.length ≤ l.length) :
    overwrite (l.set n b) (n + 1) bs = overwrite l n (b :: bs) := by
  apply List.ext_getElem?
  intro k
  rw [getElem?_overwrite _ _ _ _ (by simp; omega), getElem?_overwrite _ _ _ _ (by simp; omega)]
  simp only [List.length_cons, List.getElem?_set]
  by_cases h1 : k < n
  · have : ¬ n = k := by omega
    simp [h1, this, show k < n + 1 by omega]
  · by_cases h2 : k = n
    · subst h2
      simp [h]
      omega
    · have h3 : ¬ k < n + 1 := by omega
      have h4 : ¬ n = k := by omega
      simp only [h1, h3, h4, if_false]
      by_cases h5 : k < n + 1 + bs.length
      · rw [if_pos h5, if_pos (by omega)]
        obtain ⟨j, rfl⟩ : ∃ j, k = n + 1 + j := ⟨k - (n + 1), by omega⟩
        have e1 : n + 1 + j - (n + 1) = j := by omega
        have e2 : n + 1 + j - n = j + 1 := by omega
        rw [e1, e2]
        simp
      · rw [if_neg h5, if_neg (by omega)]

theorem overwrite_nil (l : List Byte) (n : Nat) : overwrite l n [] = l := by
  simp [overwrite]

/-- The stores of a write on a storage that is long enough. -/
theorem loop_eq : ∀ (bs : List Byte) (k : Nat) (buf : Buffer),
    0 ≤ buf.pointer → buf.pointer.toNat + k + bs.length ≤ buf.bytes.elems.length →
    buf.bytes.len ≤ maxInt →
    storeFrom (k : Int) bs buf =
      .ok () ⟨⟨overwrite buf.bytes.elems (buf.pointer.toNat + k) bs, buf.bytes.spare⟩,
        buf.pointer⟩ := by
  intro bs
  induction bs with
  | nil =>
    intro k buf _ _ _
    rw [storeFrom, pure_apply, overwrite_nil]
  | cons b rest ih =>
    intro k buf hp hlen hmax
    have hmax' : (buf.bytes.elems.length : Int) ≤ 2 ^ 63 - 1 := hmax
    rw [List.length_cons] at hlen
    have hw1 : wrapInt (buf.pointer + (k : Int)) = ((buf.pointer.toNat + k : Nat) : Int) := by
      rw [wrapInt_eq]
      · omega
      · simp only [minInt]; omega
      · simp only [maxInt]; omega
    have hw2 : wrapInt ((k : Int) + 1) = ((k + 1 : Nat) : Int) := by
      rw [wrapInt_eq]
      · omega
      · simp only [minInt]; omega
      · simp only [maxInt]; omega
    have hst := storeByte_eq buf ((buf.pointer.toNat + k : Nat) : Int) b (by omega)
      (by simp only [Slice.len]; omega)
    rw [Int.toNat_ofNat] at hst
    have hih := ih (k + 1) ⟨⟨buf.bytes.elems.set (buf.pointer.toNat + k) b, buf.bytes.spare⟩,
      buf.pointer⟩ hp (by simp only [List.length_set]; omega)
      (by simp only [Slice.len, List.length_set]; exact hmax)
    rw [storeFrom, bind_getPointer, hw1, bind_ok hst, hw2, hih]
    simp only []
    rw [← Nat.add_assoc, overwrite_set _ _ _ _ (by omega)]

/-- A write of the bytes `bs` at the cursor: growth, copy, advance. -/
theorem write_eq (grow : Nat → Nat → Nat) (bs : List Byte) (buf : Buffer) (hv : buf.Valid)
    (hp : 0 ≤ buf.pointer) (hfit : buf.pointer + (bs.length : Int) ≤ maxInt) :
    ∃ sp, (do EnsureSize grow (bs.length : Int); storeFrom 0 bs;
              advance (bs.length : Int) : Op Unit) buf =
        .ok () ⟨⟨overwrite (grown buf.bytes.elems (buf.pointer.toNat + bs.length))
          buf.pointer.toNat bs, sp⟩, buf.pointer + (bs.length : Int)⟩ ∧
      (buf.pointer + (bs.length : Int) ≤ buf.bytes.len → sp = buf.bytes.spare) := by
  have hmax : buf.bytes.len ≤ maxInt := hv.2.2
  have hmin : minInt ≤ 0 := by decide
  have hl : (0 : Int) ≤ buf.bytes.len := Int.natCast_nonneg _
  have hmax' : buf.bytes.len ≤ 2 ^ 63 - 1 := hmax
  have hfit' : buf.pointer + (bs.length : Int) ≤ 2 ^ 63 - 1 := hfit
  obtain ⟨sp, he, hsp⟩ := EnsureSize_eq grow (bs.length : Int) buf hv (by omega) hfit
    (by simp only [minInt]; omega)
  refine ⟨sp, ?_, hsp⟩
  have hg : buf.bytes.elems ++ List.replicate
      (buf.pointer + (bs.length : Int) - buf.bytes.len).toNat 0 =
      grown buf.bytes.elems (buf.pointer.toNat + bs.length) := by
    unfold grown
    congr 2
    simp only [Slice.len]
    omega
  rw [hg] at he
  have hgl := grown_length buf.bytes.elems (buf.pointer.toNat + bs.length)
  have hloop := loop_eq bs 0 ⟨⟨grown buf.bytes.elems (buf.pointer.toNat + bs.length), sp⟩,
    buf.pointer⟩ hp (by simp only [hgl]; omega)
    (by simp only [Slice.len, hgl, maxInt]; simp only [Slice.len] at hmax'; omega)
  rw [Nat.cast_zero] at hloop
  simp only [Nat.add_zero] at hloop
  rw [bind_ok he, bind_ok hloop]
  unfold advance
  simp only []
  rw [wrapInt_eq (by simp only [minInt]; omega) hfit]

/-! ## Big-endian composition -/

theorem or_eq_add (a b k : Nat) (ha : 2 ^ k ∣ a) (hb : b < 2 ^ k) : a ||| b = a + b := by
  obtain ⟨c, rfl⟩ := ha
  rw [Nat.mul_add_lt_is_or hb]

theorem shlAt_eq (w : Nat) (b : Byte) (k : Nat) (h : k + 8 ≤ w) :
    shlAt w b k = b.val * 2 ^ k := by
  have hb : b.val < 2 ^ 8 := b.isLt
  have h1 : b.val < 2 ^ w := lt_of_lt_of_le hb (Nat.pow_le_pow_right (by decide) (by omega))
  have h2 : b.val * 2 ^ k < 2 ^ w := by
    calc b.val * 2 ^ k < 2 ^ 8 * 2 ^ k := Nat.mul_lt_mul_of_pos_right hb (Nat.two_pow_pos k)
      _ = 2 ^ (8 + k) := (Nat.pow_add 2 8 k).symm
      _ ≤ 2 ^ w := Nat.pow_le_pow_right (by decide) (by omega)
  unfold shlAt
  rw [Nat.mod_eq_of_lt h1, Nat.shiftLeft_eq, Nat.mod_eq_of_lt h2]

theorem compose8 (b1 : Byte) : 0 ||| shlAt 8 b1 0 = b1.val := by
  rw [shlAt_eq 8 b1 0 (by decide), Nat.zero_or, Nat.pow_zero, Nat.mul_one]

theorem compose16 (b1 b2 : Byte) :
    0 ||| shlAt 16 b1 8 ||| shlAt 16 b2 0 =
      b1.val * 256 + b2.val := by
  have h1 := b1.isLt
  have h2 := b2.isLt
  rw [shlAt_eq 16 b1 8 (by decide), shlAt_eq 16 b2 0 (by decide), Nat.zero_or]
  norm_num only
  rw [or_eq_add (b1.val * 256) (b2.val * 1) 8 ⟨b1.val, by omega⟩ (by omega)]
  omega

theorem compose32 (b1 b2 b3 b4 : Byte) :
    0 ||| shlAt 32 b1 24 ||| shlAt 32 b2 16 ||| shlAt 32 b3 8 ||| shlAt 32 b4 0 =
      b1.val * 256 ^ 3 + b2.val * 256 ^ 2 + b3.val * 256 + b4.val := by
  have h1 := b1.isLt
  have h2 := b2.isLt
  have h3 := b3.isLt
  have h4 := b4.isLt
  rw [shlAt_eq 32 b1 24 (by decide), shlAt_eq 32 b2 16 (by decide), shlAt_eq 32 b3 8 (by decide), shlAt_eq 32 b4 0 (by decide), Nat.zero_or]
  norm_num only
  rw [or_eq_add (b1.val * 16777216) (b2.val * 65536) 24 ⟨b1.val, by omega⟩ (by omega),
    or_eq_add (b1.val * 16777216 + b2.val * 65536) (b3.val * 256) 16 ⟨b1.val * 256 + b2.val, by omega⟩ (by omega),
    or_eq_add (b1.val * 16777216 + b2.val * 65536 + b3.val * 256) (b4.val * 1) 8 ⟨b1.val * 65536 + b2.val * 256 + b3.val, by omega⟩ (by omega)]
  omega

theorem compose64 (b1 b2 b3 b4 b5 b6 b7 b8 : Byte) :
    0 ||| shlAt 64 b1 56 ||| shlAt 64 b2 48 ||| shlAt 64 b3 40 ||| shlAt 64 b4 32 ||| shlAt 64 b5 24 ||| shlAt 64 b6 16 ||| shlAt 64 b7 8 ||| shlAt 64 b8 0 =
      b1.val * 256 ^ 7 + b2.val * 256 ^ 6 + b3.val * 256 ^ 5 + b4.val * 256 ^ 4 + b5.val * 256 ^ 3 + b6.val * 256 ^ 2 + b7.val * 256 + b8.val := by
  have h1 := b1.isLt
  have h2 := b2.isLt
  have h3 := b3.isLt
  have h4 := b4.isLt
  have h5 := b5.isLt
  have h6 := b6.isLt
  have h7 := b7.isLt
  have h8 := b8.isLt
  rw [shlAt_eq 64 b1 56 (by decide), shlAt_eq 64 b2 48 (by decide), shlAt_eq 64 b3 40 (by decide), shlAt_eq 64 b4 32 (by decide), shlAt_eq 64 b5 24 (by decide), shlAt_eq 64 b6 16 (by decide), shlAt_eq 64 b7 8 (by decide), shlAt_eq 64 b8 0 (by decide), Nat.zero_or]
  norm_num only
  rw [or_eq_add (b1.val * 72057594037927936) (b2.val * 281474976710656) 56 ⟨b1.val, by omega⟩ (by omega),
    or_eq_add (b1.val * 72057594037927936 + b2.val * 281474976710656) (b3.val * 1099511627776) 48 ⟨b1.val * 256 + b2.val, by omega⟩ (by omega),
    or_eq_add (b1.val * 72057594037927936 + b2.val * 281474976710656 + b3.val * 1099511627776) (b4.val * 4294967296) 40 ⟨b1.val * 65536 + b2.val * 256 + b3.val, by omega⟩ (by omega),
    or_eq_add (b1.val * 72057594037927936 + b2.val * 281474976710656 + b3.val * 1099511627776 + b4.val * 4294967296) (b5.val * 16777216) 32 ⟨b1.val * 16777216 + b2.val * 65536 + b3.val * 256 + b4.val, by omega⟩ (by omega),
    or_eq_add (b1.val * 72057594037927936 + b2.val * 281474976710656 + b3.val * 1099511627776 + b4.val * 4294967296 + b5.val * 16777216) (b6.val * 65536) 24 ⟨b1.val * 4294967296 + b2.val * 16777216 + b3.val * 65536 + b4.val * 256 + b5.val, by omega⟩ (by omega),
    or_eq_add (b1.val * 72057594037927936 + b2.val * 281474976710656 + b3.val * 1099511627776 + b4.val * 4294967296 + b5.val * 16777216 + b6.val * 65536) (b7.val * 256) 16 ⟨b1.val * 1099511627776 + b2.val * 4294967296 + b3.val * 16777216 + b4.val * 65536 + b5.val * 256 + b6.val, by omega⟩ (by omega),
    or_eq_add (b1.val * 72057594037927936 + b2.val * 281474976710656 + b3.val * 1099511627776 + b4.val * 4294967296 + b5.val * 16777216 + b6.val * 65536 + b7.val * 256) (b8.val * 1) 8 ⟨b1.val * 281474976710656 + b2.val * 1099511627776 + b3.val * 4294967296 + b4.val * 16777216 + b5.val * 65536 + b6.val * 256 + b7.val, by omega⟩ (by omega)]
  omega

/-! ## Reads and writes of each width -/

theorem bind_advance {β : Type} (n : Int) (f : Unit → Op β) (buf : Buffer) :
    (advance n >>= f) buf = f () ⟨buf.bytes, wrapInt (buf.pointer + n)⟩ :=
  bind_ok (by unfold advance; rfl)

theorem lt_length_of_getElem? {l : List Byte} {i : Nat} {b : Byte} (h : l[i]? = some b) :
    i < l.length := by
  by_contra hc
  rw [List.getElem?_eq_none (by omega)] at h
  exact Option.noConfusion h

theorem bind_loadByte {β : Type} (buf : Buffer) (k : Nat) (b : Byte) (f : Byte → Op β)
    (hp : 0 ≤ buf.pointer) (hmax : buf.bytes.len ≤ maxInt)
    (h : buf.bytes.elems[buf.pointer.toNat + k]? = some b) :
    (loadByte (wrapInt (buf.pointer + (k : Int))) >>= f) buf = f b buf := by
  have hlt := lt_length_of_getElem? h
  have hmax' : (buf.bytes.elems.length : Int) ≤ 2 ^ 63 - 1 := hmax
  have hw : wrapInt (buf.pointer + (k : Int)) = buf.pointer + (k : Int) := by
    rw [wrapInt_eq]
    · simp only [minInt]; omega
    · simp only [maxInt]; omega
  have hi : (buf.pointer + (k : Int)).toNat = buf.pointer.toNat + k := by omega
  rw [hw]
  exact bind_ok (loadByte_eq buf _ b (by omega) (by rw [hi]; exact h))

theorem ReadUint8_eq (buf : Buffer) (b1 : Byte) (hp : 0 ≤ buf.pointer)
    (hmax : buf.bytes.len ≤ maxInt)
    (h1 : buf.bytes.elems[buf.pointer.toNat + 0]? = some b1) :
    ReadUint8 buf = .ok (b1.val) ⟨buf.bytes, buf.pointer + 1⟩ := by
  have hlt := lt_length_of_getElem? h1
  have hmax' : (buf.bytes.elems.length : Int) ≤ 2 ^ 63 - 1 := hmax
  have hw : wrapInt (buf.pointer + 1) = buf.pointer + 1 := by
    rw [wrapInt_eq]
    · simp only [minInt]; omega
    · simp only [maxInt]; omega
  rw [ReadUint8, bind_getPointer]
  rw [show ((0 : Int)) = ((0 : Nat) : Int) from rfl, bind_loadByte buf 0 b1 _ hp hmax h1]
  rw [bind_advance, hw, pure_apply, compose8]

theorem ReadUint16_eq (buf : Buffer) (b1 b2 : Byte) (hp : 0 ≤ buf.pointer)
    (hmax : buf.bytes.len ≤ maxInt)
    (h1 : buf.bytes.elems[buf.pointer.toNat + 0]? = some b1)
    (h2 : buf.bytes.elems[buf.pointer.toNat + 1]? = some b2) :
    ReadUint16 buf = .ok (b1.val * 256 + b2.val) ⟨buf.bytes, buf.pointer + 2⟩ := by
  have hlt := lt_length_of_getElem? h2
  have hmax' : (buf.bytes.elems.length : Int) ≤ 2 ^ 63 - 1 := hmax
  have hw : wrapInt (buf.pointer + 2) = buf.pointer + 2 := by
    rw [wrapInt_eq]
    · simp only [minInt]; omega
    · simp only [maxInt]; omega
  rw [ReadUint16, bind_getPointer]
  rw [show ((0 : Int)) = ((0 : Nat) : Int) from rfl, bind_loadByte buf 0 b1 _ hp hmax h1]
  rw [show ((1 : Int)) = ((1 : Nat) : Int) from rfl, bind_loadByte buf 1 b2 _ hp hmax h2]
  rw [bind_advance, hw, pure_apply, compose16]

theorem ReadUint32_eq (buf : Buffer) (b1 b2 b3 b4 : Byte) (hp : 0 ≤ buf.pointer)
    (hmax : buf.bytes.len ≤ maxInt)
    (h1 : buf.bytes.elems[buf.pointer.toNat + 0]? = some b1)
    (h2 : buf.bytes.elems[buf.pointer.toNat + 1]? = some b2)
    (h3 : buf.bytes.elems[buf.pointer.toNat + 2]? = some b3)
    (h4 : buf.bytes.elems[buf.pointer.toNat + 3]? = some b4) :
    ReadUint32 buf = .ok (b1.val * 256 ^ 3 + b2.val * 256 ^ 2 + b3.val * 256 + b4.val) ⟨buf.bytes, buf.pointer + 4⟩ := by
  have hlt := lt_length_of_getElem? h4
  have hmax' : (buf.bytes.elems.length : Int) ≤ 2 ^ 63 - 1 := hmax
  have hw : wrapInt (buf.pointer + 4) = buf.pointer + 4 := by
    rw [wrapInt_eq]
    · simp only [minInt]; omega
    · simp only [maxInt]; omega
  rw [ReadUint32, bind_getPointer]
  rw [show ((0 : Int)) = ((0 : Nat) : Int) from rfl, bind_loadByte buf 0 b1 _ hp hmax h1]
  rw [show ((1 : Int)) = ((1 : Nat) : Int) from rfl, bind_loadByte buf 1 b2 _ hp hmax h2]
  rw [show ((2 : Int)) = ((2 : Nat) : Int) from rfl, bind_loadByte buf 2 b3 _ hp hmax h3]
  rw [show ((3 : Int)) = ((3 : Nat) : Int) from rfl, bind_loadByte buf 3 b4 _ hp hmax h4]
  rw [bind_advance, hw, pure_apply, compose32]

theorem ReadUint64_eq (buf : Buffer) (b1 b2 b3 b4 b5 b6 b7 b8 : Byte) (hp : 0 ≤ buf.pointer)
    (hmax : buf.bytes.len ≤ maxInt)
    (h1 : buf.bytes.elems[buf.pointer.toNat + 0]? = some b1)
    (h2 : buf.bytes.elems[buf.pointer.toNat + 1]? = some b2)
    (h3 : buf.bytes.elems[buf.pointer.toNat + 2]? = some b3)
    (h4 : buf.bytes.elems[buf.pointer.toNat + 3]? = some b4)
    (h5 : buf.bytes.elems[buf.pointer.toNat + 4]? = some b5)
    (h6 : buf.bytes.elems[buf.pointer.toNat + 5]? = some b6)
    (h7 : buf.bytes.elems[buf.pointer.toNat + 6]? = some b7)
    (h8 : buf.bytes.elems[buf.pointer.toNat + 7]? = some b8) :
    ReadUint64 buf = .ok (b1.val * 256 ^ 7 + b2.val * 256 ^ 6 + b3.val * 256 ^ 5 + b4.val * 256 ^ 4 + b5.val * 256 ^ 3 + b6.val * 256 ^ 2 + b7.val * 256 + b8.val) ⟨buf.bytes, buf.pointer + 8⟩ := by
  have hlt := lt_length_of_getElem? h8
  have hmax' : (buf.bytes.elems.length : Int) ≤ 2 ^ 63 - 1 := hmax
  have hw : wrapInt (buf.pointer + 8) = buf.pointer + 8 := by
    rw [wrapInt_eq]
    · simp only [minInt]; omega
    · simp only [maxInt]; omega
  rw [ReadUint64, bind_getPointer]
  rw [show ((0 : Int)) = ((0 : Nat) : Int) from rfl, bind_loadByte buf 0 b1 _ hp hmax h1]
  rw [show ((1 : Int)) = ((1 : Nat) : Int) from rfl, bind_loadByte buf 1 b2 _ hp hmax h2]
  rw [show ((2 : Int)) = ((2 : Nat) : Int) from rfl, bind_loadByte buf 2 b3 _ hp hmax h3]
  rw [show ((3 : Int)) = ((3 : Nat) : Int) from rfl, bind_loadByte buf 3 b4 _ hp hmax h4]
  rw [show ((4 : Int)) = ((4 : Nat) : Int) from rfl, bind_loadByte buf 4 b5 _ hp hmax h5]
  rw [show ((5 : Int)) = ((5 : Nat) : Int) from rfl, bind_loadByte buf 5 b6 _ hp hmax h6]
  rw [show ((6 : Int)) = ((6 : Nat) : Int) from rfl, bind_loadByte buf 6 b7 _ hp hmax h7]
  rw [show ((7 : Int)) = ((7 : Nat) : Int) from rfl, bind_loadByte buf 7 b8 _ hp hmax h8]
  rw [bind_advance, hw, pure_apply, compose64]

theorem WriteUint8_eq_loop (grow : Nat → Nat → Nat) (value : Nat) :
    WriteUint8 grow value = (do
      EnsureSize grow 1
      storeFrom 0 [toByte (value >>> 0)]
      advance 1) := by
  funext buf
  rw [WriteUint8]
  cases h : EnsureSize grow 1 buf with
  | fault b1 => rw [bind_fault h, bind_fault h]
  | ok u b1 =>
    rw [bind_ok h, bind_ok h]
    simp only [storeFrom, bind_assoc_apply, bind_getPointer, bind_storeByte, bind_pure_apply]

theorem WriteUint16_eq_loop (grow : Nat → Nat → Nat) (value : Nat) :
    WriteUint16 grow value = (do
      EnsureSize grow 2
      storeFrom 0 [toByte (value >>> 8), toByte (value >>> 0)]
      advance 2) := by
  funext buf
  rw [WriteUint16]
  cases h : EnsureSize grow 2 buf with
  | fault b1 => rw [bind_fault h, bind_fault h]
  | ok u b1 =>
    rw [bind_ok h, bind_ok h]
    have e1 : wrapInt (0 + 1) = 1 := by decide
    simp only [storeFrom, bind_assoc_apply, bind_getPointer, bind_storeByte, bind_pure_apply, e1]

theorem WriteUint32_eq_loop (grow : Nat → Nat → Nat) (value : Nat) :
    WriteUint32 grow value = (do
      EnsureSize grow 4
      storeFrom 0 [toByte (value >>> 24), toByte (value >>> 16), toByte (value >>> 8), toByte (value >>> 0)]
      advance 4) := by
  funext buf
  rw [WriteUint32]
  cases h : EnsureSize grow 4 buf with
  | fault b1 => rw [bind_fault h, bind_fault h]
  | ok u b1 =>
    rw [bind_ok h, bind_ok h]
    have e1 : wrapInt (0 + 1) = 1 := by decide
    have e2 : wrapInt (1 + 1) = 2 := by decide
    have e3 : wrapInt (2 + 1) = 3 := by decide
    simp only [storeFrom, bind_assoc_apply, bind_getPointer, bind_storeByte, bind_pure_apply, e1, e2, e3]

theorem WriteUint64_eq_loop (grow : Nat → Nat → Nat) (value : Nat) :
    WriteUint64 grow value = (do
      EnsureSize grow 8
      storeFrom 0 [toByte (value >>> 56), toByte (value >>> 48), toByte (value >>> 40), toByte (value >>> 32), toByte (value >>> 24), toByte (value >>> 16), toByte (value >>> 8), toByte (value >>> 0)]
      advance 8) := by
  funext buf
  rw [WriteUint64]
  cases h : EnsureSize grow 8 buf with
  | fault b1 => rw [bind_fault h, bind_fault h]
  | ok u b1 =>
    rw [bind_ok h, bind_ok h]
    have e1 : wrapInt (0 + 1) = 1 := by decide
    have e2 : wrapInt (1 + 1) = 2 := by decide
    have e3 : wrapInt (2 + 1) = 3 := by decide
    have e4 : wrapInt (3 + 1) = 4 := by decide
    have e5 : wrapInt (4 + 1) = 5 := by decide
    have e6 : wrapInt (5 + 1) = 6 := by decide
    have e7 : wrapInt (6 + 1) = 7 := by decide
    simp only [storeFrom, bind_assoc_apply, bind_getPointer, bind_storeByte, bind_pure_apply, e1, e2, e3, e4, e5, e6, e7]

theorem toByte_val (x : Nat) : (toByte x).val = x % 256 := rfl

theorem SetPointer_eq (q : Int) (buf : Buffer) : SetPointer q buf = .ok () ⟨buf.bytes, q⟩ := by
  unfold SetPointer
  rfl

theorem bind_SetPointer {β : Type} (q : Int) (f : Unit → Op β) (buf : Buffer) :
    (SetPointer q >>= f) buf = f () ⟨buf.bytes, q⟩ := bind_ok (SetPointer_eq q buf)

theorem writeThenRead_eq {α : Type} {write : Op Unit} {read : Op α} {buf : Buffer} {s : Slice}
    {p q : Int} {out : Outcome α} (hw : write buf = .ok () ⟨s, q⟩) (hr : read ⟨s, p⟩ = out) :
    writeThenRead write p read buf = out := by
  unfold writeThenRead
  rw [bind_ok hw, bind_SetPointer]
  exact hr

theorem bind_pure_of_ok {α β : Type} {m : Op α} {buf buf1 : Buffer} {a : α} (f : α → β)
    (h : m buf = .ok a buf1) : (m >>= fun u => pure (f u)) buf = .ok (f a) buf1 := by
  rw [bind_ok h, pure_apply]

theorem bind_pure_of_fault {α β : Type} {m : Op α} {buf buf1 : Buffer} (f : α → β)
    (h : m buf = .fault buf1) : (m >>= fun u => pure (f u)) buf = .fault buf1 :=
  bind_fault h

theorem value8 (v : Nat) (h : v < 2 ^ 8) :
    (toByte (v >>> 0)).val = v := by
  simp only [toByte_val, Nat.shiftRight_eq_div_pow]
  omega

theorem WriteUint8_eq (grow : Nat → Nat → Nat) (v : Nat) (buf : Buffer) (hv : buf.Valid)
    (hp : 0 ≤ buf.pointer) (hfit : buf.pointer + 1 ≤ maxInt) :
    ∃ sp, WriteUint8 grow v buf =
        .ok () ⟨⟨overwrite (grown buf.bytes.elems (buf.pointer.toNat + 1))
          buf.pointer.toNat (bytes8 v), sp⟩, buf.pointer + 1⟩ ∧
      (buf.pointer + 1 ≤ buf.bytes.len → sp = buf.bytes.spare) := by
  have h := write_eq grow (bytes8 v) buf hv hp hfit
  rw [WriteUint8_eq_loop]
  exact h

theorem readBack8 (grow : Nat → Nat → Nat) (v : Nat) (buf : Buffer) (hv : buf.Valid)
    (hp : 0 ≤ buf.pointer) (hfit : buf.pointer + 1 ≤ maxInt) (hval : v < 2 ^ 8) :
    ∃ s, WriteUint8 grow v buf = .ok () ⟨s, buf.pointer + 1⟩ ∧
      ReadUint8 ⟨s, buf.pointer⟩ = .ok v ⟨s, buf.pointer + 1⟩ := by
  obtain ⟨sp, hw, -⟩ := WriteUint8_eq grow v buf hv hp hfit
  refine ⟨⟨overwrite (grown buf.bytes.elems (buf.pointer.toNat + 1))
    buf.pointer.toNat (bytes8 v), sp⟩, hw, ?_⟩
  have hmax : buf.bytes.len ≤ maxInt := hv.2.2
  have hmax' : (buf.bytes.elems.length : Int) ≤ 2 ^ 63 - 1 := hmax
  have hfit' : buf.pointer + 1 ≤ 2 ^ 63 - 1 := hfit
  have hgl := grown_length buf.bytes.elems (buf.pointer.toNat + 1)
  have hbl : (bytes8 v).length = 1 := rfl
  have hol := overwrite_length (grown buf.bytes.elems (buf.pointer.toNat + 1))
    buf.pointer.toNat (bytes8 v) (by rw [hgl, hbl]; omega)
  have hget : ∀ k, k < 1 →
      (overwrite (grown buf.bytes.elems (buf.pointer.toNat + 1)) buf.pointer.toNat
        (bytes8 v))[buf.pointer.toNat + k]? = (bytes8 v)[k]? := by
    intro k hk
    rw [getElem?_overwrite _ _ _ _ (by rw [hgl, hbl]; omega), if_neg (by omega),
      if_pos (by rw [hbl]; omega), Nat.add_sub_cancel_left]
  have hr := ReadUint8_eq ⟨⟨overwrite (grown buf.bytes.elems (buf.pointer.toNat + 1))
    buf.pointer.toNat (bytes8 v), sp⟩, buf.pointer⟩
    (toByte (v >>> 0)) hp
    (by simp only [Slice.len, hol, hgl, maxInt]; omega)
    (hget 0 (by decide))
  rw [value8 v hval] at hr
  exact hr

theorem writeThenRead8_eq (grow : Nat → Nat → Nat) (v : Nat) (buf : Buffer) (hv : buf.Valid)
    (hp : 0 ≤ buf.pointer) (hfit : buf.pointer + 1 ≤ maxInt) (hval : v < 2 ^ 8) :
    ∃ s, writeThenRead (WriteUint8 grow v) buf.pointer ReadUint8 buf =
      .ok v ⟨s, buf.pointer + 1⟩ := by
  obtain ⟨s, hw, hr⟩ := readBack8 grow v buf hv hp hfit hval
  exact ⟨s, writeThenRead_eq hw hr⟩

theorem value16 (v : Nat) (h : v < 2 ^ 16) :
    (toByte (v >>> 8)).val * 256 + (toByte (v >>> 0)).val = v := by
  simp only [toByte_val, Nat.shiftRight_eq_div_pow]
  omega

theorem WriteUint16_eq (grow : Nat → Nat → Nat) (v : Nat) (buf : Buffer) (hv : buf.Valid)
    (hp : 0 ≤ buf.pointer) (hfit : buf.pointer + 2 ≤ maxInt) :
    ∃ sp, WriteUint16 grow v buf =
        .ok () ⟨⟨overwrite (grown buf.bytes.elems (buf.pointer.toNat + 2))
          buf.pointer.toNat (bytes16 v), sp⟩, buf.pointer + 2⟩ ∧
      (buf.pointer + 2 ≤ buf.bytes.len → sp = buf.bytes.spare) := by
  have h := write_eq grow (bytes16 v) buf hv hp hfit
  rw [WriteUint16_eq_loop]
  exact h

theorem readBack16 (grow : Nat → Nat → Nat) (v : Nat) (buf : Buffer) (hv : buf.Valid)
    (hp : 0 ≤ buf.pointer) (hfit : buf.pointer + 2 ≤ maxInt) (hval : v < 2 ^ 16) :
    ∃ s, WriteUint16 grow v buf = .ok () ⟨s, buf.pointer + 2⟩ ∧
      ReadUint16 ⟨s, buf.pointer⟩ = .ok v ⟨s, buf.pointer + 2⟩ := by
  obtain ⟨sp, hw, -⟩ := WriteUint16_eq grow v buf hv hp hfit
  refine ⟨⟨overwrite (grown buf.bytes.elems (buf.pointer.toNat + 2))
    buf.pointer.toNat (bytes16 v), sp⟩, hw, ?_⟩
  have hmax : buf.bytes.len ≤ maxInt := hv.2.2
  have hmax' : (buf.bytes.elems.length : Int) ≤ 2 ^ 63 - 1 := hmax
  have hfit' : buf.pointer + 2 ≤ 2 ^ 63 - 1 := hfit
  have hgl := grown_length buf.bytes.elems (buf.pointer.toNat + 2)
  have hbl : (bytes16 v).length = 2 := rfl
  have hol := overwrite_length (grown buf.bytes.elems (buf.pointer.toNat + 2))
    buf.pointer.toNat (bytes16 v) (by rw [hgl, hbl]; omega)
  have hget : ∀ k, k < 2 →
      (overwrite (grown buf.bytes.elems (buf.pointer.toNat + 2)) buf.pointer.toNat
        (bytes16 v))[buf.pointer.toNat + k]? = (bytes16 v)[k]? := by
    intro k hk
    rw [getElem?_overwrite _ _ _ _ (by rw [hgl, hbl]; omega), if_neg (by omega),
      if_pos (by rw [hbl]; omega), Nat.add_sub_cancel_left]
  have hr := ReadUint16_eq ⟨⟨overwrite (grown buf.bytes.elems (buf.pointer.toNat + 2))
    buf.pointer.toNat (bytes16 v), sp⟩, buf.pointer⟩
    (toByte (v >>> 8)) (toByte (v >>> 0)) hp
    (by simp only [Slice.len, hol, hgl, maxInt]; omega)
    (hget 0 (by decide)) (hget 1 (by decide))
  rw [value16 v hval] at hr
  exact hr

theorem writeThenRead16_eq (grow : Nat → Nat → Nat) (v : Nat) (buf : Buffer) (hv : buf.Valid)
    (hp : 0 ≤ buf.pointer) (hfit : buf.pointer + 2 ≤ maxInt) (hval : v < 2 ^ 16) :
    ∃ s, writeThenRead (WriteUint16 grow v) buf.pointer ReadUint16 buf =
      .ok v ⟨s, buf.pointer + 2⟩ := by
  obtain ⟨s, hw, hr⟩ := readBack16 grow v buf hv hp hfit hval
  exact ⟨s, writeThenRead_eq hw hr⟩

theorem value32 (v : Nat) (h : v < 2 ^ 32) :
    (toByte (v >>> 24)).val * 256 ^ 3 + (toByte (v >>> 16)).val * 256 ^ 2 + (toByte (v >>> 8)).val * 256 + (toByte (v >>> 0)).val = v := by
  simp only [toByte_val, Nat.shiftRight_eq_div_pow]
  omega

theorem WriteUint32_eq (grow : Nat → Nat → Nat) (v : Nat) (buf : Buffer) (hv : buf.Valid)
    (hp : 0 ≤ buf.pointer) (hfit : buf.pointer + 4 ≤ maxInt) :
    ∃ sp, WriteUint32 grow v buf =
        .ok () ⟨⟨overwrite (grown buf.bytes.elems (buf.pointer.toNat + 4))
          buf.pointer.toNat (bytes32 v), sp⟩, buf.pointer + 4⟩ ∧
      (buf.pointer + 4 ≤ buf.bytes.len → sp = buf.bytes.spare) := by
  have h := write_eq grow (bytes32 v) buf hv hp hfit
  rw [WriteUint32_eq_loop]
  exact h

theorem readBack32 (grow : Nat → Nat → Nat) (v : Nat) (buf : Buffer) (hv : buf.Valid)
    (hp : 0 ≤ buf.pointer) (hfit : buf.pointer + 4 ≤ maxInt) (hval : v < 2 ^ 32) :
    ∃ s, WriteUint32 grow v buf = .ok () ⟨s, buf.pointer + 4⟩ ∧
      ReadUint32 ⟨s, buf.pointer⟩ = .ok v ⟨s, buf.pointer + 4⟩ := by
  obtain ⟨sp, hw, -⟩ := WriteUint32_eq grow v buf hv hp hfit
  refine ⟨⟨overwrite (grown buf.bytes.elems (buf.pointer.toNat + 4))
    buf.pointer.toNat (bytes32 v), sp⟩, hw, ?_⟩
  have hmax : buf.bytes.len ≤ maxInt := hv.2.2
  have hmax' : (buf.bytes.elems.length : Int) ≤ 2 ^ 63 - 1 := hmax
  have hfit' : buf.pointer + 4 ≤ 2 ^ 63 - 1 := hfit
  have hgl := grown_length buf.bytes.elems (buf.pointer.toNat + 4)
  have hbl : (bytes32 v).length = 4 := rfl
  have hol := overwrite_length (grown buf.bytes.elems (buf.pointer.toNat + 4))
    buf.pointer.toNat (bytes32 v) (by rw [hgl, hbl]; omega)
  have hget : ∀ k, k < 4 →
      (overwrite (grown buf.bytes.elems (buf.pointer.toNat + 4)) buf.pointer.toNat
        (bytes32 v))[buf.pointer.toNat + k]? = (bytes32 v)[k]? := by
    intro k hk
    rw [getElem?_overwrite _ _ _ _ (by rw [hgl, hbl]; omega), if_neg (by omega),
      if_pos (by rw [hbl]; omega), Nat.add_sub_cancel_left]
  have hr := ReadUint32_eq ⟨⟨overwrite (grown buf.bytes.elems (buf.pointer.toNat + 4))
    buf.pointer.toNat (bytes32 v), sp⟩, buf.pointer⟩
    (toByte (v >>> 24)) (toByte (v >>> 16)) (toByte (v >>> 8)) (toByte (v >>> 0)) hp
    (by simp only [Slice.len, hol, hgl, maxInt]; omega)
    (hget 0 (by decide)) (hget 1 (by decide)) (hget 2 (by decide)) (hget 3 (by decide))
  rw [value32 v hval] at hr
  exact hr

theorem writeThenRead32_eq (grow : Nat → Nat → Nat) (v : Nat) (buf : Buffer) (hv : buf.Valid)
    (hp : 0 ≤ buf.pointer) (hfit : buf.pointer + 4 ≤ maxInt) (hval : v < 2 ^ 32) :
    ∃ s, writeThenRead (WriteUint32 grow v) buf.pointer ReadUint32 buf =
      .ok v ⟨s, buf.pointer + 4⟩ := by
  obtain ⟨s, hw, hr⟩ := readBack32 grow v buf hv hp hfit hval
  exact ⟨s, writeThenRead_eq hw hr⟩

theorem value64 (v : Nat) (h : v < 2 ^ 64) :
    (toByte (v >>> 56)).val * 256 ^ 7 + (toByte (v >>> 48)).val * 256 ^ 6 + (toByte (v >>> 40)).val * 256 ^ 5 + (toByte (v >>> 32)).val * 256 ^ 4 + (toByte (v >>> 24)).val * 256 ^ 3 + (toByte (v >>> 16)).val * 256 ^ 2 + (toByte (v >>> 8)).val * 256 + (toByte (v >>> 0)).val = v := by
  simp only [toByte_val, Nat.shiftRight_eq_div_pow]
  omega

theorem WriteUint64_eq (grow : Nat → Nat → Nat) (v : Nat) (buf : Buffer) (hv : buf.Valid)
    (hp : 0 ≤ buf.pointer) (hfit : buf.pointer + 8 ≤ maxInt) :
    ∃ sp, WriteUint64 grow v buf =
        .ok () ⟨⟨overwrite (grown buf.bytes.elems (buf.pointer.toNat + 8))
          buf.pointer.toNat (bytes64 v), sp⟩, buf.pointer + 8⟩ ∧
      (buf.pointer + 8 ≤ buf.bytes.len → sp = buf.bytes.spare) := by
  have h := write_eq grow (bytes64 v) buf hv hp hfit
  rw [WriteUint64_eq_loop]
  exact h

theorem readBack64 (grow : Nat → Nat → Nat) (v : Nat) (buf : Buffer) (hv : buf.Valid)
    (hp : 0 ≤ buf.pointer) (hfit : buf.pointer + 8 ≤ maxInt) (hval : v < 2 ^ 64) :
    ∃ s, WriteUint64 grow v buf = .ok () ⟨s, buf.pointer + 8⟩ ∧
      ReadUint64 ⟨s, buf.pointer⟩ = .ok v ⟨s, buf.pointer + 8⟩ := by
  obtain ⟨sp, hw, -⟩ := WriteUint64_eq grow v buf hv hp hfit
  refine ⟨⟨overwrite (grown buf.bytes.elems (buf.pointer.toNat + 8))
    buf.pointer.toNat (bytes64 v), sp⟩, hw, ?_⟩
  have hmax : buf.bytes.len ≤ maxInt := hv.2.2
  have hmax' : (buf.bytes.elems.length : Int) ≤ 2 ^ 63 - 1 := hmax
  have hfit' : buf.pointer + 8 ≤ 2 ^ 63 - 1 := hfit
  have hgl := grown_length buf.bytes.elems (buf.pointer.toNat + 8)
  have hbl : (bytes64 v).length = 8 := rfl
  have hol := overwrite_length (grown buf.bytes.elems (buf.pointer.toNat + 8))
    buf.pointer.toNat (bytes64 v) (by rw [hgl, hbl]; omega)
  have hget : ∀ k, k < 8 →
      (overwrite (grown buf.bytes.elems (buf.pointer.toNat + 8)) buf.pointer.toNat
        (bytes64 v))[buf.pointer.toNat + k]? = (bytes64 v)[k]? := by
    intro k hk
    rw [getElem?_overwrite _ _ _ _ (by rw [hgl, hbl]; omega), if_neg (by omega),
      if_pos (by rw [hbl]; omega), Nat.add_sub_cancel_left]
  have hr := ReadUint64_eq ⟨⟨overwrite (grown buf.bytes.elems (buf.pointer.toNat + 8))
    buf.pointer.toNat (bytes64 v), sp⟩, buf.pointer⟩
    (toByte (v >>> 56)) (toByte (v >>> 48)) (toByte (v >>> 40)) (toByte (v >>> 32)) (toByte (v >>> 24)) (toByte (v >>> 16)) (toByte (v >>> 8)) (toByte (v >>> 0)) hp
    (by simp only [Slice.len, hol, hgl, maxInt]; omega)
    (hget 0 (by decide)) (hget 1 (by decide)) (hget 2 (by decide)) (hget 3 (by decide)) (hget 4 (by decide)) (hget 5 (by decide)) (hget 6 (by decide)) (hget 7 (by decide))
  rw [value64 v hval] at hr
  exact hr

theorem writeThenRead64_eq (grow : Nat → Nat → Nat) (v : Nat) (buf : Buffer) (hv : buf.Valid)
    (hp : 0 ≤ buf.pointer) (hfit : buf.pointer + 8 ≤ maxInt) (hval : v < 2 ^ 64) :
    ∃ s, writeThenRead (WriteUint64 grow v) buf.pointer ReadUint64 buf =
      .ok v ⟨s, buf.pointer + 8⟩ := by
  obtain ⟨s, hw, hr⟩ := readBack64 grow v buf hv hp hfit hval
  exact ⟨s, writeThenRead_eq hw hr⟩

/-! ## C1: unsigned round trip -/

/-- C1, as stated, fails: with the cursor at the largest `int` the sum `pointer + 1` in
`EnsureSize` wraps around, nothing is appended, and the store of `WriteUint8` is out of range, so
the round trip from a valid buffer with a non-negative cursor returns no value. -/
theorem C1_counterexample :
    Buffer.Valid ⟨⟨[], []⟩, maxInt⟩ ∧ (0 : Int) ≤ maxInt ∧ (7 : Nat) < 2 ^ 8 ∧
    (writeThenRead (WriteUint8 (fun _ _ => 0) 7) maxInt ReadUint8 ⟨⟨[], []⟩, maxInt⟩).result
      = none := by
  decide

/-- C1 (amended). Unsigned round trip: for every width N in {8,16,32,64}, every value `v` of type
uintN, every storage content and every cursor `p` with `0 ≤ p` and `p + N/8 ≤ maxInt`, doing
`WriteUintN(v)`, then `SetPointer(p)`, then `ReadUintN()` returns exactly `v` and leaves the cursor
at `p + N/8`. -/
theorem C1_unsigned_round_trip (grow : Nat → Nat → Nat) (buf : Buffer) (v : Nat)
    (hv : buf.Valid) (hp : 0 ≤ buf.pointer) :
    (v < 2 ^ 8 → buf.pointer + 1 ≤ maxInt →
      (writeThenRead (WriteUint8 grow v) buf.pointer ReadUint8 buf).result = some v ∧
      (writeThenRead (WriteUint8 grow v) buf.pointer ReadUint8 buf).state.pointer
        = buf.pointer + 1) ∧
    (v < 2 ^ 16 → buf.pointer + 2 ≤ maxInt →
      (writeThenRead (WriteUint16 grow v) buf.pointer ReadUint16 buf).result = some v ∧
      (writeThenRead (WriteUint16 grow v) buf.pointer ReadUint16 buf).state.pointer
        = buf.pointer + 2) ∧
    (v < 2 ^ 32 → buf.pointer + 4 ≤ maxInt →
      (writeThenRead (WriteUint32 grow v) buf.pointer ReadUint32 buf).result = some v ∧
      (writeThenRead (WriteUint32 grow v) buf.pointer ReadUint32 buf).state.pointer
        = buf.pointer + 4) ∧
    (v < 2 ^ 64 → buf.pointer + 8 ≤ maxInt →
      (writeThenRead (WriteUint64 grow v) buf.pointer ReadUint64 buf).result = some v ∧
      (writeThenRead (WriteUint64 grow v) buf.pointer ReadUint64 buf).state.pointer
        = buf.pointer + 8) := by
  refine ⟨fun h hfit => ?_, fun h hfit => ?_, fun h hfit => ?_, fun h hfit => ?_⟩
  · obtain ⟨s, hs⟩ := writeThenRead8_eq grow v buf hv hp hfit h
    rw [hs]
    exact ⟨rfl, rfl⟩
  · obtain ⟨s, hs⟩ := writeThenRead16_eq grow v buf hv hp hfit h
    rw [hs]
    exact ⟨rfl, rfl⟩
  · obtain ⟨s, hs⟩ := writeThenRead32_eq grow v buf hv hp hfit h
    rw [hs]
    exact ⟨rfl, rfl⟩
  · obtain ⟨s, hs⟩ := writeThenRead64_eq grow v buf hv hp hfit h
    rw [hs]
    exact ⟨rfl, rfl⟩

/-- C1, witness: the value `0xAB` written at cursor 1 of the storage `[1, 2, 3]`, for each
width. -/
theorem C1_unsigned_round_trip_witness :
    Buffer.Valid ⟨⟨[1, 2, 3], []⟩, 1⟩ ∧ (0 : Int) ≤ 1 ∧
    ((writeThenRead (WriteUint8 (fun _ _ => 0) 0xAB) 1 ReadUint8 ⟨⟨[1, 2, 3], []⟩, 1⟩).result
        = some 0xAB ∧
      (writeThenRead (WriteUint8 (fun _ _ => 0) 0xAB) 1 ReadUint8
        ⟨⟨[1, 2, 3], []⟩, 1⟩).state.pointer = 1 + 1) ∧
    ((writeThenRead (WriteUint16 (fun _ _ => 0) 0xAB) 1 ReadUint16 ⟨⟨[1, 2, 3], []⟩, 1⟩).result
        = some 0xAB ∧
      (writeThenRead (WriteUint16 (fun _ _ => 0) 0xAB) 1 ReadUint16
        ⟨⟨[1, 2, 3], []⟩, 1⟩).state.pointer = 1 + 2) ∧
    ((writeThenRead (WriteUint32 (fun _ _ => 0) 0xAB) 1 ReadUint32 ⟨⟨[1, 2, 3], []⟩, 1⟩).result
        = some 0xAB ∧
      (writeThenRead (WriteUint32 (fun _ _ => 0) 0xAB) 1 ReadUint32
        ⟨⟨[1, 2, 3], []⟩, 1⟩).state.pointer = 1 + 4) ∧
    ((writeThenRead (WriteUint64 (fun _ _ => 0) 0xAB) 1 ReadUint64 ⟨⟨[1, 2, 3], []⟩, 1⟩).result
        = some 0xAB ∧
      (writeThenRead (WriteUint64 (fun _ _ => 0) 0xAB) 1 ReadUint64
        ⟨⟨[1, 2, 3], []⟩, 1⟩).state.pointer = 1 + 8) :=
  ⟨by decide, by decide,
    (C1_unsigned_round_trip (fun _ _ => 0) ⟨⟨[1, 2, 3], []⟩, 1⟩ 0xAB (by decide) (by decide)).1
      (by decide) (by decide),
    (C1_unsigned_round_trip (fun _ _ => 0) ⟨⟨[1, 2, 3], []⟩, 1⟩ 0xAB (by decide) (by decide)).2.1
      (by decide) (by decide),
    (C1_unsigned_round_trip (fun _ _ => 0) ⟨⟨[1, 2, 3], []⟩, 1⟩ 0xAB (by decide) (by decide)).2.2.1
      (by decide) (by decide),
    (C1_unsigned_round_trip (fun _ _ => 0) ⟨⟨[1, 2, 3], []⟩, 1⟩ 0xAB (by decide) (by decide)).2.2.2
      (by decide) (by decide)⟩


/-! ## C2: big-endian write layout -/

theorem getElem?_written (l : List Byte) (n : Nat) (bs : List Byte) (k : Nat)
    (hk : k < bs.length) :
    (overwrite (grown l (n + bs.length)) n bs)[n + k]? = bs[k]? := by
  have hgl := grown_length l (n + bs.length)
  rw [getElem?_overwrite _ _ _ _ (by rw [hgl]; omega), if_neg (by omega), if_pos (by omega),
    Nat.add_sub_cancel_left]

/-- C2, as stated, fails: with the cursor at `maxInt - 1` the sum `pointer + 2` in `EnsureSize`
wraps around, nothing is appended and the first store of `WriteUint16` is out of range; the
storage stays empty, so there is no byte at offset `p`. -/
theorem C2_counterexample :
    Buffer.Valid ⟨⟨[], []⟩, maxInt - 1⟩ ∧ (0 : Int) ≤ maxInt - 1 ∧
    (WriteUint16 (fun _ _ => 0) 0x0102 ⟨⟨[], []⟩, maxInt - 1⟩).result = none ∧
    (WriteUint16 (fun _ _ => 0) 0x0102 ⟨⟨[], []⟩, maxInt - 1⟩).state.bytes.elems = [] := by
  decide

/-- C2 (amended). Big-endian write layout: for every width N in {16,32,64}, every uintN value `v`
and every buffer with cursor `p`, `0 ≤ p` and `p + N/8 ≤ maxInt`, `WriteUintN(v)` returns and
afterwards the storage byte at offset `p + i` (`0 ≤ i < N/8`) equals
`(v >> (8 * (N/8 - 1 - i))) mod 256`, the most-significant byte at the lowest offset; and
`WriteUint32(0xDEADBEEF)` on an empty buffer yields storage exactly `[0xDE, 0xAD, 0xBE, 0xEF]`. -/
theorem C2_big_endian_write_layout (grow : Nat → Nat → Nat) (buf : Buffer) (v : Nat)
    (hv : buf.Valid) (hp : 0 ≤ buf.pointer) :
    (buf.pointer + 2 ≤ maxInt →
      (WriteUint16 grow v buf).result = some () ∧
      ∀ i, i < 2 →
        ((WriteUint16 grow v buf).state.bytes.elems[buf.pointer.toNat + i]?).map Fin.val
          = some ((v >>> (8 * (2 - 1 - i))) % 256)) ∧
    (buf.pointer + 4 ≤ maxInt →
      (WriteUint32 grow v buf).result = some () ∧
      ∀ i, i < 4 →
        ((WriteUint32 grow v buf).state.bytes.elems[buf.pointer.toNat + i]?).map Fin.val
          = some ((v >>> (8 * (4 - 1 - i))) % 256)) ∧
    (buf.pointer + 8 ≤ maxInt →
      (WriteUint64 grow v buf).result = some () ∧
      ∀ i, i < 8 →
        ((WriteUint64 grow v buf).state.bytes.elems[buf.pointer.toNat + i]?).map Fin.val
          = some ((v >>> (8 * (8 - 1 - i))) % 256)) ∧
    (∀ sp, (WriteUint32 grow 0xDEADBEEF (BufferFromBytes ⟨[], sp⟩)).state.bytes.elems
      = [0xDE, 0xAD, 0xBE, 0xEF]) := by
  refine ⟨fun hfit => ?_, fun hfit => ?_, fun hfit => ?_, fun sp => ?_⟩
  · obtain ⟨sp, hw, -⟩ := WriteUint16_eq grow v buf hv hp hfit
    rw [hw]
    refine ⟨rfl, fun i hi => ?_⟩
    have hg := getElem?_written buf.bytes.elems buf.pointer.toNat (bytes16 v) i hi
    rw [show (bytes16 v).length = 2 from rfl] at hg
    show Option.map Fin.val ((overwrite _ _ _)[_]?) = _
    rw [hg]
    interval_cases i <;> rfl
  · obtain ⟨sp, hw, -⟩ := WriteUint32_eq grow v buf hv hp hfit
    rw [hw]
    refine ⟨rfl, fun i hi => ?_⟩
    have hg := getElem?_written buf.bytes.elems buf.pointer.toNat (bytes32 v) i hi
    rw [show (bytes32 v).length = 4 from rfl] at hg
    show Option.map Fin.val ((overwrite _ _ _)[_]?) = _
    rw [hg]
    interval_cases i <;> rfl
  · obtain ⟨sp, hw, -⟩ := WriteUint64_eq grow v buf hv hp hfit
    rw [hw]
    refine ⟨rfl, fun i hi => ?_⟩
    have hg := getElem?_written buf.bytes.elems buf.pointer.toNat (bytes64 v) i hi
    rw [show (bytes64 v).length = 8 from rfl] at hg
    show Option.map Fin.val ((overwrite _ _ _)[_]?) = _
    rw [hg]
    interval_cases i <;> rfl
  · have h0 : (0 : Int) ≤ maxInt := by decide
    have h1 : minInt ≤ (0 : Int) := by decide
    have h4 : (0 : Int) + 4 ≤ maxInt := by decide
    obtain ⟨sp1, hw, -⟩ := WriteUint32_eq grow 0xDEADBEEF (BufferFromBytes ⟨[], sp⟩)
      ⟨h1, h0, h0⟩ (le_refl 0) h4
    rw [hw]
    show overwrite (grown [] ((0 : Int).toNat + 4)) (0 : Int).toNat (bytes32 0xDEADBEEF) = _
    decide

/-- C2, witness: `0x0102030405060708` written at cursor 1 of the storage `[9, 9]`. -/
theorem C2_big_endian_write_layout_witness :
    Buffer.Valid ⟨⟨[9, 9], []⟩, 1⟩ ∧ (0 : Int) ≤ 1 ∧
    ((WriteUint16 (fun _ _ => 0) 0x0102030405060708 ⟨⟨[9, 9], []⟩, 1⟩).result = some () ∧
      ∀ i, i < 2 →
        ((WriteUint16 (fun _ _ => 0) 0x0102030405060708
          ⟨⟨[9, 9], []⟩, 1⟩).state.bytes.elems[(1 : Int).toNat + i]?).map Fin.val
          = some ((0x0102030405060708 >>> (8 * (2 - 1 - i))) % 256)) ∧
    ((WriteUint32 (fun _ _ => 0) 0x0102030405060708 ⟨⟨[9, 9], []⟩, 1⟩).result = some () ∧
      ∀ i, i < 4 →
        ((WriteUint32 (fun _ _ => 0) 0x0102030405060708
          ⟨⟨[9, 9], []⟩, 1⟩).state.bytes.elems[(1 : Int).toNat + i]?).map Fin.val
          = some ((0x0102030405060708 >>> (8 * (4 - 1 - i))) % 256)) ∧
    ((WriteUint64 (fun _ _ => 0) 0x0102030405060708 ⟨⟨[9, 9], []⟩, 1⟩).result = some () ∧
      ∀ i, i < 8 →
        ((WriteUint64 (fun _ _ => 0) 0x0102030405060708
          ⟨⟨[9, 9], []⟩, 1⟩).state.bytes.elems[(1 : Int).toNat + i]?).map Fin.val
          = some ((0x0102030405060708 >>> (8 * (8 - 1 - i))) % 256)) :=
  ⟨by decide, by decide,
    (C2_big_endian_write_layout (fun _ _ => 0) ⟨⟨[9, 9], []⟩, 1⟩ 0x0102030405060708
      (by decide) (by decide)).1 (by decide),
    (C2_big_endian_write_layout (fun _ _ => 0) ⟨⟨[9, 9], []⟩, 1⟩ 0x0102030405060708
      (by decide) (by decide)).2.1 (by decide),
    (C2_big_endian_write_layout (fun _ _ => 0) ⟨⟨[9, 9], []⟩, 1⟩ 0x0102030405060708
      (by decide) (by decide)).2.2.1 (by decide)⟩


/-! ## C3: big-endian read composition -/

theorem getElem?_getD_of_lt (l : List Byte) (i : Nat) (h : i < l.length) :
    l[i]? = some (l.getD i 0) := by
  rw [List.getD_eq_getElem?_getD, List.getElem?_eq_getElem h]
  rfl

/-- C3. Big-endian read composition: for every width N in {8,16,32,64} and every buffer with
`0 ≤ p` and `p + N/8 ≤ length(storage)`, `ReadUintN()` returns the sum over `i` in `[0, N/8)` of
`storage[p+i] * 256 ^ (N/8 - 1 - i)`, advances the cursor to `p + N/8`, and leaves the storage
unchanged. -/
theorem C3_big_endian_read_composition (buf : Buffer) (hv : buf.Valid) (hp : 0 ≤ buf.pointer) :
    (buf.pointer + 1 ≤ buf.bytes.len →
      ReadUint8 buf = .ok
        (Finset.sum (Finset.range 1) fun i =>
          (buf.bytes.elems.getD (buf.pointer.toNat + i) 0).val * 256 ^ (1 - 1 - i))
        ⟨buf.bytes, buf.pointer + 1⟩) ∧
    (buf.pointer + 2 ≤ buf.bytes.len →
      ReadUint16 buf = .ok
        (Finset.sum (Finset.range 2) fun i =>
          (buf.bytes.elems.getD (buf.pointer.toNat + i) 0).val * 256 ^ (2 - 1 - i))
        ⟨buf.bytes, buf.pointer + 2⟩) ∧
    (buf.pointer + 4 ≤ buf.bytes.len →
      ReadUint32 buf = .ok
        (Finset.sum (Finset.range 4) fun i =>
          (buf.bytes.elems.getD (buf.pointer.toNat + i) 0).val * 256 ^ (4 - 1 - i))
        ⟨buf.bytes, buf.pointer + 4⟩) ∧
    (buf.pointer + 8 ≤ buf.bytes.len →
      ReadUint64 buf = .ok
        (Finset.sum (Finset.range 8) fun i =>
          (buf.bytes.elems.getD (buf.pointer.toNat + i) 0).val * 256 ^ (8 - 1 - i))
        ⟨buf.bytes, buf.pointer + 8⟩) := by
  have hmax : buf.bytes.len ≤ maxInt := hv.2.2
  have hg : ∀ k w : Nat, buf.pointer + (w : Int) ≤ buf.bytes.len → k < w →
      buf.bytes.elems[buf.pointer.toNat + k]?
        = some (buf.bytes.elems.getD (buf.pointer.toNat + k) 0) := by
    intro k w hw hk
    apply getElem?_getD_of_lt
    simp only [Slice.len] at hw
    omega
  refine ⟨fun h => ?_, fun h => ?_, fun h => ?_, fun h => ?_⟩
  · rw [ReadUint8_eq buf _ hp hmax (hg 0 1 h (by decide))]
    simp [Finset.sum_range_succ]
  · rw [ReadUint16_eq buf _ _ hp hmax (hg 0 2 h (by decide)) (hg 1 2 h (by decide))]
    simp [Finset.sum_range_succ]
  · rw [ReadUint32_eq buf _ _ _ _ hp hmax (hg 0 4 h (by decide)) (hg 1 4 h (by decide))
      (hg 2 4 h (by decide)) (hg 3 4 h (by decide))]
    simp [Finset.sum_range_succ]
  · rw [ReadUint64_eq buf _ _ _ _ _ _ _ _ hp hmax (hg 0 8 h (by decide)) (hg 1 8 h (by decide))
      (hg 2 8 h (by decide)) (hg 3 8 h (by decide)) (hg 4 8 h (by decide)) (hg 5 8 h (by decide))
      (hg 6 8 h (by decide)) (hg 7 8 h (by decide))]
    simp [Finset.sum_range_succ]

/-- C3, witness: the four reads on the storage `[1, 2, 3, 4, 5, 6, 7, 8, 9]` at cursor 1. -/
theorem C3_big_endian_read_composition_witness :
    sampleBuffer.Valid ∧ 0 ≤ sampleBuffer.pointer ∧
    ReadUint8 sampleBuffer = .ok
        (Finset.sum (Finset.range 1) fun i =>
          (sampleBuffer.bytes.elems.getD (sampleBuffer.pointer.toNat + i) 0).val
            * 256 ^ (1 - 1 - i))
        ⟨sampleBuffer.bytes, sampleBuffer.pointer + 1⟩ ∧
    ReadUint16 sampleBuffer = .ok
        (Finset.sum (Finset.range 2) fun i =>
          (sampleBuffer.bytes.elems.getD (sampleBuffer.pointer.toNat + i) 0).val
            * 256 ^ (2 - 1 - i))
        ⟨sampleBuffer.bytes, sampleBuffer.pointer + 2⟩ ∧
    ReadUint32 sampleBuffer = .ok
        (Finset.sum (Finset.range 4) fun i =>
          (sampleBuffer.bytes.elems.getD (sampleBuffer.pointer.toNat + i) 0).val
            * 256 ^ (4 - 1 - i))
        ⟨sampleBuffer.bytes, sampleBuffer.pointer + 4⟩ ∧
    ReadUint64 sampleBuffer = .ok
        (Finset.sum (Finset.range 8) fun i =>
          (sampleBuffer.bytes.elems.getD (sampleBuffer.pointer.toNat + i) 0).val
            * 256 ^ (8 - 1 - i))
        ⟨sampleBuffer.bytes, sampleBuffer.pointer + 8⟩ :=
  ⟨by decide, by decide,
    (C3_big_endian_read_composition sampleBuffer (by decide) (by decide)).1 (by decide),
    (C3_big_endian_read_composition sampleBuffer (by decide) (by decide)).2.1 (by decide),
    (C3_big_endian_read_composition sampleBuffer (by decide) (by decide)).2.2.1 (by decide),
    (C3_big_endian_read_composition sampleBuffer (by decide) (by decide)).2.2.2 (by decide)⟩


/-! ## C4: signed integers -/

theorem toUnsigned_lt (w : Nat) (v : Int) : toUnsigned w v < 2 ^ w := by
  unfold toUnsigned
  have h1 : (0 : Int) < 2 ^ w := by positivity
  have h2 := Int.emod_lt_of_pos v h1
  have h3 := Int.emod_nonneg v (ne_of_gt h1)
  have h4 : ((v % 2 ^ w).toNat : Int) = v % 2 ^ w := Int.toNat_of_nonneg h3
  have h5 : ((v % 2 ^ w).toNat : Int) < ((2 ^ w : Nat) : Int) := by
    rw [h4]; exact_mod_cast h2
  exact_mod_cast h5

theorem toSigned_toUnsigned8 (v : Int) (h1 : -(2 ^ 7) ≤ v) (h2 : v < 2 ^ 7) :
    toSigned 8 (toUnsigned 8 v) = v := by
  unfold toSigned toUnsigned
  norm_num only at h1 h2 ⊢
  split <;> omega

theorem toSigned_toUnsigned16 (v : Int) (h1 : -(2 ^ 15) ≤ v) (h2 : v < 2 ^ 15) :
    toSigned 16 (toUnsigned 16 v) = v := by
  unfold toSigned toUnsigned
  norm_num only at h1 h2 ⊢
  split <;> omega

theorem toSigned_toUnsigned32 (v : Int) (h1 : -(2 ^ 31) ≤ v) (h2 : v < 2 ^ 31) :
    toSigned 32 (toUnsigned 32 v) = v := by
  unfold toSigned toUnsigned
  norm_num only at h1 h2 ⊢
  split <;> omega

theorem toSigned_toUnsigned64 (v : Int) (h1 : -(2 ^ 63) ≤ v) (h2 : v < 2 ^ 63) :
    toSigned 64 (toUnsigned 64 v) = v := by
  unfold toSigned toUnsigned
  norm_num only at h1 h2 ⊢
  split <;> omega

theorem signedReadBack8 (grow : Nat → Nat → Nat) (v : Int) (buf : Buffer) (hv : buf.Valid)
    (hp : 0 ≤ buf.pointer) (hfit : buf.pointer + 1 ≤ maxInt)
    (h1 : -(2 ^ 7) ≤ v) (h2 : v < 2 ^ 7) :
    ∃ s, WriteInt8 grow v buf = .ok () ⟨s, buf.pointer + 1⟩ ∧
      ReadInt8 ⟨s, buf.pointer⟩ = .ok v ⟨s, buf.pointer + 1⟩ := by
  obtain ⟨s, hw, hr⟩ := readBack8 grow (toUnsigned 8 v) buf hv hp hfit (toUnsigned_lt 8 v)
  refine ⟨s, hw, ?_⟩
  rw [ReadInt8, bind_pure_of_ok _ hr, toSigned_toUnsigned8 v h1 h2]

theorem signedReadBack16 (grow : Nat → Nat → Nat) (v : Int) (buf : Buffer) (hv : buf.Valid)
    (hp : 0 ≤ buf.pointer) (hfit : buf.pointer + 2 ≤ maxInt)
    (h1 : -(2 ^ 15) ≤ v) (h2 : v < 2 ^ 15) :
    ∃ s, WriteInt16 grow v buf = .ok () ⟨s, buf.pointer + 2⟩ ∧
      ReadInt16 ⟨s, buf.pointer⟩ = .ok v ⟨s, buf.pointer + 2⟩ := by
  obtain ⟨s, hw, hr⟩ := readBack16 grow (toUnsigned 16 v) buf hv hp hfit (toUnsigned_lt 16 v)
  refine ⟨s, hw, ?_⟩
  rw [ReadInt16, bind_pure_of_ok _ hr, toSigned_toUnsigned16 v h1 h2]

theorem signedReadBack32 (grow : Nat → Nat → Nat) (v : Int) (buf : Buffer) (hv : buf.Valid)
    (hp : 0 ≤ buf.pointer) (hfit : buf.pointer + 4 ≤ maxInt)
    (h1 : -(2 ^ 31) ≤ v) (h2 : v < 2 ^ 31) :
    ∃ s, WriteInt32 grow v buf = .ok () ⟨s, buf.pointer + 4⟩ ∧
      ReadInt32 ⟨s, buf.pointer⟩ = .ok v ⟨s, buf.pointer + 4⟩ := by
  obtain ⟨s, hw, hr⟩ := readBack32 grow (toUnsigned 32 v) buf hv hp hfit (toUnsigned_lt 32 v)
  refine ⟨s, hw, ?_⟩
  rw [ReadInt32, bind_pure_of_ok _ hr, toSigned_toUnsigned32 v h1 h2]

theorem signedReadBack64 (grow : Nat → Nat → Nat) (v : Int) (buf : Buffer) (hv : buf.Valid)
    (hp : 0 ≤ buf.pointer) (hfit : buf.pointer + 8 ≤ maxInt)
    (h1 : -(2 ^ 63) ≤ v) (h2 : v < 2 ^ 63) :
    ∃ s, WriteInt64 grow v buf = .ok () ⟨s, buf.pointer + 8⟩ ∧
      ReadInt64 ⟨s, buf.pointer⟩ = .ok v ⟨s, buf.pointer + 8⟩ := by
  obtain ⟨s, hw, hr⟩ := readBack64 grow (toUnsigned 64 v) buf hv hp hfit (toUnsigned_lt 64 v)
  refine ⟨s, hw, ?_⟩
  rw [ReadInt64, bind_pure_of_ok _ hr, toSigned_toUnsigned64 v h1 h2]

/-- C4, as stated, fails: with the cursor at the largest `int`, `WriteInt8(-1)` on the empty
buffer ends in an out-of-range store (the sum `pointer + 1` in `EnsureSize` wraps around and
nothing is appended), so the round trip returns no value. -/
theorem C4_counterexample :
    Buffer.Valid ⟨⟨[], []⟩, maxInt⟩ ∧ (0 : Int) ≤ maxInt ∧
    WriteInt8 (fun _ _ => 0) (-1) ⟨⟨[], []⟩, maxInt⟩ = .fault ⟨⟨[], []⟩, maxInt⟩ ∧
    (writeThenRead (WriteInt8 (fun _ _ => 0) (-1)) maxInt ReadInt8 ⟨⟨[], []⟩, maxInt⟩).result
      = none := by
  decide

/-- C4 (amended). Signed integers are two's-complement reinterpretations: for every width N in
{8,16,32,64}, every intN value `v` (the minimum and maximum of the width included) and every
buffer, `WriteIntN(v)` produces the same outcome as `WriteUintN(v mod 2^N)`; when the cursor `p`
satisfies `0 ≤ p` and `p + N/8 ≤ maxInt`, `WriteIntN(v); SetPointer(p); ReadIntN()` returns exactly
`v`; and `WriteInt16(-1)` on an empty buffer yields storage `[0xFF, 0xFF]` and reads back `-1`. -/
theorem C4_signed_round_trip (grow : Nat → Nat → Nat) (buf : Buffer) (v : Int)
    (hv : buf.Valid) (hp : 0 ≤ buf.pointer) :
    (WriteInt8 grow v buf = WriteUint8 grow (v % 2 ^ 8).toNat buf ∧
      (-(2 ^ 7) ≤ v → v < 2 ^ 7 → buf.pointer + 1 ≤ maxInt →
        (writeThenRead (WriteInt8 grow v) buf.pointer ReadInt8 buf).result = some v)) ∧
    (WriteInt16 grow v buf = WriteUint16 grow (v % 2 ^ 16).toNat buf ∧
      (-(2 ^ 15) ≤ v → v < 2 ^ 15 → buf.pointer + 2 ≤ maxInt →
        (writeThenRead (WriteInt16 grow v) buf.pointer ReadInt16 buf).result = some v)) ∧
    (WriteInt32 grow v buf = WriteUint32 grow (v % 2 ^ 32).toNat buf ∧
      (-(2 ^ 31) ≤ v → v < 2 ^ 31 → buf.pointer + 4 ≤ maxInt →
        (writeThenRead (WriteInt32 grow v) buf.pointer ReadInt32 buf).result = some v)) ∧
    (WriteInt64 grow v buf = WriteUint64 grow (v % 2 ^ 64).toNat buf ∧
      (-(2 ^ 63) ≤ v → v < 2 ^ 63 → buf.pointer + 8 ≤ maxInt →
        (writeThenRead (WriteInt64 grow v) buf.pointer ReadInt64 buf).result = some v)) ∧
    (∀ sp, (WriteInt16 grow (-1) (BufferFromBytes ⟨[], sp⟩)).state.bytes.elems = [0xFF, 0xFF] ∧
      (writeThenRead (WriteInt16 grow (-1)) 0 ReadInt16 (BufferFromBytes ⟨[], sp⟩)).result
        = some (-1)) := by
  refine ⟨⟨rfl, fun h1 h2 hfit => ?_⟩, ⟨rfl, fun h1 h2 hfit => ?_⟩,
    ⟨rfl, fun h1 h2 hfit => ?_⟩, ⟨rfl, fun h1 h2 hfit => ?_⟩, fun sp => ?_⟩
  · obtain ⟨s, hw, hr⟩ := signedReadBack8 grow v buf hv hp hfit h1 h2
    rw [writeThenRead_eq hw hr]
    rfl
  · obtain ⟨s, hw, hr⟩ := signedReadBack16 grow v buf hv hp hfit h1 h2
    rw [writeThenRead_eq hw hr]
    rfl
  · obtain ⟨s, hw, hr⟩ := signedReadBack32 grow v buf hv hp hfit h1 h2
    rw [writeThenRead_eq hw hr]
    rfl
  · obtain ⟨s, hw, hr⟩ := signedReadBack64 grow v buf hv hp hfit h1 h2
    rw [writeThenRead_eq hw hr]
    rfl
  · have h0 : (0 : Int) ≤ maxInt := by decide
    have hm : minInt ≤ (0 : Int) := by decide
    have h2 : (0 : Int) + 2 ≤ maxInt := by decide
    have hvalid : (BufferFromBytes ⟨[], sp⟩).Valid := ⟨hm, h0, h0⟩
    constructor
    · obtain ⟨sp1, hw, -⟩ := WriteUint16_eq grow (toUnsigned 16 (-1)) (BufferFromBytes ⟨[], sp⟩)
        hvalid (le_refl 0) h2
      rw [WriteInt16, hw]
      show overwrite (grown [] ((0 : Int).toNat + 2)) (0 : Int).toNat
        (bytes16 (toUnsigned 16 (-1))) = _
      decide
    · obtain ⟨s, hw, hr⟩ := signedReadBack16 grow (-1) (BufferFromBytes ⟨[], sp⟩) hvalid
        (le_refl 0) h2 (by decide) (by decide)
      have hres : writeThenRead (WriteInt16 grow (-1)) 0 ReadInt16 (BufferFromBytes ⟨[], sp⟩)
          = .ok (-1) ⟨s, 0 + 2⟩ := writeThenRead_eq hw hr
      rw [hres]
      rfl

/-- C4, witness: the value `-2` written at cursor 1 of the sample storage. -/
theorem C4_signed_round_trip_witness :
    sampleBuffer.Valid ∧ 0 ≤ sampleBuffer.pointer ∧
    (writeThenRead (WriteInt8 (fun _ _ => 0) (-2)) sampleBuffer.pointer ReadInt8
      sampleBuffer).result = some (-2) ∧
    (writeThenRead (WriteInt16 (fun _ _ => 0) (-2)) sampleBuffer.pointer ReadInt16
      sampleBuffer).result = some (-2) ∧
    (writeThenRead (WriteInt32 (fun _ _ => 0) (-2)) sampleBuffer.pointer ReadInt32
      sampleBuffer).result = some (-2) ∧
    (writeThenRead (WriteInt64 (fun _ _ => 0) (-2)) sampleBuffer.pointer ReadInt64
      sampleBuffer).result = some (-2) :=
  ⟨by decide, by decide,
    (C4_signed_round_trip (fun _ _ => 0) sampleBuffer (-2) (by decide) (by decide)).1.2
      (by decide) (by decide) (by decide),
    (C4_signed_round_trip (fun _ _ => 0) sampleBuffer (-2) (by decide) (by decide)).2.1.2
      (by decide) (by decide) (by decide),
    (C4_signed_round_trip (fun _ _ => 0) sampleBuffer (-2) (by decide) (by decide)).2.2.1.2
      (by decide) (by decide) (by decide),
    (C4_signed_round_trip (fun _ _ => 0) sampleBuffer (-2) (by decide) (by decide)).2.2.2.1.2
      (by decide) (by decide) (by decide)⟩


/-! ## C5: floats -/

theorem Float32frombits_bits (f : Float32) : Float32frombits (Float32bits f) = f := by
  apply Fin.ext
  show f.val % 2 ^ 32 = f.val
  exact Nat.mod_eq_of_lt f.isLt

theorem Float64frombits_bits (f : Float64) : Float64frombits (Float64bits f) = f := by
  apply Fin.ext
  show f.val % 2 ^ 64 = f.val
  exact Nat.mod_eq_of_lt f.isLt

theorem layout32 (grow : Nat → Nat → Nat) (v : Nat) (buf : Buffer) (hv : buf.Valid)
    (hp : 0 ≤ buf.pointer) (hfit : buf.pointer + 4 ≤ maxInt) (i : Nat) (hi : i < 4) :
    ((WriteUint32 grow v buf).state.bytes.elems[buf.pointer.toNat + i]?).map Fin.val
      = some ((v >>> (8 * (4 - 1 - i))) % 256) := by
  obtain ⟨sp, hw, -⟩ := WriteUint32_eq grow v buf hv hp hfit
  rw [hw]
  have hg := getElem?_written buf.bytes.elems buf.pointer.toNat (bytes32 v) i hi
  rw [show (bytes32 v).length = 4 from rfl] at hg
  show Option.map Fin.val ((overwrite _ _ _)[_]?) = _
  rw [hg]
  interval_cases i <;> rfl

theorem layout64 (grow : Nat → Nat → Nat) (v : Nat) (buf : Buffer) (hv : buf.Valid)
    (hp : 0 ≤ buf.pointer) (hfit : buf.pointer + 8 ≤ maxInt) (i : Nat) (hi : i < 8) :
    ((WriteUint64 grow v buf).state.bytes.elems[buf.pointer.toNat + i]?).map Fin.val
      = some ((v >>> (8 * (8 - 1 - i))) % 256) := by
  obtain ⟨sp, hw, -⟩ := WriteUint64_eq grow v buf hv hp hfit
  rw [hw]
  have hg := getElem?_written buf.bytes.elems buf.pointer.toNat (bytes64 v) i hi
  rw [show (bytes64 v).length = 8 from rfl] at hg
  show Option.map Fin.val ((overwrite _ _ _)[_]?) = _
  rw [hg]
  interval_cases i <;> rfl

theorem floatReadBack32 (grow : Nat → Nat → Nat) (f : Float32) (buf : Buffer) (hv : buf.Valid)
    (hp : 0 ≤ buf.pointer) (hfit : buf.pointer + 4 ≤ maxInt) :
    ∃ s, WriteFloat32 grow f buf = .ok () ⟨s, buf.pointer + 4⟩ ∧
      ReadFloat32 ⟨s, buf.pointer⟩ = .ok f ⟨s, buf.pointer + 4⟩ := by
  obtain ⟨s, hw, hr⟩ := readBack32 grow (Float32bits f) buf hv hp hfit f.isLt
  refine ⟨s, hw, ?_⟩
  rw [ReadFloat32, bind_pure_of_ok _ hr, Float32frombits_bits]

theorem floatReadBack64 (grow : Nat → Nat → Nat) (f : Float64) (buf : Buffer) (hv : buf.Valid)
    (hp : 0 ≤ buf.pointer) (hfit : buf.pointer + 8 ≤ maxInt) :
    ∃ s, WriteFloat64 grow f buf = .ok () ⟨s, buf.pointer + 8⟩ ∧
      ReadFloat64 ⟨s, buf.pointer⟩ = .ok f ⟨s, buf.pointer + 8⟩ := by
  obtain ⟨s, hw, hr⟩ := readBack64 grow (Float64bits f) buf hv hp hfit f.isLt
  refine ⟨s, hw, ?_⟩
  rw [ReadFloat64, bind_pure_of_ok _ hr, Float64frombits_bits]

/-- C5, as stated, fails: with the cursor at `maxInt - 3`, `WriteFloat32` on a valid buffer ends
in an out-of-range store (the sum `pointer + 4` in `EnsureSize` wraps around), so the round trip
returns no value. -/
theorem C5_counterexample :
    Buffer.Valid ⟨⟨[], []⟩, maxInt - 3⟩ ∧ (0 : Int) ≤ maxInt - 3 ∧
    (writeThenRead (WriteFloat32 (fun _ _ => 0) 0x3FC00000) (maxInt - 3) ReadFloat32
      ⟨⟨[], []⟩, maxInt - 3⟩).result = none := by
  decide

/-- C5 (amended). Float round trip is bit-exact: a float32 (resp. float64) value is represented
by its IEEE-754 binary32 (resp. binary64) bit pattern, every pattern being a value (NaN patterns,
signed zeros and infinities included). For every such value `v` and every buffer with cursor `p`,
`0 ≤ p` and `p + 4 ≤ maxInt` (resp. `p + 8 ≤ maxInt`), `WriteFloat32(v)` is the write of the bit
pattern of `v` as a big-endian uint32 (resp. uint64), and `WriteFloatN(v); SetPointer(p);
ReadFloatN()` returns the value with the bit pattern of `v`. -/
theorem C5_float_round_trip (grow : Nat → Nat → Nat) (buf : Buffer) (v : Float32) (d : Float64)
    (hv : buf.Valid) (hp : 0 ≤ buf.pointer) :
    (buf.pointer + 4 ≤ maxInt →
      WriteFloat32 grow v buf = WriteUint32 grow (Float32bits v) buf ∧
      (∀ i, i < 4 →
        ((WriteFloat32 grow v buf).state.bytes.elems[buf.pointer.toNat + i]?).map Fin.val
          = some ((Float32bits v >>> (8 * (4 - 1 - i))) % 256)) ∧
      (writeThenRead (WriteFloat32 grow v) buf.pointer ReadFloat32 buf).result = some v ∧
      ((writeThenRead (WriteFloat32 grow v) buf.pointer ReadFloat32 buf).result.map Float32bits
        = some (Float32bits v))) ∧
    (buf.pointer + 8 ≤ maxInt →
      WriteFloat64 grow d buf = WriteUint64 grow (Float64bits d) buf ∧
      (∀ i, i < 8 →
        ((WriteFloat64 grow d buf).state.bytes.elems[buf.pointer.toNat + i]?).map Fin.val
          = some ((Float64bits d >>> (8 * (8 - 1 - i))) % 256)) ∧
      (writeThenRead (WriteFloat64 grow d) buf.pointer ReadFloat64 buf).result = some d ∧
      ((writeThenRead (WriteFloat64 grow d) buf.pointer ReadFloat64 buf).result.map Float64bits
        = some (Float64bits d))) := by
  refine ⟨fun hfit => ⟨rfl, fun i hi => layout32 grow _ buf hv hp hfit i hi, ?_, ?_⟩,
    fun hfit => ⟨rfl, fun i hi => layout64 grow _ buf hv hp hfit i hi, ?_, ?_⟩⟩
  · obtain ⟨s, hw, hr⟩ := floatReadBack32 grow v buf hv hp hfit
    rw [writeThenRead_eq hw hr]
    rfl
  · obtain ⟨s, hw, hr⟩ := floatReadBack32 grow v buf hv hp hfit
    rw [writeThenRead_eq hw hr]
    rfl
  · obtain ⟨s, hw, hr⟩ := floatReadBack64 grow d buf hv hp hfit
    rw [writeThenRead_eq hw hr]
    rfl
  · obtain ⟨s, hw, hr⟩ := floatReadBack64 grow d buf hv hp hfit
    rw [writeThenRead_eq hw hr]
    rfl

/-- C5, witness: the patterns of a quiet NaN (`0x7FC00001`) and of `1.5` as a float64
(`0x3FF8000000000000`) written at cursor 1 of the sample storage. -/
theorem C5_float_round_trip_witness :
    sampleBuffer.Valid ∧ 0 ≤ sampleBuffer.pointer ∧
    (writeThenRead (WriteFloat32 (fun _ _ => 0) 0x7FC00001) sampleBuffer.pointer ReadFloat32
      sampleBuffer).result = some 0x7FC00001 ∧
    (writeThenRead (WriteFloat64 (fun _ _ => 0) 0x3FF8000000000000) sampleBuffer.pointer
      ReadFloat64 sampleBuffer).result = some 0x3FF8000000000000 :=
  ⟨by decide, by decide,
    ((C5_float_round_trip (fun _ _ => 0) sampleBuffer 0x7FC00001 0x3FF8000000000000
      (by decide) (by decide)).1 (by decide)).2.2.1,
    ((C5_float_round_trip (fun _ _ => 0) sampleBuffer 0x7FC00001 0x3FF8000000000000
      (by decide) (by decide)).2 (by decide)).2.2.1⟩


/-! ## C6: booleans -/

theorem WriteBool_eq_WriteUint8 (grow : Nat → Nat → Nat) (b : Bool) :
    WriteBool grow b = WriteUint8 grow (if b then 1 else 0) := by
  cases b <;> rfl

theorem ReadBool_of_ReadUint8 {buf buf1 : Buffer} {u : Nat} (h : ReadUint8 buf = .ok u buf1) :
    ReadBool buf = .ok (decide (u ≠ 0)) buf1 := by
  rw [ReadBool, bind_ok h]
  by_cases hu : u = 0
  · rw [if_pos hu, pure_apply]
    simp [hu]
  · rw [if_neg hu, pure_apply]
    simp [hu]

theorem boolReadBack (grow : Nat → Nat → Nat) (b : Bool) (buf : Buffer) (hv : buf.Valid)
    (hp : 0 ≤ buf.pointer) (hfit : buf.pointer + 1 ≤ maxInt) :
    ∃ s, WriteBool grow b buf = .ok () ⟨s, buf.pointer + 1⟩ ∧
      ReadBool ⟨s, buf.pointer⟩ = .ok b ⟨s, buf.pointer + 1⟩ := by
  obtain ⟨s, hw, hr⟩ := readBack8 grow (if b then 1 else 0) buf hv hp hfit
    (by cases b <;> decide)
  refine ⟨s, by rw [WriteBool_eq_WriteUint8]; exact hw, ?_⟩
  rw [ReadBool_of_ReadUint8 hr]
  cases b <;> rfl

theorem layout8 (grow : Nat → Nat → Nat) (v : Nat) (buf : Buffer) (hv : buf.Valid)
    (hp : 0 ≤ buf.pointer) (hfit : buf.pointer + 1 ≤ maxInt) :
    ((WriteUint8 grow v buf).state.bytes.elems[buf.pointer.toNat]?).map Fin.val
      = some (v % 256) := by
  obtain ⟨sp, hw, -⟩ := WriteUint8_eq grow v buf hv hp hfit
  rw [hw]
  have hg := getElem?_written buf.bytes.elems buf.pointer.toNat (bytes8 v) 0
    (Nat.zero_lt_succ 0)
  rw [show (bytes8 v).length = 1 from rfl] at hg
  show Option.map Fin.val ((overwrite _ _ _)[buf.pointer.toNat + 0]?) = _
  rw [hg]
  rfl

/-- C6, as stated, fails: with the cursor at the largest `int`, `WriteBool(true)` on the empty
buffer ends in an out-of-range store (the sum `pointer + 1` in `EnsureSize` wraps around and
nothing is appended): nothing is stored at offset `p` and the round trip returns no value. -/
theorem C6_counterexample :
    Buffer.Valid ⟨⟨[], []⟩, maxInt⟩ ∧ (0 : Int) ≤ maxInt ∧
    (WriteBool (fun _ _ => 0) true ⟨⟨[], []⟩, maxInt⟩).result = none ∧
    (WriteBool (fun _ _ => 0) true ⟨⟨[], []⟩, maxInt⟩).state.bytes.elems = [] ∧
    (writeThenRead (WriteBool (fun _ _ => 0) true) maxInt ReadBool
      ⟨⟨[], []⟩, maxInt⟩).result = none := by
  decide

/-- C6 (amended). Boolean normalization: for every buffer with cursor `p`, `0 ≤ p` and
`p + 1 ≤ maxInt`, `WriteBool(true)` stores byte 1 at offset `p` and `WriteBool(false)` stores byte
0 at offset `p`, and `WriteBool(b); SetPointer(p); ReadBool()` returns `b`; for every buffer with
`0 ≤ p < length(storage)`, `ReadBool()` returns false if `storage[p] = 0` and true for every
non-zero byte (e.g. 0xFF). -/
theorem C6_boolean_normalization (grow : Nat → Nat → Nat) (buf : Buffer) (b : Bool)
    (hv : buf.Valid) (hp : 0 ≤ buf.pointer) :
    (buf.pointer + 1 ≤ maxInt →
      (WriteBool grow b buf).result = some () ∧
      ((WriteBool grow b buf).state.bytes.elems[buf.pointer.toNat]?).map Fin.val
        = some (if b then 1 else 0) ∧
      (writeThenRead (WriteBool grow b) buf.pointer ReadBool buf).result = some b) ∧
    (buf.pointer < buf.bytes.len →
      ((buf.bytes.elems.getD buf.pointer.toNat 0).val = 0 →
        (ReadBool buf).result = some false) ∧
      ((buf.bytes.elems.getD buf.pointer.toNat 0).val ≠ 0 →
        (ReadBool buf).result = some true)) ∧
    (ReadBool (BufferFromBytes ⟨[0xFF], []⟩)).result = some true := by
  refine ⟨fun hfit => ⟨?_, ?_, ?_⟩, fun hlt => ?_, by decide⟩
  · obtain ⟨s, hw, -⟩ := boolReadBack grow b buf hv hp hfit
    rw [hw]
    rfl
  · rw [WriteBool_eq_WriteUint8, layout8 grow _ buf hv hp hfit]
    cases b <;> rfl
  · obtain ⟨s, hw, hr⟩ := boolReadBack grow b buf hv hp hfit
    rw [writeThenRead_eq hw hr]
    rfl
  · have hmax : buf.bytes.len ≤ maxInt := hv.2.2
    have hget : buf.bytes.elems[buf.pointer.toNat + 0]?
        = some (buf.bytes.elems.getD buf.pointer.toNat 0) := by
      apply getElem?_getD_of_lt
      simp only [Slice.len] at hlt
      omega
    have hr := ReadBool_of_ReadUint8 (ReadUint8_eq buf _ hp hmax hget)
    rw [hr]
    constructor
    · intro h0
      show some (decide _) = some false
      rw [decide_eq_false (not_not.mpr h0)]
    · intro h0
      show some (decide _) = some true
      rw [decide_eq_true h0]

/-- C6, witness: `WriteBool(true)` at cursor 1 of the sample storage, and `ReadBool()` there
(the byte at offset 1 is 2). -/
theorem C6_boolean_normalization_witness :
    sampleBuffer.Valid ∧ 0 ≤ sampleBuffer.pointer ∧
    ((WriteBool (fun _ _ => 0) true sampleBuffer).result = some () ∧
      ((WriteBool (fun _ _ => 0) true sampleBuffer).state.bytes.elems[
        sampleBuffer.pointer.toNat]?).map Fin.val = some (if true then 1 else 0) ∧
      (writeThenRead (WriteBool (fun _ _ => 0) true) sampleBuffer.pointer ReadBool
        sampleBuffer).result = some true) ∧
    (ReadBool sampleBuffer).result = some true :=
  ⟨by decide, by decide,
    (C6_boolean_normalization (fun _ _ => 0) sampleBuffer true (by decide) (by decide)).1
      (by decide),
    ((C6_boolean_normalization (fun _ _ => 0) sampleBuffer true (by decide) (by decide)).2.1
      (by decide)).2 (by decide)⟩


/-! ## C7: growth on write -/

theorem getElem?_grown (l : List Byte) (need i : Nat) :
    (grown l need)[i]? =
      if i < l.length then l[i]? else if i < need then some 0 else none := by
  unfold grown
  by_cases h1 : i < l.length
  · rw [if_pos h1, List.getElem?_append_left h1]
  · rw [if_neg h1, List.getElem?_append_right (by omega)]
    by_cases h2 : i < need
    · rw [if_pos h2, List.getElem?_replicate, if_pos (by omega)]
    · rw [if_neg h2, List.getElem?_replicate, if_neg (by omega)]

theorem writeSeq_eq (grow : Nat → Nat → Nat) (bs : List Byte) (buf : Buffer) (hv : buf.Valid)
    (hp : 0 ≤ buf.pointer) (hfit : buf.pointer + (bs.length : Int) ≤ maxInt) :
    ∃ sp, writeSeq grow bs buf =
        .ok () ⟨⟨overwrite (grown buf.bytes.elems (buf.pointer.toNat + bs.length))
          buf.pointer.toNat bs, sp⟩, buf.pointer + (bs.length : Int)⟩ ∧
      (buf.pointer + (bs.length : Int) ≤ buf.bytes.len → sp = buf.bytes.spare) :=
  write_eq grow bs buf hv hp hfit

theorem bind_loadCell {β : Type} (c : Cell) (f : Byte → Op β) (buf : Buffer) :
    (loadCell c >>= f) buf = f (c.read buf) buf := bind_ok (by unfold loadCell; rfl)

theorem bind_getBuffer {β : Type} (f : Buffer → Op β) (buf : Buffer) :
    (getBuffer >>= f) buf = f buf buf := bind_ok (by unfold getBuffer; rfl)

theorem bind_congr_apply {α β : Type} {m m' : Op α} (f : α → Op β) {buf : Buffer}
    (h : m buf = m' buf) : (m >>= f) buf = (m' >>= f) buf := by
  cases h' : m' buf with
  | fault b1 => rw [bind_fault h', bind_fault (h.trans h')]
  | ok a b1 => rw [bind_ok h', bind_ok (h.trans h')]

/-- The loop of `WriteBytes` stores some list of bytes, one for each element of the argument:
the values the elements have when their turn comes. -/
theorem loop_shape : ∀ (cells : List Cell) (i : Int) (buf : Buffer),
    ∃ bs : List Byte, bs.length = cells.length ∧
      WriteBytes.loop i cells buf = storeFrom i bs buf := by
  intro cells
  induction cells with
  | nil =>
    intro i buf
    exact ⟨[], rfl, by rw [WriteBytes.loop, storeFrom]⟩
  | cons c rest ih =>
    intro i buf
    cases h : storeByte (wrapInt (buf.pointer + i)) (c.read buf) buf with
    | fault b1 =>
      refine ⟨c.read buf :: List.replicate rest.length 0, by simp, ?_⟩
      rw [WriteBytes.loop, storeFrom, bind_getPointer, bind_getPointer, bind_loadCell,
        bind_fault h, bind_fault h]
    | ok u b1 =>
      obtain ⟨bs, hl, hb⟩ := ih (wrapInt (i + 1)) b1
      refine ⟨c.read buf :: bs, by simp [hl], ?_⟩
      rw [WriteBytes.loop, storeFrom, bind_getPointer, bind_getPointer, bind_loadCell,
        bind_ok h, bind_ok h, hb]

/-- The loop of `WriteBytes` on an argument that shares no memory with the storage. -/
theorem loop_owned : ∀ (bs : List Byte) (i : Int) (buf : Buffer),
    WriteBytes.loop i (owned bs) buf = storeFrom i bs buf := by
  intro bs
  induction bs with
  | nil =>
    intro i buf
    rw [owned, List.map_nil, WriteBytes.loop, storeFrom]
  | cons b rest ih =>
    intro i buf
    have hr : (Cell.own b).read buf = b := rfl
    rw [owned, List.map_cons, WriteBytes.loop, storeFrom, bind_getPointer, bind_getPointer,
      bind_loadCell, hr]
    cases h : storeByte (wrapInt (buf.pointer + i)) b buf with
    | fault b1 => rw [bind_fault h, bind_fault h]
    | ok u b1 => rw [bind_ok h, bind_ok h]; exact ih (wrapInt (i + 1)) b1

theorem length_owned (bs : List Byte) : (owned bs).length = bs.length := by
  rw [owned, List.length_map]

theorem freeze_owned (buf : Buffer) (bs : List Byte) :
    (owned bs).map (Cell.freeze buf) = owned bs := by
  rw [owned, List.map_map]
  rfl

/-- What `WriteBytes` does after `size := len(bytes)`, on the state `buf`. -/
theorem WriteBytes_apply (grow : Nat → Nat → Nat) (bytes : List Cell) (buf : Buffer) :
    WriteBytes grow bytes buf =
      (EnsureSize grow (bytes.length : Int) >>= fun _ => getBuffer >>= fun new =>
        WriteBytes.loop 0 (if new.bytes.cap = buf.bytes.cap then bytes
          else bytes.map (Cell.freeze buf)) >>= fun _ => advance (bytes.length : Int)) buf := by
  rw [WriteBytes, bind_getBuffer]

/-- Every call of `WriteBytes` does what a write of some list of bytes does, of the length of the
argument: the values that the loop reads. -/
theorem WriteBytes_shape (grow : Nat → Nat → Nat) (bytes : List Cell) (buf : Buffer) :
    ∃ bs : List Byte, bs.length = bytes.length ∧
      WriteBytes grow bytes buf = writeSeq grow bs buf := by
  rw [WriteBytes_apply]
  cases h : EnsureSize grow (bytes.length : Int) buf with
  | fault b1 =>
    refine ⟨List.replicate bytes.length 0, List.length_replicate _ _, ?_⟩
    rw [writeSeq, List.length_replicate, bind_fault h, bind_fault h]
  | ok u b1 =>
    have hlen : (if b1.bytes.cap = buf.bytes.cap then bytes
        else bytes.map (Cell.freeze buf)).length = bytes.length := by
      split
      · rfl
      · exact List.length_map _ _
    obtain ⟨bs, hl, hb⟩ := loop_shape (if b1.bytes.cap = buf.bytes.cap then bytes
        else bytes.map (Cell.freeze buf)) 0 b1
    refine ⟨bs, hl.trans hlen, ?_⟩
    rw [writeSeq, hl.trans hlen, bind_ok h, bind_ok h, bind_getBuffer]
    exact bind_congr_apply _ hb

/-- `WriteBytes` with an argument that shares no memory with the storage is the write of its
bytes. -/
theorem WriteBytes_owned (grow : Nat → Nat → Nat) (bs : List Byte) :
    WriteBytes grow (owned bs) = writeSeq grow bs := by
  funext buf
  rw [WriteBytes_apply, writeSeq, length_owned, freeze_owned]
  cases h : EnsureSize grow (bs.length : Int) buf with
  | fault b1 => rw [bind_fault h, bind_fault h]
  | ok u b1 =>
    rw [bind_ok h, bind_ok h, bind_getBuffer, ite_self]
    exact bind_congr_apply _ (loop_owned bs 0 b1)

theorem scalarWrites_shape {grow : Nat → Nat → Nat} {u : Nat} {i : Int} {b : Bool}
    {f : Float32} {d : Float64} {wr : Op Unit × Nat}
    (h : wr ∈ scalarWrites grow u i b f d) :
    ∃ bs : List Byte, wr.1 = writeSeq grow bs ∧ wr.2 = bs.length := by
  simp only [scalarWrites, List.mem_cons, List.mem_singleton, List.not_mem_nil, or_false] at h
  rcases h with h | h | h | h | h | h | h | h | h | h | h <;> subst h
  · exact ⟨bytes8 u, WriteUint8_eq_loop grow u, rfl⟩
  · exact ⟨bytes16 u, WriteUint16_eq_loop grow u, rfl⟩
  · exact ⟨bytes32 u, WriteUint32_eq_loop grow u, rfl⟩
  · exact ⟨bytes64 u, WriteUint64_eq_loop grow u, rfl⟩
  · exact ⟨bytes8 (toUnsigned 8 i), WriteUint8_eq_loop grow _, rfl⟩
  · exact ⟨bytes16 (toUnsigned 16 i), WriteUint16_eq_loop grow _, rfl⟩
  · exact ⟨bytes32 (toUnsigned 32 i), WriteUint32_eq_loop grow _, rfl⟩
  · exact ⟨bytes64 (toUnsigned 64 i), WriteUint64_eq_loop grow _, rfl⟩
  · exact ⟨bytes8 (if b then 1 else 0),
      (WriteBool_eq_WriteUint8 grow b).trans (WriteUint8_eq_loop grow _), rfl⟩
  · exact ⟨bytes32 (Float32bits f), WriteUint32_eq_loop grow _, rfl⟩
  · exact ⟨bytes64 (Float64bits d), WriteUint64_eq_loop grow _, rfl⟩

theorem writeSeq_growth (grow : Nat → Nat → Nat) (bs : List Byte) (buf : Buffer)
    (hv : buf.Valid) (hp : 0 ≤ buf.pointer)
    (hgrow : buf.bytes.len < buf.pointer + (bs.length : Int))
    (hfit : buf.pointer + (bs.length : Int) ≤ maxInt) :
    (writeSeq grow bs buf).result = some () ∧
    ((writeSeq grow bs buf).state.bytes.elems.length : Int) = buf.pointer + (bs.length : Int) ∧
    (∀ k, k < buf.bytes.elems.length → k < buf.pointer.toNat →
      (writeSeq grow bs buf).state.bytes.elems[k]? = buf.bytes.elems[k]?) ∧
    (∀ k, buf.bytes.elems.length ≤ k → k < buf.pointer.toNat →
      (writeSeq grow bs buf).state.bytes.elems[k]? = some 0) := by
  obtain ⟨sp, hw, -⟩ := writeSeq_eq grow bs buf hv hp hfit
  rw [hw]
  have hgl := grown_length buf.bytes.elems (buf.pointer.toNat + bs.length)
  have hol := overwrite_length (grown buf.bytes.elems (buf.pointer.toNat + bs.length))
    buf.pointer.toNat bs (by rw [hgl]; omega)
  simp only [Slice.len] at hgrow
  refine ⟨rfl, ?_, fun k hk1 hk2 => ?_, fun k hk1 hk2 => ?_⟩
  · show ((overwrite _ _ _).length : Int) = _
    rw [hol, hgl]
    omega
  · show (overwrite _ _ _)[k]? = _
    rw [getElem?_overwrite _ _ _ _ (by rw [hgl]; omega), if_pos hk2, getElem?_grown, if_pos hk1]
  · show (overwrite _ _ _)[k]? = _
    rw [getElem?_overwrite _ _ _ _ (by rw [hgl]; omega), if_pos hk2, getElem?_grown,
      if_neg (by omega), if_pos (by omega)]

/-- C7, as stated, fails twice. On the storage `[1, 2]` with the cursor at 1, `WriteUint16(0xAABB)`
grows the storage to length 3 and replaces the old byte at offset 1: old bytes at offsets from the
cursor on do not keep their values. And with the cursor at `maxInt - 2` the sum `pointer + 4` in
`EnsureSize` wraps around, nothing is appended and `WriteUint32` ends in an out-of-range store. -/
theorem C7_counterexample :
    (Buffer.Valid ⟨⟨[1, 2], []⟩, 1⟩ ∧ (0 : Int) ≤ 1 ∧ Slice.len ⟨[1, 2], []⟩ < 1 + 2 ∧
      (⟨[1, 2], []⟩ : Slice).elems[1]? = some 2 ∧
      (WriteUint16 (fun _ _ => 0) 0xAABB ⟨⟨[1, 2], []⟩, 1⟩).state.bytes.elems
        = [1, 0xAA, 0xBB]) ∧
    (Buffer.Valid ⟨⟨[], []⟩, maxInt - 2⟩ ∧ (0 : Int) ≤ maxInt - 2 ∧
      Slice.len ⟨[], []⟩ < maxInt - 2 + 4 ∧
      (WriteUint32 (fun _ _ => 0) 1 ⟨⟨[], []⟩, maxInt - 2⟩).result = none ∧
      (WriteUint32 (fun _ _ => 0) 1 ⟨⟨[], []⟩, maxInt - 2⟩).state.bytes.elems = []) := by
  decide

/-- C7 (amended). Growth on write: for every scalar write of byte width `w` on a buffer with
cursor `p`, `0 ≤ p`, `p + w > length(storage)` and `p + w ≤ maxInt`, the write returns, the
resulting storage length is exactly `p + w`, the old bytes at offsets below `p` keep their values
(those from `p` on are overwritten by the value), and every newly added byte at an offset in
`[old length, p)` is zero; e.g. empty buffer, `SetPointer(4)`, `WriteUint8(7)` yields storage
`[0, 0, 0, 0, 7]` of length 5. -/
theorem C7_growth_on_write (grow : Nat → Nat → Nat) (buf : Buffer) (u : Nat) (i : Int)
    (b : Bool) (f : Float32) (d : Float64) (hv : buf.Valid) (hp : 0 ≤ buf.pointer) :
    (∀ wr ∈ scalarWrites grow u i b f d,
      buf.bytes.len < buf.pointer + (wr.2 : Int) → buf.pointer + (wr.2 : Int) ≤ maxInt →
        (wr.1 buf).result = some () ∧
        ((wr.1 buf).state.bytes.elems.length : Int) = buf.pointer + (wr.2 : Int) ∧
        (∀ k, k < buf.bytes.elems.length → k < buf.pointer.toNat →
          (wr.1 buf).state.bytes.elems[k]? = buf.bytes.elems[k]?) ∧
        (∀ k, buf.bytes.elems.length ≤ k → k < buf.pointer.toNat →
          (wr.1 buf).state.bytes.elems[k]? = some 0)) ∧
    (∀ sp, ((do SetPointer 4; WriteUint8 grow 7 : Op Unit)
      (BufferFromBytes ⟨[], sp⟩)).state.bytes.elems = [0, 0, 0, 0, 7]) := by
  refine ⟨fun wr hmem hgrow hfit => ?_, fun sp => ?_⟩
  · obtain ⟨bs, h1, h2⟩ := scalarWrites_shape hmem
    rw [h1]
    rw [h2] at hgrow hfit ⊢
    exact writeSeq_growth grow bs buf hv hp hgrow hfit
  · rw [bind_SetPointer]
    have h0 : (4 : Int) ≤ maxInt := by decide
    have hl : (0 : Int) ≤ maxInt := by decide
    have hm : minInt ≤ (4 : Int) := by decide
    have h5 : (4 : Int) + 1 ≤ maxInt := by decide
    obtain ⟨sp1, hw, -⟩ := WriteUint8_eq grow 7 ⟨(BufferFromBytes ⟨[], sp⟩).bytes, 4⟩
      ⟨hm, h0, hl⟩ (show (0 : Int) ≤ 4 by decide) h5
    rw [hw]
    show overwrite (grown [] ((4 : Int).toNat + 1)) (4 : Int).toNat (bytes8 7) = _
    decide

/-- C7, witness: `WriteUint16(0xAABB)` with the cursor at 3 on the storage `[1, 2]`. -/
theorem C7_growth_on_write_witness :
    Buffer.Valid ⟨⟨[1, 2], []⟩, 3⟩ ∧ (0 : Int) ≤ 3 ∧
    (WriteUint16 (fun _ _ => 0) 0xAABB ⟨⟨[1, 2], []⟩, 3⟩).result = some () ∧
    ((WriteUint16 (fun _ _ => 0) 0xAABB ⟨⟨[1, 2], []⟩, 3⟩).state.bytes.elems.length : Int)
      = 3 + ((2 : Nat) : Int) ∧
    (WriteUint16 (fun _ _ => 0) 0xAABB ⟨⟨[1, 2], []⟩, 3⟩).state.bytes.elems[2]? = some 0 :=
  ⟨by decide, by decide,
    ((C7_growth_on_write (fun _ _ => 0) ⟨⟨[1, 2], []⟩, 3⟩ 0xAABB 0 false 0 0 (by decide)
      (by decide)).1 (WriteUint16 (fun _ _ => 0) 0xAABB, 2)
      (List.mem_cons_of_mem _ (List.mem_cons_self _ _)) (by decide) (by decide)).1,
    ((C7_growth_on_write (fun _ _ => 0) ⟨⟨[1, 2], []⟩, 3⟩ 0xAABB 0 false 0 0 (by decide)
      (by decide)).1 (WriteUint16 (fun _ _ => 0) 0xAABB, 2)
      (List.mem_cons_of_mem _ (List.mem_cons_self _ _)) (by decide) (by decide)).2.1,
    ((C7_growth_on_write (fun _ _ => 0) ⟨⟨[1, 2], []⟩, 3⟩ 0xAABB 0 false 0 0 (by decide)
      (by decide)).1 (WriteUint16 (fun _ _ => 0) 0xAABB, 2)
      (List.mem_cons_of_mem _ (List.mem_cons_self _ _)) (by decide) (by decide)).2.2.2 2
      (by decide) (by decide)⟩


/-! ## C8: `EnsureSize` -/

theorem EnsureSize_noop (grow : Nat → Nat → Nat) (size : Int) (buf : Buffer) (hv : buf.Valid)
    (h1 : minInt ≤ buf.pointer + size) (h2 : buf.pointer + size ≤ maxInt)
    (h3 : minInt ≤ buf.pointer + size - buf.bytes.len)
    (hle : buf.pointer + size ≤ buf.bytes.len) : EnsureSize grow size buf = .ok () buf := by
  obtain ⟨sp, he, hsp⟩ := EnsureSize_eq grow size buf hv h1 h2 h3
  have h0 : (buf.pointer + size - buf.bytes.len).toNat = 0 := by omega
  rw [he, hsp hle, h0, List.replicate_zero, List.append_nil]

/-- C8, as stated, fails. On the empty storage with the cursor at 1, `EnsureSize(maxInt)` computes
`pointer + size` with wrap-around, finds no space needed and leaves the storage empty, where C8
asks for `max(0, p + size - length(s)) = 2^63` zero bytes. And on the storage `[0]` with the
cursor at -1, `EnsureSize(minInt + 1)` computes `pointer + size - len` with wrap-around, finds
`maxInt` bytes needed and ends in a panic (the grown length would not be an `int`), where C8 asks
for no change. -/
theorem C8_counterexample :
    (Buffer.Valid ⟨⟨[], []⟩, 1⟩ ∧ minInt ≤ maxInt ∧ maxInt ≤ maxInt ∧
      EnsureSize (fun _ _ => 0) maxInt ⟨⟨[], []⟩, 1⟩ = .ok () ⟨⟨[], []⟩, 1⟩ ∧
      (max 0 ((1 : Int) + maxInt - Slice.len ⟨[], []⟩)).toNat = 2 ^ 63 ∧
      (EnsureSize (fun _ _ => 0) maxInt ⟨⟨[], []⟩, 1⟩).state.bytes.elems.length
        ≠ ((⟨[], []⟩ : Slice).elems ++ List.replicate
          (max 0 ((1 : Int) + maxInt - Slice.len ⟨[], []⟩)).toNat (0 : Byte)).length) ∧
    (Buffer.Valid ⟨⟨[0], []⟩, -1⟩ ∧ minInt ≤ minInt + 1 ∧ minInt + 1 ≤ maxInt ∧
      (max 0 ((-1 : Int) + (minInt + 1) - Slice.len ⟨[0], []⟩)).toNat = 0 ∧
      (EnsureSize (fun _ _ => 0) (minInt + 1) ⟨⟨[0], []⟩, -1⟩).result = none) := by
  refine ⟨⟨by decide, by decide, by decide, by decide, by decide, ?_⟩, by decide⟩
  rw [List.length_append, List.length_replicate]
  decide

/-- C8 (amended). `EnsureSize` postcondition: for every buffer (storage `s`, cursor `p`) and every
`size` for which neither `p + size` nor `p + size - length(s)` leaves the range of `int`,
`EnsureSize(size)` returns, leaves the cursor unchanged and yields storage equal to `s` followed by
exactly `max(0, p + size - length(s))` zero bytes; hence it leaves the buffer unchanged when
`p + size ≤ length(s)`, and applying `EnsureSize(size)` twice gives the same state as applying it
once. -/
theorem C8_EnsureSize_postcondition (grow : Nat → Nat → Nat) (buf : Buffer) (size : Int)
    (hv : buf.Valid) (h1 : minInt ≤ buf.pointer + size) (h2 : buf.pointer + size ≤ maxInt)
    (h3 : minInt ≤ buf.pointer + size - buf.bytes.len) :
    (EnsureSize grow size buf).result = some () ∧
    (EnsureSize grow size buf).state.pointer = buf.pointer ∧
    (EnsureSize grow size buf).state.bytes.elems = buf.bytes.elems ++
      List.replicate (max 0 (buf.pointer + size - buf.bytes.len)).toNat 0 ∧
    (buf.pointer + size ≤ buf.bytes.len → EnsureSize grow size buf = .ok () buf) ∧
    (do EnsureSize grow size; EnsureSize grow size : Op Unit) buf = EnsureSize grow size buf := by
  obtain ⟨sp, he, hsp⟩ := EnsureSize_eq grow size buf hv h1 h2 h3
  have hmax : buf.bytes.len ≤ maxInt := hv.2.2
  have hmax' : (buf.bytes.elems.length : Int) ≤ 2 ^ 63 - 1 := hmax
  have h2' : buf.pointer + size ≤ 2 ^ 63 - 1 := h2
  have hm : (max 0 (buf.pointer + size - buf.bytes.len)).toNat
      = (buf.pointer + size - buf.bytes.len).toNat := by omega
  refine ⟨?_, ?_, ?_, EnsureSize_noop grow size buf hv h1 h2 h3, ?_⟩
  · rw [he]; rfl
  · rw [he]; rfl
  · rw [he, hm]; rfl
  · rw [bind_ok he]
    have hlen : (⟨buf.bytes.elems ++
        List.replicate (buf.pointer + size - buf.bytes.len).toNat 0, sp⟩ : Slice).len
        = max buf.bytes.len (buf.pointer + size) := by
      simp only [Slice.len, List.length_append, List.length_replicate]
      omega
    have hnoop := EnsureSize_noop grow size
      ⟨⟨buf.bytes.elems ++ List.replicate (buf.pointer + size - buf.bytes.len).toNat 0, sp⟩,
        buf.pointer⟩
      ⟨hv.1, hv.2.1, by rw [hlen]; simp only [maxInt, Slice.len]; omega⟩ h1 h2
      (by rw [hlen]
          show minInt ≤ buf.pointer + size - max buf.bytes.len (buf.pointer + size)
          simp only [minInt, Slice.len] at h3 ⊢
          omega)
      (by rw [hlen]
          show buf.pointer + size ≤ max buf.bytes.len (buf.pointer + size)
          exact le_max_right _ _)
    rw [hnoop, he]

/-- C8, witness: `EnsureSize(20)` on the sample storage (9 bytes, cursor 1) appends 12 zeros. -/
theorem C8_EnsureSize_postcondition_witness :
    sampleBuffer.Valid ∧ minInt ≤ sampleBuffer.pointer + 20 ∧
    sampleBuffer.pointer + 20 ≤ maxInt ∧
    minInt ≤ sampleBuffer.pointer + 20 - sampleBuffer.bytes.len ∧
    (EnsureSize (fun _ _ => 0) 20 sampleBuffer).result = some () ∧
    (EnsureSize (fun _ _ => 0) 20 sampleBuffer).state.pointer = sampleBuffer.pointer ∧
    (EnsureSize (fun _ _ => 0) 20 sampleBuffer).state.bytes.elems = sampleBuffer.bytes.elems ++
      List.replicate (max 0 (sampleBuffer.pointer + 20 - sampleBuffer.bytes.len)).toNat 0 :=
  ⟨by decide, by decide, by decide, by decide,
    (C8_EnsureSize_postcondition (fun _ _ => 0) sampleBuffer 20 (by decide) (by decide)
      (by decide) (by decide)).1,
    (C8_EnsureSize_postcondition (fun _ _ => 0) sampleBuffer 20 (by decide) (by decide)
      (by decide) (by decide)).2.1,
    (C8_EnsureSize_postcondition (fun _ _ => 0) sampleBuffer 20 (by decide) (by decide)
      (by decide) (by decide)).2.2.1⟩


/-! ## C9: writes do not fail -/

theorem EnsureSize_room (grow : Nat → Nat → Nat) (w : Nat) (buf : Buffer) (hv : buf.Valid)
    (hp : 0 ≤ buf.pointer) (hfit : buf.pointer + (w : Int) ≤ maxInt) :
    (EnsureSize grow (w : Int) buf).result = some () ∧
    buf.pointer + (w : Int) ≤ (EnsureSize grow (w : Int) buf).state.bytes.len := by
  have hmax : buf.bytes.len ≤ maxInt := hv.2.2
  have hmax' : (buf.bytes.elems.length : Int) ≤ 2 ^ 63 - 1 := hmax
  have hfit' : buf.pointer + (w : Int) ≤ 2 ^ 63 - 1 := hfit
  obtain ⟨sp, he, -⟩ := EnsureSize_eq grow (w : Int) buf hv
    (by simp only [minInt]; omega) hfit (by simp only [minInt, Slice.len]; omega)
  rw [he]
  refine ⟨rfl, ?_⟩
  show buf.pointer + (w : Int) ≤ Slice.len ⟨_, sp⟩
  simp only [Slice.len, List.length_append, List.length_replicate]
  omega

/-- C9, as stated, fails: with the cursor at `maxInt - 3` on a valid buffer, `WriteUint64` and
`WriteBytes` of eight bytes end in an out-of-range store, because the sum `pointer + 8` in
`EnsureSize` wraps around and nothing is appended. -/
theorem C9_counterexample :
    Buffer.Valid ⟨⟨[], []⟩, maxInt - 3⟩ ∧ (0 : Int) ≤ maxInt - 3 ∧
    WriteUint64 (fun _ _ => 0) 1 ⟨⟨[], []⟩, maxInt - 3⟩ = .fault ⟨⟨[], []⟩, maxInt - 3⟩ ∧
    WriteBytes (fun _ _ => 0) (owned [1, 2, 3, 4, 5, 6, 7, 8]) ⟨⟨[], []⟩, maxInt - 3⟩
      = .fault ⟨⟨[], []⟩, maxInt - 3⟩ := by
  decide

/-- C9 (amended). Writes never fail for a non-negative cursor that leaves room below the largest
`int`: for every buffer with cursor `p ≥ 0` (including `p` beyond the end of storage) and every
value, each of `WriteUint8/16/32/64`, `WriteInt8/16/32/64`, `WriteBool`, `WriteFloat32/64` and
`WriteBytes(seq)` (whether `seq` shares memory with the storage or not), of width `w` with
`p + w ≤ maxInt`, completes without an out-of-bounds index, because the preceding `EnsureSize`
guarantees `p + w ≤ length(storage)`. -/
theorem C9_writes_never_fail (grow : Nat → Nat → Nat) (buf : Buffer) (u : Nat) (i : Int)
    (b : Bool) (f : Float32) (d : Float64) (seq : List Cell) (hv : buf.Valid)
    (hp : 0 ≤ buf.pointer) :
    ∀ wr ∈ scalarWrites grow u i b f d ++ [(WriteBytes grow seq, seq.length)],
      buf.pointer + (wr.2 : Int) ≤ maxInt →
        (wr.1 buf).result = some () ∧
        (EnsureSize grow (wr.2 : Int) buf).result = some () ∧
        buf.pointer + (wr.2 : Int) ≤ (EnsureSize grow (wr.2 : Int) buf).state.bytes.len := by
  intro wr hmem hfit
  have hshape : ∃ bs : List Byte, wr.1 buf = writeSeq grow bs buf ∧ wr.2 = bs.length := by
    rcases List.mem_append.mp hmem with h | h
    · obtain ⟨bs, h1, h2⟩ := scalarWrites_shape h
      exact ⟨bs, congrFun h1 buf, h2⟩
    · rw [List.mem_singleton] at h
      subst h
      obtain ⟨bs, hl, hb⟩ := WriteBytes_shape grow seq buf
      exact ⟨bs, hb, hl.symm⟩
  obtain ⟨bs, h1, h2⟩ := hshape
  rw [h2] at hfit ⊢
  refine ⟨?_, EnsureSize_room grow bs.length buf hv hp hfit⟩
  obtain ⟨sp, hw, -⟩ := writeSeq_eq grow bs buf hv hp hfit
  rw [h1, hw]
  rfl

/-- C9, witness: `WriteBytes([7, 7, 7])` with the cursor at 12, beyond the end of the storage
`[1, 2]`. -/
theorem C9_writes_never_fail_witness :
    Buffer.Valid ⟨⟨[1, 2], []⟩, 12⟩ ∧ (0 : Int) ≤ 12 ∧
    (WriteBytes (fun _ _ => 0) (owned [7, 7, 7]) ⟨⟨[1, 2], []⟩, 12⟩).result = some () :=
  ⟨by decide, by decide,
    (C9_writes_never_fail (fun _ _ => 0) ⟨⟨[1, 2], []⟩, 12⟩ 0 0 false 0 0 (owned [7, 7, 7])
      (by decide) (by decide) (WriteBytes (fun _ _ => 0) (owned [7, 7, 7]), 3)
      (List.mem_append_right _ (List.mem_singleton_self _)) (by decide)).1⟩


/-! ## C10: out-of-bounds scalar reads -/

theorem index_none (s : Slice) (i : Int) (h : i < 0 ∨ s.len ≤ i) : s.index i = none := by
  have : ¬ (0 ≤ i ∧ i < s.len) := by omega
  unfold Slice.index
  rw [if_neg this]

theorem load_fault_now {β : Type} (buf : Buffer) (i : Int) (f : Byte → Op β)
    (h : buf.bytes.index i = none) : (loadByte i >>= f) buf = .fault buf :=
  bind_fault (by unfold loadByte; rw [h])

theorem load_fault_later {β : Type} (buf : Buffer) (i : Int) (f : Byte → Op β)
    (h : ∀ b, f b buf = .fault buf) : (loadByte i >>= f) buf = .fault buf := by
  cases hi : buf.bytes.index i with
  | none => exact load_fault_now buf i f hi
  | some b =>
    have hl : loadByte i buf = .ok b buf := by unfold loadByte; rw [hi]
    rw [bind_ok hl]
    exact h b

theorem wrap_first (buf : Buffer) (hv : buf.Valid) : wrapInt (buf.pointer + 0) = buf.pointer := by
  rw [Int.add_zero]
  exact wrapInt_eq hv.1 hv.2.1

theorem index_last_none (buf : Buffer) (hv : buf.Valid) (k : Nat) (hk : k < 8)
    (hp : 0 ≤ buf.pointer) (h : buf.bytes.len < buf.pointer + (k : Int) + 1) :
    buf.bytes.index (wrapInt (buf.pointer + (k : Int))) = none := by
  apply index_none
  have h1 : buf.pointer ≤ 2 ^ 63 - 1 := hv.2.1
  have h2 : buf.bytes.len ≤ 2 ^ 63 - 1 := hv.2.2
  unfold wrapInt
  omega

theorem returned_bind {α β : Type} (m : Op α) (g : α → Op β) (buf : Buffer)
    (hg : ∀ u buf1, (g u buf1).returned = true) :
    ((m >>= g) buf).returned = (m buf).returned := by
  cases h : m buf with
  | fault b1 => rw [bind_fault h]; rfl
  | ok a b1 => rw [bind_ok h, hg a b1]; rfl

theorem ReadUint8_fault_first (buf : Buffer)
    (h : buf.bytes.index (wrapInt (buf.pointer + 0)) = none) : ReadUint8 buf = .fault buf := by
  rw [ReadUint8, bind_getPointer]
  exact load_fault_now _ _ _ h

theorem ReadUint8_fault_last (buf : Buffer)
    (h : buf.bytes.index (wrapInt (buf.pointer + 0)) = none) : ReadUint8 buf = .fault buf := by
  rw [ReadUint8, bind_getPointer]
  exact load_fault_now _ _ _ h

theorem ReadUint8_returned (buf : Buffer) (hv : buf.Valid) :
    (ReadUint8 buf).returned = true ↔ 0 ≤ buf.pointer ∧ buf.pointer + 1 ≤ buf.bytes.len := by
  constructor
  · intro hr
    by_contra hc
    have hfault : ReadUint8 buf = .fault buf := by
      by_cases hp : 0 ≤ buf.pointer
      · apply ReadUint8_fault_last
        have hlt : buf.bytes.len < buf.pointer + ((0 : Nat) : Int) + 1 := by
          have : ¬ buf.pointer + 1 ≤ buf.bytes.len := fun h => hc ⟨hp, h⟩
          omega
        exact index_last_none buf hv 0 (by decide) hp hlt
      · apply ReadUint8_fault_first
        rw [wrap_first buf hv]
        exact index_none _ _ (Or.inl (by omega))
    rw [hfault] at hr
    exact Bool.noConfusion hr
  · rintro ⟨hp, hle⟩
    have hmax : buf.bytes.len ≤ maxInt := hv.2.2
    have hg : ∀ k : Nat, k < 1 → buf.bytes.elems[buf.pointer.toNat + k]?
        = some (buf.bytes.elems.getD (buf.pointer.toNat + k) 0) := by
      intro k hk
      apply getElem?_getD_of_lt
      simp only [Slice.len] at hle
      omega
    rw [ReadUint8_eq buf _ hp hmax (hg 0 (by decide))]
    rfl

theorem ReadUint16_fault_first (buf : Buffer)
    (h : buf.bytes.index (wrapInt (buf.pointer + 0)) = none) : ReadUint16 buf = .fault buf := by
  rw [ReadUint16, bind_getPointer]
  exact load_fault_now _ _ _ h

theorem ReadUint16_fault_last (buf : Buffer)
    (h : buf.bytes.index (wrapInt (buf.pointer + 1)) = none) : ReadUint16 buf = .fault buf := by
  rw [ReadUint16, bind_getPointer]
  refine load_fault_later _ _ _ (fun _ => ?_)
  exact load_fault_now _ _ _ h

theorem ReadUint16_returned (buf : Buffer) (hv : buf.Valid) :
    (ReadUint16 buf).returned = true ↔ 0 ≤ buf.pointer ∧ buf.pointer + 2 ≤ buf.bytes.len := by
  constructor
  · intro hr
    by_contra hc
    have hfault : ReadUint16 buf = .fault buf := by
      by_cases hp : 0 ≤ buf.pointer
      · apply ReadUint16_fault_last
        have hlt : buf.bytes.len < buf.pointer + ((1 : Nat) : Int) + 1 := by
          have : ¬ buf.pointer + 2 ≤ buf.bytes.len := fun h => hc ⟨hp, h⟩
          omega
        exact index_last_none buf hv 1 (by decide) hp hlt
      · apply ReadUint16_fault_first
        rw [wrap_first buf hv]
        exact index_none _ _ (Or.inl (by omega))
    rw [hfault] at hr
    exact Bool.noConfusion hr
  · rintro ⟨hp, hle⟩
    have hmax : buf.bytes.len ≤ maxInt := hv.2.2
    have hg : ∀ k : Nat, k < 2 → buf.bytes.elems[buf.pointer.toNat + k]?
        = some (buf.bytes.elems.getD (buf.pointer.toNat + k) 0) := by
      intro k hk
      apply getElem?_getD_of_lt
      simp only [Slice.len] at hle
      omega
    rw [ReadUint16_eq buf _ _ hp hmax (hg 0 (by decide)) (hg 1 (by decide))]
    rfl

theorem ReadUint32_fault_first (buf : Buffer)
    (h : buf.bytes.index (wrapInt (buf.pointer + 0)) = none) : ReadUint32 buf = .fault buf := by
  rw [ReadUint32, bind_getPointer]
  exact load_fault_now _ _ _ h

theorem ReadUint32_fault_last (buf : Buffer)
    (h : buf.bytes.index (wrapInt (buf.pointer + 3)) = none) : ReadUint32 buf = .fault buf := by
  rw [ReadUint32, bind_getPointer]
  refine load_fault_later _ _ _ (fun _ => ?_)
  refine load_fault_later _ _ _ (fun _ => ?_)
  refine load_fault_later _ _ _ (fun _ => ?_)
  exact load_fault_now _ _ _ h

theorem ReadUint32_returned (buf : Buffer) (hv : buf.Valid) :
    (ReadUint32 buf).returned = true ↔ 0 ≤ buf.pointer ∧ buf.pointer + 4 ≤ buf.bytes.len := by
  constructor
  · intro hr
    by_contra hc
    have hfault : ReadUint32 buf = .fault buf := by
      by_cases hp : 0 ≤ buf.pointer
      · apply ReadUint32_fault_last
        have hlt : buf.bytes.len < buf.pointer + ((3 : Nat) : Int) + 1 := by
          have : ¬ buf.pointer + 4 ≤ buf.bytes.len := fun h => hc ⟨hp, h⟩
          omega
        exact index_last_none buf hv 3 (by decide) hp hlt
      · apply ReadUint32_fault_first
        rw [wrap_first buf hv]
        exact index_none _ _ (Or.inl (by omega))
    rw [hfault] at hr
    exact Bool.noConfusion hr
  · rintro ⟨hp, hle⟩
    have hmax : buf.bytes.len ≤ maxInt := hv.2.2
    have hg : ∀ k : Nat, k < 4 → buf.bytes.elems[buf.pointer.toNat + k]?
        = some (buf.bytes.elems.getD (buf.pointer.toNat + k) 0) := by
      intro k hk
      apply getElem?_getD_of_lt
      simp only [Slice.len] at hle
      omega
    rw [ReadUint32_eq buf _ _ _ _ hp hmax (hg 0 (by decide)) (hg 1 (by decide)) (hg 2 (by decide)) (hg 3 (by decide))]
    rfl

theorem ReadUint64_fault_first (buf : Buffer)
    (h : buf.bytes.index (wrapInt (buf.pointer + 0)) = none) : ReadUint64 buf = .fault buf := by
  rw [ReadUint64, bind_getPointer]
  exact load_fault_now _ _ _ h

theorem ReadUint64_fault_last (buf : Buffer)
    (h : buf.bytes.index (wrapInt (buf.pointer + 7)) = none) : ReadUint64 buf = .fault buf := by
  rw [ReadUint64, bind_getPointer]
  refine load_fault_later _ _ _ (fun _ => ?_)
  refine load_fault_later _ _ _ (fun _ => ?_)
  refine load_fault_later _ _ _ (fun _ => ?_)
  refine load_fault_later _ _ _ (fun _ => ?_)
  refine load_fault_later _ _ _ (fun _ => ?_)
  refine load_fault_later _ _ _ (fun _ => ?_)
  refine load_fault_later _ _ _ (fun _ => ?_)
  exact load_fault_now _ _ _ h

theorem ReadUint64_returned (buf : Buffer) (hv : buf.Valid) :
    (ReadUint64 buf).returned = true ↔ 0 ≤ buf.pointer ∧ buf.pointer + 8 ≤ buf.bytes.len := by
  constructor
  · intro hr
    by_contra hc
    have hfault : ReadUint64 buf = .fault buf := by
      by_cases hp : 0 ≤ buf.pointer
      · apply ReadUint64_fault_last
        have hlt : buf.bytes.len < buf.pointer + ((7 : Nat) : Int) + 1 := by
          have : ¬ buf.pointer + 8 ≤ buf.bytes.len := fun h => hc ⟨hp, h⟩
          omega
        exact index_last_none buf hv 7 (by decide) hp hlt
      · apply ReadUint64_fault_first
        rw [wrap_first buf hv]
        exact index_none _ _ (Or.inl (by omega))
    rw [hfault] at hr
    exact Bool.noConfusion hr
  · rintro ⟨hp, hle⟩
    have hmax : buf.bytes.len ≤ maxInt := hv.2.2
    have hg : ∀ k : Nat, k < 8 → buf.bytes.elems[buf.pointer.toNat + k]?
        = some (buf.bytes.elems.getD (buf.pointer.toNat + k) 0) := by
      intro k hk
      apply getElem?_getD_of_lt
      simp only [Slice.len] at hle
      omega
    rw [ReadUint64_eq buf _ _ _ _ _ _ _ _ hp hmax (hg 0 (by decide)) (hg 1 (by decide)) (hg 2 (by decide)) (hg 3 (by decide)) (hg 4 (by decide)) (hg 5 (by decide)) (hg 6 (by decide)) (hg 7 (by decide))]
    rfl

theorem returned_pure {α : Type} (a : α) (buf : Buffer) :
    ((pure a : Op α) buf).returned = true := by
  rw [pure_apply]
  rfl

theorem scalarReads_returned (buf : Buffer) (hv : buf.Valid) {rd : (Buffer → Bool) × Nat}
    (h : rd ∈ scalarReads) :
    rd.1 buf = true ↔ 0 ≤ buf.pointer ∧ buf.pointer + (rd.2 : Int) ≤ buf.bytes.len := by
  simp only [scalarReads, List.mem_cons, List.mem_singleton, List.not_mem_nil, or_false] at h
  rcases h with h | h | h | h | h | h | h | h | h | h | h <;> subst h
  · exact ReadUint8_returned buf hv
  · exact ReadUint16_returned buf hv
  · exact ReadUint32_returned buf hv
  · exact ReadUint64_returned buf hv
  · show (ReadInt8 buf).returned = true ↔ _
    rw [ReadInt8, returned_bind _ _ _ (fun u b => returned_pure _ b)]
    exact ReadUint8_returned buf hv
  · show (ReadInt16 buf).returned = true ↔ _
    rw [ReadInt16, returned_bind _ _ _ (fun u b => returned_pure _ b)]
    exact ReadUint16_returned buf hv
  · show (ReadInt32 buf).returned = true ↔ _
    rw [ReadInt32, returned_bind _ _ _ (fun u b => returned_pure _ b)]
    exact ReadUint32_returned buf hv
  · show (ReadInt64 buf).returned = true ↔ _
    rw [ReadInt64, returned_bind _ _ _ (fun u b => returned_pure _ b)]
    exact ReadUint64_returned buf hv
  · show (ReadBool buf).returned = true ↔ _
    rw [ReadBool, returned_bind _ _ _ (fun u b => by
      by_cases hu : u = 0
      · rw [if_pos hu]; exact returned_pure _ b
      · rw [if_neg hu]; exact returned_pure _ b)]
    exact ReadUint8_returned buf hv
  · show (ReadFloat32 buf).returned = true ↔ _
    rw [ReadFloat32, returned_bind _ _ _ (fun u b => returned_pure _ b)]
    exact ReadUint32_returned buf hv
  · show (ReadFloat64 buf).returned = true ↔ _
    rw [ReadFloat64, returned_bind _ _ _ (fun u b => returned_pure _ b)]
    exact ReadUint64_returned buf hv

/-- C10. Out-of-bounds scalar read is fatal: for every scalar read of byte width `w`
(`ReadUint8/16/32/64`, `ReadInt8/16/32/64`, `ReadBool`, `ReadFloat32/64`) and every buffer, if
`LeftToRead() < w` the read fails (ends in a run-time panic) instead of returning a value; and for
a cursor `p ≥ 0` the read succeeds exactly when `p + w ≤ length(storage)`. -/
theorem C10_out_of_bounds_read_is_fatal (buf : Buffer) (hv : buf.Valid) :
    ∀ rd ∈ scalarReads,
      (∀ left, (LeftToRead buf).result = some left → left < (rd.2 : Int) → rd.1 buf = false) ∧
      (0 ≤ buf.pointer → (rd.1 buf = true ↔ buf.pointer + (rd.2 : Int) ≤ buf.bytes.len)) := by
  intro rd hmem
  have hiff := scalarReads_returned buf hv hmem
  constructor
  · intro left hleft hlt
    have hl : left = wrapInt (buf.bytes.len - buf.pointer) := by
      have : some (wrapInt (buf.bytes.len - buf.pointer)) = some left := hleft
      exact (Option.some.inj this).symm
    cases hr : rd.1 buf with
    | false => rfl
    | true =>
      exfalso
      obtain ⟨hp, hle⟩ := hiff.mp hr
      have hmax : buf.bytes.len ≤ 2 ^ 63 - 1 := hv.2.2
      have hw : wrapInt (buf.bytes.len - buf.pointer) = buf.bytes.len - buf.pointer := by
        apply wrapInt_eq
        · simp only [minInt]; omega
        · simp only [maxInt]; omega
      rw [hw] at hl
      omega
  · intro hp
    rw [hiff]
    exact ⟨fun h => h.2, fun h => ⟨hp, h⟩⟩

/-- C10, witness: on the storage `[1, 2, 3]` with the cursor at 2, `LeftToRead()` is 1 and
`ReadUint32` ends in a panic. -/
theorem C10_out_of_bounds_read_is_fatal_witness :
    Buffer.Valid ⟨⟨[1, 2, 3], []⟩, 2⟩ ∧
    (LeftToRead ⟨⟨[1, 2, 3], []⟩, 2⟩).result = some 1 ∧
    (ReadUint32 ⟨⟨[1, 2, 3], []⟩, 2⟩).returned = false :=
  ⟨by decide, by decide,
    ((C10_out_of_bounds_read_is_fatal ⟨⟨[1, 2, 3], []⟩, 2⟩ (by decide)
      (fun buf => (ReadUint32 buf).returned, 4)
      (List.mem_cons_of_mem _ (List.mem_cons_of_mem _ (List.mem_cons_self _ _)))).1 1
      (by decide) (by decide))⟩


/-! ## Every outcome of the operations -/

theorem wrapInt_range (x : Int) : minInt ≤ wrapInt x ∧ wrapInt x ≤ maxInt := by
  unfold wrapInt minInt maxInt
  omega

/-- Every outcome of `EnsureSize`: the cursor is kept, zeros are appended, the length stays a
value of `int`, and a panic leaves the buffer as it was. -/
theorem EnsureSize_any (grow : Nat → Nat → Nat) (size : Int) (buf : Buffer) :
    (∃ k sp, EnsureSize grow size buf =
        .ok () ⟨⟨buf.bytes.elems ++ List.replicate k 0, sp⟩, buf.pointer⟩ ∧
      (0 < wrapInt (wrapInt (buf.pointer + size) - buf.bytes.len) →
        (k : Int) = wrapInt (wrapInt (buf.pointer + size) - buf.bytes.len) ∧
        buf.bytes.len + (k : Int) ≤ maxInt) ∧
      (¬ 0 < wrapInt (wrapInt (buf.pointer + size) - buf.bytes.len) →
        k = 0 ∧ sp = buf.bytes.spare)) ∨
    EnsureSize grow size buf = .fault buf := by
  generalize hd : wrapInt (wrapInt (buf.pointer + size) - buf.bytes.len) = d
  by_cases hn : d > 0
  · by_cases hfit : buf.bytes.len + ((d.toNat : Nat) : Int) ≤ maxInt
    · left
      by_cases hsp : d.toNat ≤ buf.bytes.spare.length
      · refine ⟨d.toNat, buf.bytes.spare.drop d.toNat, ?_, fun _ => ⟨by omega, hfit⟩,
          fun h => absurd hn h⟩
        simp only [EnsureSize, hd, if_pos hn, Slice.appendZeros, if_pos hfit, if_pos hsp]
      · refine ⟨d.toNat, List.replicate (grow (buf.bytes.elems.length + buf.bytes.spare.length)
          (buf.bytes.elems.length + d.toNat)) 0, ?_, fun _ => ⟨by omega, hfit⟩,
          fun h => absurd hn h⟩
        simp only [EnsureSize, hd, if_pos hn, Slice.appendZeros, if_pos hfit, if_neg hsp]
    · right
      simp only [EnsureSize, hd, if_pos hn, Slice.appendZeros, if_neg hfit]
  · left
    refine ⟨0, buf.bytes.spare, ?_, fun h => absurd h hn, fun _ => ⟨rfl, rfl⟩⟩
    simp only [EnsureSize, hd, if_neg hn, List.replicate_zero, List.append_nil]

theorem storeByte_fault (buf : Buffer) (i : Int) (b : Byte)
    (h : ¬ (0 ≤ i ∧ i < buf.bytes.len)) : storeByte i b buf = .fault buf := by
  simp only [storeByte, Slice.store, if_neg h]

/-- Every outcome of the stores of a write: cursor, length and spare capacity are kept,
the bytes at offsets that are no store index are kept, and the loop returns exactly when every
store index is in range. -/
theorem loop_any : ∀ (bs : List Byte) (k : Nat) (buf : Buffer),
    (k : Int) + (bs.length : Int) ≤ maxInt →
    (storeFrom (k : Int) bs buf).state.pointer = buf.pointer ∧
    (storeFrom (k : Int) bs buf).state.bytes.elems.length = buf.bytes.elems.length ∧
    (storeFrom (k : Int) bs buf).state.bytes.spare = buf.bytes.spare ∧
    (∀ i : Nat, (∀ j, j < bs.length → wrapInt (buf.pointer + ((k + j : Nat) : Int)) ≠ (i : Int)) →
      (storeFrom (k : Int) bs buf).state.bytes.elems[i]? = buf.bytes.elems[i]?) ∧
    ((storeFrom (k : Int) bs buf).result = some () ↔
      ∀ j, j < bs.length → 0 ≤ wrapInt (buf.pointer + ((k + j : Nat) : Int)) ∧
        wrapInt (buf.pointer + ((k + j : Nat) : Int)) < buf.bytes.len) := by
  intro bs
  induction bs with
  | nil =>
    intro k buf _
    rw [storeFrom, pure_apply]
    exact ⟨rfl, rfl, rfl, fun _ _ => rfl, ⟨fun _ j hj => absurd hj (Nat.not_lt_zero j),
      fun _ => rfl⟩⟩
  | cons b rest ih =>
    intro k buf hk
    rw [List.length_cons] at hk
    have hk' : (k : Int) + ((rest.length + 1 : Nat) : Int) ≤ 2 ^ 63 - 1 := hk
    have hw2 : wrapInt ((k : Int) + 1) = ((k + 1 : Nat) : Int) := by
      rw [wrapInt_eq]
      · omega
      · simp only [minInt]; omega
      · simp only [maxInt]; omega
    rw [storeFrom, bind_getPointer]
    by_cases hin : 0 ≤ wrapInt (buf.pointer + (k : Int)) ∧
        wrapInt (buf.pointer + (k : Int)) < buf.bytes.len
    · have hst := storeByte_eq buf (wrapInt (buf.pointer + (k : Int))) b hin.1 hin.2
      rw [bind_ok hst, hw2]
      have hih := ih (k + 1) ⟨⟨buf.bytes.elems.set (wrapInt (buf.pointer + (k : Int))).toNat b,
        buf.bytes.spare⟩, buf.pointer⟩ (by
          have : ((k + 1 : Nat) : Int) + (rest.length : Int) ≤ 2 ^ 63 - 1 := by omega
          exact this)
      obtain ⟨h1, h2, h3, h4, h5⟩ := hih
      refine ⟨h1, ?_, h3, ?_, ?_⟩
      · rw [h2]
        exact List.length_set _ _ _
      · intro i hi
        have hne : (wrapInt (buf.pointer + (k : Int))).toNat ≠ i := by
          intro he
          have h0 := hi 0 (Nat.zero_lt_succ _)
          rw [Nat.add_zero] at h0
          apply h0
          omega
        rw [h4 i (fun j hj => by
          have := hi (j + 1) (Nat.succ_lt_succ hj)
          rw [show k + (j + 1) = k + 1 + j by omega] at this
          exact this)]
        exact List.getElem?_set_ne hne
      · rw [h5]
        constructor
        · intro h j hj
          cases j with
          | zero => rw [Nat.add_zero]; exact hin
          | succ j =>
            have := h j (Nat.lt_of_succ_lt_succ hj)
            rw [show k + (j + 1) = k + 1 + j by omega]
            simp only [Slice.len, List.length_set] at this ⊢
            exact this
        · intro h j hj
          have := h (j + 1) (Nat.succ_lt_succ hj)
          rw [show k + (j + 1) = k + 1 + j by omega] at this
          simp only [Slice.len, List.length_set] at this ⊢
          exact this
    · rw [bind_fault (storeByte_fault buf _ b hin)]
      refine ⟨rfl, rfl, rfl, fun _ _ => rfl, ⟨fun h => Option.noConfusion h, fun h => ?_⟩⟩
      exfalso
      apply hin
      have := h 0 (Nat.zero_lt_succ _)
      rw [Nat.add_zero] at this
      exact this

theorem advance_eq (n : Int) (buf : Buffer) :
    advance n buf = .ok () ⟨buf.bytes, wrapInt (buf.pointer + n)⟩ := by
  unfold advance
  rfl

/-- The three ways a write goes: `EnsureSize` panics; `EnsureSize` returns and a store panics;
or everything returns and the cursor is advanced. -/
theorem writeSeq_cases (grow : Nat → Nat → Nat) (bs : List Byte) (buf : Buffer) :
    (EnsureSize grow (bs.length : Int) buf = .fault buf ∧ writeSeq grow bs buf = .fault buf) ∨
    (∃ b1, EnsureSize grow (bs.length : Int) buf = .ok () b1 ∧
      ((∃ b2, storeFrom 0 bs b1 = .fault b2 ∧ writeSeq grow bs buf = .fault b2) ∨
       (∃ b2, storeFrom 0 bs b1 = .ok () b2 ∧
          writeSeq grow bs buf = .ok () ⟨b2.bytes, wrapInt (b2.pointer + (bs.length : Int))⟩))) := by
  unfold writeSeq
  cases he : EnsureSize grow (bs.length : Int) buf with
  | fault b1 =>
    left
    rcases EnsureSize_any grow (bs.length : Int) buf with ⟨k, sp, h, -⟩ | h
    · rw [h] at he; exact Outcome.noConfusion he
    · rw [h] at he
      have hb : buf = b1 := by injection he
      subst hb
      exact ⟨rfl, bind_fault h⟩
  | ok u b1 =>
    right
    refine ⟨b1, rfl, ?_⟩
    rw [bind_ok he]
    cases hl : storeFrom 0 bs b1 with
    | fault b2 => exact Or.inl ⟨b2, rfl, bind_fault hl⟩
    | ok u2 b2 =>
      refine Or.inr ⟨b2, rfl, ?_⟩
      rw [bind_ok hl, advance_eq]

theorem EnsureSize_ok_facts {grow : Nat → Nat → Nat} {size : Int} {buf b1 : Buffer}
    (he : EnsureSize grow size buf = .ok () b1) (hv : buf.Valid) :
    b1.pointer = buf.pointer ∧ b1.bytes.len ≤ maxInt ∧
    (∃ k, b1.bytes.elems = buf.bytes.elems ++ List.replicate k 0) ∧
    (∀ i, i < buf.bytes.elems.length → b1.bytes.elems[i]? = buf.bytes.elems[i]?) := by
  rcases EnsureSize_any grow size buf with ⟨k, sp, h, hpos, hneg⟩ | h
  · rw [h] at he
    have hb : (⟨⟨buf.bytes.elems ++ List.replicate k 0, sp⟩, buf.pointer⟩ : Buffer) = b1 := by
      injection he
    subst hb
    refine ⟨rfl, ?_, ⟨k, rfl⟩, fun i hi => List.getElem?_append_left hi⟩
    have hmax : buf.bytes.len ≤ maxInt := hv.2.2
    by_cases hp : 0 < wrapInt (wrapInt (buf.pointer + size) - buf.bytes.len)
    · have := (hpos hp).2
      simp only [Slice.len, List.length_append, List.length_replicate] at this ⊢
      omega
    · have := (hneg hp).1
      simp only [Slice.len, List.length_append, List.length_replicate] at hmax ⊢
      omega
  · rw [h] at he
    exact Outcome.noConfusion he

theorem EnsureSize_valid {grow : Nat → Nat → Nat} {size : Int} {buf b1 : Buffer}
    (he : EnsureSize grow size buf = .ok () b1) (hv : buf.Valid) : b1.Valid := by
  obtain ⟨h1, h2, -, -⟩ := EnsureSize_ok_facts he hv
  exact ⟨h1 ▸ hv.1, h1 ▸ hv.2.1, h2⟩

/-- A write that ends in a panic leaves the cursor where it was. -/
theorem writeSeq_fault_pointer (grow : Nat → Nat → Nat) (bs : List Byte) (buf : Buffer)
    (hv : buf.Valid) (hlen : (bs.length : Int) ≤ maxInt)
    (hr : (writeSeq grow bs buf).result = none) :
    (writeSeq grow bs buf).state.pointer = buf.pointer := by
  rcases writeSeq_cases grow bs buf with ⟨-, h⟩ | ⟨b1, he, ⟨b2, hl, h⟩ | ⟨b2, hl, h⟩⟩
  · rw [h]; rfl
  · rw [h]
    have hany := (loop_any bs 0 b1 (by rw [Nat.cast_zero, Int.zero_add]; exact hlen)).1
    rw [Nat.cast_zero, hl] at hany
    exact hany.trans (EnsureSize_ok_facts he hv).1
  · rw [h] at hr
    exact Option.noConfusion hr

/-- A write of at least one byte that returns had a non-negative cursor and room below the
largest `int`. -/
theorem writeSeq_ok_bounds (grow : Nat → Nat → Nat) (bs : List Byte) (buf : Buffer)
    (hv : buf.Valid) (hlen : (bs.length : Int) ≤ maxInt) (hne : bs ≠ [])
    (hr : (writeSeq grow bs buf).result = some ()) :
    0 ≤ buf.pointer ∧ buf.pointer + (bs.length : Int) ≤ maxInt := by
  rcases writeSeq_cases grow bs buf with ⟨-, h⟩ | ⟨b1, he, ⟨b2, hl, h⟩ | ⟨b2, hl, h⟩⟩
  · rw [h] at hr; exact Option.noConfusion hr
  · rw [h] at hr; exact Option.noConfusion hr
  · obtain ⟨hp1, hmax1, -, -⟩ := EnsureSize_ok_facts he hv
    have hany := (loop_any bs 0 b1 (by rw [Nat.cast_zero, Int.zero_add]; exact hlen)).2.2.2.2
    rw [Nat.cast_zero, hl] at hany
    have hall := hany.mp rfl
    have hpos : 0 < bs.length := List.length_pos.mpr hne
    have h0 := hall 0 hpos
    have hlast := hall (bs.length - 1) (by omega)
    rw [hp1] at h0 hlast
    have hv1 : -(2 ^ 63) ≤ buf.pointer := hv.1
    have hv2 : buf.pointer ≤ 2 ^ 63 - 1 := hv.2.1
    have hlen' : (bs.length : Int) ≤ 2 ^ 63 - 1 := hlen
    have hmax1' : b1.bytes.len ≤ 2 ^ 63 - 1 := hmax1
    simp only [Nat.zero_add] at h0 hlast
    unfold wrapInt at h0 hlast
    simp only [maxInt]
    omega

/-- Frame of a write, whatever its outcome: with a non-negative cursor `p`, the old bytes at
offsets below `p` or from `p + w` on are kept. -/
theorem writeSeq_frame (grow : Nat → Nat → Nat) (bs : List Byte) (buf : Buffer)
    (hv : buf.Valid) (hlen : (bs.length : Int) ≤ maxInt) (hp : 0 ≤ buf.pointer)
    (i : Nat) (hi : i < buf.bytes.elems.length)
    (hout : (i : Int) < buf.pointer ∨ buf.pointer + (bs.length : Int) ≤ (i : Int)) :
    (writeSeq grow bs buf).state.bytes.elems[i]? = buf.bytes.elems[i]? := by
  rcases writeSeq_cases grow bs buf with ⟨-, h⟩ | ⟨b1, he, hcase⟩
  · rw [h]; rfl
  · obtain ⟨hp1, hmax1, -, hkeep⟩ := EnsureSize_ok_facts he hv
    have hany := loop_any bs 0 b1 (by rw [Nat.cast_zero, Int.zero_add]; exact hlen)
    rw [Nat.cast_zero] at hany
    have hv2 : buf.pointer ≤ 2 ^ 63 - 1 := hv.2.1
    have hlen' : (bs.length : Int) ≤ 2 ^ 63 - 1 := hlen
    have hidx : ∀ j, j < bs.length → wrapInt (b1.pointer + ((0 + j : Nat) : Int)) ≠ (i : Int) := by
      intro j hj
      rw [hp1, Nat.zero_add]
      unfold wrapInt
      omega
    have hfr := hany.2.2.2.1 i hidx
    rcases hcase with ⟨b2, hl, h⟩ | ⟨b2, hl, h⟩
    · rw [h]
      rw [hl] at hfr
      exact hfr.trans (hkeep i hi)
    · rw [h]
      rw [hl] at hfr
      exact hfr.trans (hkeep i hi)

/-- A write that returns advanced the cursor by exactly its width and left a storage of length
`max(old length, p + w)`. -/
theorem writeSeq_ok_len (grow : Nat → Nat → Nat) (bs : List Byte) (buf : Buffer)
    (hv : buf.Valid) (hlen : (bs.length : Int) ≤ maxInt)
    (hr : (writeSeq grow bs buf).result = some ()) :
    (writeSeq grow bs buf).state.pointer = buf.pointer + (bs.length : Int) ∧
    ((writeSeq grow bs buf).state.bytes.elems.length : Int)
      = max buf.bytes.len (buf.pointer + (bs.length : Int)) := by
  by_cases hne : bs = []
  · subst hne
    rcases writeSeq_cases grow [] buf with ⟨-, h⟩ | ⟨b1, he, ⟨b2, hl, h⟩ | ⟨b2, hl, h⟩⟩
    · rw [h] at hr; exact Option.noConfusion hr
    · rw [h] at hr; exact Option.noConfusion hr
    · rw [storeFrom, pure_apply] at hl
      have hb : b1 = b2 := by injection hl
      subst hb
      rw [h]
      have hv1 : -(2 ^ 63) ≤ buf.pointer := hv.1
      have hv2 : buf.pointer ≤ 2 ^ 63 - 1 := hv.2.1
      have hmax : buf.bytes.len ≤ 2 ^ 63 - 1 := hv.2.2
      rcases EnsureSize_any grow (([] : List Byte).length : Int) buf with ⟨k, sp, h2, hpos, hneg⟩ | h2
      · rw [h2] at he
        have hb : (⟨⟨buf.bytes.elems ++ List.replicate k 0, sp⟩, buf.pointer⟩ : Buffer) = b1 := by
          injection he
        subst hb
        simp only [List.length_nil, Nat.cast_zero, Int.add_zero] at hpos hneg ⊢
        have hw : wrapInt buf.pointer = buf.pointer := wrapInt_eq hv.1 hv.2.1
        rw [hw] at hpos hneg
        refine ⟨hw, ?_⟩
        show ((buf.bytes.elems ++ List.replicate k 0).length : Int) = _
        rw [List.length_append, List.length_replicate]
        simp only [Slice.len] at hpos hneg hmax ⊢
        by_cases hd : 0 < wrapInt (buf.pointer - (buf.bytes.elems.length : Int))
        · obtain ⟨hk1, hk2⟩ := hpos hd
          unfold wrapInt at hk1 hd
          simp only [maxInt] at hk2
          omega
        · obtain ⟨hk1, -⟩ := hneg hd
          unfold wrapInt at hd
          omega
      · rw [h2] at he
        exact Outcome.noConfusion he
  · obtain ⟨hp, hfit⟩ := writeSeq_ok_bounds grow bs buf hv hlen hne hr
    obtain ⟨sp, hw, -⟩ := writeSeq_eq grow bs buf hv hp hfit
    rw [hw]
    refine ⟨rfl, ?_⟩
    show ((overwrite _ _ _).length : Int) = _
    have hgl := grown_length buf.bytes.elems (buf.pointer.toNat + bs.length)
    rw [overwrite_length _ _ _ (by rw [hgl]; omega), hgl]
    simp only [Slice.len]
    omega

theorem discard_ok {α : Type} {m : Op α} {buf buf1 : Buffer} {a : α}
    (h : m buf = .ok a buf1) : discard m buf = .ok () buf1 := by
  unfold discard
  rw [h]

theorem discard_fault {α : Type} {m : Op α} {buf buf1 : Buffer}
    (h : m buf = .fault buf1) : discard m buf = .fault buf1 := by
  unfold discard
  rw [h]

/-- The two ways `ReadUint8` goes on a valid state. -/
theorem ReadUint8_cases (buf : Buffer) (hv : buf.Valid) :
    (0 ≤ buf.pointer ∧ buf.pointer + 1 ≤ buf.bytes.len ∧
      ∃ v, ReadUint8 buf = .ok v ⟨buf.bytes, buf.pointer + 1⟩) ∨
    (¬ (0 ≤ buf.pointer ∧ buf.pointer + 1 ≤ buf.bytes.len) ∧ ReadUint8 buf = .fault buf) := by
  by_cases hc : 0 ≤ buf.pointer ∧ buf.pointer + 1 ≤ buf.bytes.len
  · left
    obtain ⟨hp, hle⟩ := hc
    have hmax : buf.bytes.len ≤ maxInt := hv.2.2
    have hg : ∀ k : Nat, k < 1 → buf.bytes.elems[buf.pointer.toNat + k]?
        = some (buf.bytes.elems.getD (buf.pointer.toNat + k) 0) := by
      intro k hk
      apply getElem?_getD_of_lt
      simp only [Slice.len] at hle
      omega
    exact ⟨hp, hle, _, ReadUint8_eq buf _ hp hmax (hg 0 (by decide))⟩
  · right
    refine ⟨hc, ?_⟩
    by_cases hp : 0 ≤ buf.pointer
    · apply ReadUint8_fault_last
      have hlt : buf.bytes.len < buf.pointer + ((0 : Nat) : Int) + 1 := by
        have : ¬ buf.pointer + 1 ≤ buf.bytes.len := fun h => hc ⟨hp, h⟩
        omega
      exact index_last_none buf hv 0 (by decide) hp hlt
    · apply ReadUint8_fault_first
      rw [wrap_first buf hv]
      exact index_none _ _ (Or.inl (by omega))

/-- The two ways `ReadUint16` goes on a valid state. -/
theorem ReadUint16_cases (buf : Buffer) (hv : buf.Valid) :
    (0 ≤ buf.pointer ∧ buf.pointer + 2 ≤ buf.bytes.len ∧
      ∃ v, ReadUint16 buf = .ok v ⟨buf.bytes, buf.pointer + 2⟩) ∨
    (¬ (0 ≤ buf.pointer ∧ buf.pointer + 2 ≤ buf.bytes.len) ∧ ReadUint16 buf = .fault buf) := by
  by_cases hc : 0 ≤ buf.pointer ∧ buf.pointer + 2 ≤ buf.bytes.len
  · left
    obtain ⟨hp, hle⟩ := hc
    have hmax : buf.bytes.len ≤ maxInt := hv.2.2
    have hg : ∀ k : Nat, k < 2 → buf.bytes.elems[buf.pointer.toNat + k]?
        = some (buf.bytes.elems.getD (buf.pointer.toNat + k) 0) := by
      intro k hk
      apply getElem?_getD_of_lt
      simp only [Slice.len] at hle
      omega
    exact ⟨hp, hle, _, ReadUint16_eq buf _ _ hp hmax (hg 0 (by decide)) (hg 1 (by decide))⟩
  · right
    refine ⟨hc, ?_⟩
    by_cases hp : 0 ≤ buf.pointer
    · apply ReadUint16_fault_last
      have hlt : buf.bytes.len < buf.pointer + ((1 : Nat) : Int) + 1 := by
        have : ¬ buf.pointer + 2 ≤ buf.bytes.len := fun h => hc ⟨hp, h⟩
        omega
      exact index_last_none buf hv 1 (by decide) hp hlt
    · apply ReadUint16_fault_first
      rw [wrap_first buf hv]
      exact index_none _ _ (Or.inl (by omega))

/-- The two ways `ReadUint32` goes on a valid state. -/
theorem ReadUint32_cases (buf : Buffer) (hv : buf.Valid) :
    (0 ≤ buf.pointer ∧ buf.pointer + 4 ≤ buf.bytes.len ∧
      ∃ v, ReadUint32 buf = .ok v ⟨buf.bytes, buf.pointer + 4⟩) ∨
    (¬ (0 ≤ buf.pointer ∧ buf.pointer + 4 ≤ buf.bytes.len) ∧ ReadUint32 buf = .fault buf) := by
  by_cases hc : 0 ≤ buf.pointer ∧ buf.pointer + 4 ≤ buf.bytes.len
  · left
    obtain ⟨hp, hle⟩ := hc
    have hmax : buf.bytes.len ≤ maxInt := hv.2.2
    have hg : ∀ k : Nat, k < 4 → buf.bytes.elems[buf.pointer.toNat + k]?
        = some (buf.bytes.elems.getD (buf.pointer.toNat + k) 0) := by
      intro k hk
      apply getElem?_getD_of_lt
      simp only [Slice.len] at hle
      omega
    exact ⟨hp, hle, _, ReadUint32_eq buf _ _ _ _ hp hmax (hg 0 (by decide)) (hg 1 (by decide)) (hg 2 (by decide)) (hg 3 (by decide))⟩
  · right
    refine ⟨hc, ?_⟩
    by_cases hp : 0 ≤ buf.pointer
    · apply ReadUint32_fault_last
      have hlt : buf.bytes.len < buf.pointer + ((3 : Nat) : Int) + 1 := by
        have : ¬ buf.pointer + 4 ≤ buf.bytes.len := fun h => hc ⟨hp, h⟩
        omega
      exact index_last_none buf hv 3 (by decide) hp hlt
    · apply ReadUint32_fault_first
      rw [wrap_first buf hv]
      exact index_none _ _ (Or.inl (by omega))

/-- The two ways `ReadUint64` goes on a valid state. -/
theorem ReadUint64_cases (buf : Buffer) (hv : buf.Valid) :
    (0 ≤ buf.pointer ∧ buf.pointer + 8 ≤ buf.bytes.len ∧
      ∃ v, ReadUint64 buf = .ok v ⟨buf.bytes, buf.pointer + 8⟩) ∨
    (¬ (0 ≤ buf.pointer ∧ buf.pointer + 8 ≤ buf.bytes.len) ∧ ReadUint64 buf = .fault buf) := by
  by_cases hc : 0 ≤ buf.pointer ∧ buf.pointer + 8 ≤ buf.bytes.len
  · left
    obtain ⟨hp, hle⟩ := hc
    have hmax : buf.bytes.len ≤ maxInt := hv.2.2
    have hg : ∀ k : Nat, k < 8 → buf.bytes.elems[buf.pointer.toNat + k]?
        = some (buf.bytes.elems.getD (buf.pointer.toNat + k) 0) := by
      intro k hk
      apply getElem?_getD_of_lt
      simp only [Slice.len] at hle
      omega
    exact ⟨hp, hle, _, ReadUint64_eq buf _ _ _ _ _ _ _ _ hp hmax (hg 0 (by decide)) (hg 1 (by decide)) (hg 2 (by decide)) (hg 3 (by decide)) (hg 4 (by decide)) (hg 5 (by decide)) (hg 6 (by decide)) (hg 7 (by decide))⟩
  · right
    refine ⟨hc, ?_⟩
    by_cases hp : 0 ≤ buf.pointer
    · apply ReadUint64_fault_last
      have hlt : buf.bytes.len < buf.pointer + ((7 : Nat) : Int) + 1 := by
        have : ¬ buf.pointer + 8 ≤ buf.bytes.len := fun h => hc ⟨hp, h⟩
        omega
      exact index_last_none buf hv 7 (by decide) hp hlt
    · apply ReadUint64_fault_first
      rw [wrap_first buf hv]
      exact index_none _ _ (Or.inl (by omega))

/-- A read that decodes the result of an unsigned read goes the way the unsigned read goes. -/
theorem decoded_cases {α β : Type} {m : Op α} {g : α → Op β} {buf : Buffer} {c : Prop}
    {st : Buffer} (hg : ∀ u b, ∃ r, g u b = .ok r b)
    (h : (c ∧ ∃ v, m buf = .ok v st) ∨ (¬ c ∧ m buf = .fault buf)) :
    (c ∧ discard (m >>= g) buf = .ok () st) ∨ (¬ c ∧ discard (m >>= g) buf = .fault buf) := by
  rcases h with ⟨hc, v, hv⟩ | ⟨hc, hf⟩
  · left
    obtain ⟨r, hr⟩ := hg v st
    exact ⟨hc, discard_ok ((bind_ok hv).trans hr)⟩
  · right
    exact ⟨hc, discard_fault (bind_fault hf)⟩

theorem plain_cases {α : Type} {m : Op α} {buf : Buffer} {c : Prop} {st : Buffer}
    (h : (c ∧ ∃ v, m buf = .ok v st) ∨ (¬ c ∧ m buf = .fault buf)) :
    (c ∧ discard m buf = .ok () st) ∨ (¬ c ∧ discard m buf = .fault buf) := by
  rcases h with ⟨hc, v, hv⟩ | ⟨hc, hf⟩
  · exact Or.inl ⟨hc, discard_ok hv⟩
  · exact Or.inr ⟨hc, discard_fault hf⟩

theorem pure_decode {α β : Type} (f : α → β) (u : α) (b : Buffer) :
    ∃ r, (pure (f u) : Op β) b = .ok r b := ⟨f u, pure_apply _ b⟩

theorem bool_decode (u : Nat) (b : Buffer) :
    ∃ r, (if u = 0 then (pure false : Op Bool) else pure true) b = .ok r b := by
  by_cases hu : u = 0
  · rw [if_pos hu]; exact ⟨false, pure_apply _ b⟩
  · rw [if_neg hu]; exact ⟨true, pure_apply _ b⟩

/-- A scalar read, on a valid state with cursor `p` and width `w`, returns and advances the
cursor by `w` when `0 ≤ p` and `p + w ≤ len`, and otherwise ends in a panic with the buffer as it
was. -/
theorem scalarRead_cases (grow : Nat → Nat → Nat) (a : Action) (buf : Buffer) (hv : buf.Valid)
    (hr : a.isRead = true) (hb : ∀ n, a ≠ .readBytes n) :
    (0 ≤ buf.pointer ∧ buf.pointer + a.width ≤ buf.bytes.len ∧
      a.run grow buf = .ok () ⟨buf.bytes, buf.pointer + a.width⟩) ∨
    (¬ (0 ≤ buf.pointer ∧ buf.pointer + a.width ≤ buf.bytes.len) ∧
      a.run grow buf = .fault buf) := by
  have conv : ∀ {c : Prop} {o : Outcome Unit} {st : Buffer},
      ((c ∧ o = .ok () st) ∨ (¬ c ∧ o = .fault buf)) → c = (0 ≤ buf.pointer ∧
        buf.pointer + a.width ≤ buf.bytes.len) → st = ⟨buf.bytes, buf.pointer + a.width⟩ →
      a.run grow buf = o →
      (0 ≤ buf.pointer ∧ buf.pointer + a.width ≤ buf.bytes.len ∧
        a.run grow buf = .ok () ⟨buf.bytes, buf.pointer + a.width⟩) ∨
      (¬ (0 ≤ buf.pointer ∧ buf.pointer + a.width ≤ buf.bytes.len) ∧
        a.run grow buf = .fault buf) := by
    intro c o st h hc hst ho
    subst hc hst
    rw [ho]
    rcases h with ⟨h1, h2⟩ | ⟨h1, h2⟩
    · exact Or.inl ⟨h1.1, h1.2, h2⟩
    · exact Or.inr ⟨h1, h2⟩
  have assoc : ∀ {p q r : Prop}, (p ∧ q ∧ r) ↔ ((p ∧ q) ∧ r) := fun {p q r} =>
    ⟨fun h => ⟨⟨h.1, h.2.1⟩, h.2.2⟩, fun h => ⟨h.1.1, h.1.2, h.2⟩⟩
  cases a with
  | readUint8 => exact conv (plain_cases ((ReadUint8_cases buf hv).imp assoc.mp id)) rfl rfl rfl
  | readUint16 => exact conv (plain_cases ((ReadUint16_cases buf hv).imp assoc.mp id)) rfl rfl rfl
  | readUint32 => exact conv (plain_cases ((ReadUint32_cases buf hv).imp assoc.mp id)) rfl rfl rfl
  | readUint64 => exact conv (plain_cases ((ReadUint64_cases buf hv).imp assoc.mp id)) rfl rfl rfl
  | readInt8 => exact conv (decoded_cases (pure_decode _)
      ((ReadUint8_cases buf hv).imp assoc.mp id)) rfl rfl rfl
  | readInt16 => exact conv (decoded_cases (pure_decode _)
      ((ReadUint16_cases buf hv).imp assoc.mp id)) rfl rfl rfl
  | readInt32 => exact conv (decoded_cases (pure_decode _)
      ((ReadUint32_cases buf hv).imp assoc.mp id)) rfl rfl rfl
  | readInt64 => exact conv (decoded_cases (pure_decode _)
      ((ReadUint64_cases buf hv).imp assoc.mp id)) rfl rfl rfl
  | readBool => exact conv (decoded_cases bool_decode
      ((ReadUint8_cases buf hv).imp assoc.mp id)) rfl rfl rfl
  | readFloat32 => exact conv (decoded_cases (pure_decode _)
      ((ReadUint32_cases buf hv).imp assoc.mp id)) rfl rfl rfl
  | readFloat64 => exact conv (decoded_cases (pure_decode _)
      ((ReadUint64_cases buf hv).imp assoc.mp id)) rfl rfl rfl
  | readBytes n => exact absurd rfl (hb n)
  | _ => exact Bool.noConfusion hr

/-- A write action is the growth, copy and advance of its big-endian bytes. -/
theorem write_shape (grow : Nat → Nat → Nat) (a : Action) (buf : Buffer)
    (hw : a.isWrite = true) (ht : a.Typed) :
    ∃ bs : List Byte, a.run grow buf = writeSeq grow bs buf ∧ a.width = (bs.length : Int) ∧
      (bs.length : Int) ≤ maxInt ∧ ((∀ seq, a ≠ .writeBytes seq) → bs ≠ []) := by
  have h8 : ((8 : Nat) : Int) ≤ maxInt := by decide
  have h4 : ((4 : Nat) : Int) ≤ maxInt := by decide
  have h2 : ((2 : Nat) : Int) ≤ maxInt := by decide
  have h1 : ((1 : Nat) : Int) ≤ maxInt := by decide
  cases a with
  | writeUint8 v => exact ⟨bytes8 v, congrFun (WriteUint8_eq_loop grow v) buf, rfl, h1, fun _ => List.cons_ne_nil _ _⟩
  | writeUint16 v => exact ⟨bytes16 v, congrFun (WriteUint16_eq_loop grow v) buf, rfl, h2, fun _ => List.cons_ne_nil _ _⟩
  | writeUint32 v => exact ⟨bytes32 v, congrFun (WriteUint32_eq_loop grow v) buf, rfl, h4, fun _ => List.cons_ne_nil _ _⟩
  | writeUint64 v => exact ⟨bytes64 v, congrFun (WriteUint64_eq_loop grow v) buf, rfl, h8, fun _ => List.cons_ne_nil _ _⟩
  | writeInt8 v => exact ⟨bytes8 (toUnsigned 8 v), congrFun (WriteUint8_eq_loop grow _) buf, rfl, h1,
      fun _ => List.cons_ne_nil _ _⟩
  | writeInt16 v => exact ⟨bytes16 (toUnsigned 16 v), congrFun (WriteUint16_eq_loop grow _) buf, rfl, h2,
      fun _ => List.cons_ne_nil _ _⟩
  | writeInt32 v => exact ⟨bytes32 (toUnsigned 32 v), congrFun (WriteUint32_eq_loop grow _) buf, rfl, h4,
      fun _ => List.cons_ne_nil _ _⟩
  | writeInt64 v => exact ⟨bytes64 (toUnsigned 64 v), congrFun (WriteUint64_eq_loop grow _) buf, rfl, h8,
      fun _ => List.cons_ne_nil _ _⟩
  | writeBool v => exact ⟨bytes8 (if v then 1 else 0),
      congrFun ((WriteBool_eq_WriteUint8 grow v).trans (WriteUint8_eq_loop grow _)) buf, rfl, h1,
      fun _ => List.cons_ne_nil _ _⟩
  | writeFloat32 v => exact ⟨bytes32 (Float32bits v), congrFun (WriteUint32_eq_loop grow _) buf, rfl, h4,
      fun _ => List.cons_ne_nil _ _⟩
  | writeFloat64 v => exact ⟨bytes64 (Float64bits v), congrFun (WriteUint64_eq_loop grow _) buf, rfl, h8,
      fun _ => List.cons_ne_nil _ _⟩
  | writeBytes seq =>
    obtain ⟨bs, hl, hb⟩ := WriteBytes_shape grow seq buf
    refine ⟨bs, hb, ?_, ?_, fun h => absurd rfl (h seq)⟩
    · show ((seq.length : Nat) : Int) = _
      rw [hl]
    · rw [hl]
      exact ht
  | _ => exact Bool.noConfusion hw

/-- The two ways `ReadBytes(num)` goes: the slice expression is in range of the capacity, the
slice is returned and the cursor advanced; or it is not, and the read ends in a panic with the
buffer as it was. -/
theorem ReadBytes_cases (num : Int) (buf : Buffer) :
    (0 ≤ buf.pointer ∧ buf.pointer ≤ wrapInt (buf.pointer + num) ∧
        wrapInt (buf.pointer + num) ≤ buf.bytes.cap ∧
      ReadBytes num buf = .ok
        ⟨((buf.bytes.elems ++ buf.bytes.spare).drop buf.pointer.toNat).take
            ((wrapInt (buf.pointer + num)).toNat - buf.pointer.toNat),
          (buf.bytes.elems ++ buf.bytes.spare).drop (wrapInt (buf.pointer + num)).toNat⟩
        ⟨buf.bytes, wrapInt (buf.pointer + num)⟩) ∨
    (¬ (0 ≤ buf.pointer ∧ buf.pointer ≤ wrapInt (buf.pointer + num) ∧
        wrapInt (buf.pointer + num) ≤ buf.bytes.cap) ∧
      ReadBytes num buf = .fault buf) := by
  by_cases hc : 0 ≤ buf.pointer ∧ buf.pointer ≤ wrapInt (buf.pointer + num) ∧
      wrapInt (buf.pointer + num) ≤ buf.bytes.cap
  · left
    refine ⟨hc.1, hc.2.1, hc.2.2, ?_⟩
    simp only [ReadBytes, Slice.slice, if_pos hc]
  · right
    refine ⟨hc, ?_⟩
    simp only [ReadBytes, Slice.slice, if_neg hc]

/-- On a valid state and for `num` a value of `int`, a `ReadBytes(num)` that returns had
`0 ≤ p`, `0 ≤ num` and no wrap-around in `p + num`. -/
theorem ReadBytes_ok_exact (num : Int) (buf : Buffer) (hv : buf.Valid)
    (hn : minInt ≤ num ∧ num ≤ maxInt)
    (hc : 0 ≤ buf.pointer ∧ buf.pointer ≤ wrapInt (buf.pointer + num) ∧
        wrapInt (buf.pointer + num) ≤ buf.bytes.cap) :
    0 ≤ num ∧ wrapInt (buf.pointer + num) = buf.pointer + num := by
  have hv2 : buf.pointer ≤ 2 ^ 63 - 1 := hv.2.1
  have hn1 : -(2 ^ 63) ≤ num := hn.1
  have hn2 : num ≤ 2 ^ 63 - 1 := hn.2
  obtain ⟨h0, h1, -⟩ := hc
  unfold wrapInt at h1 ⊢
  omega


/-! ## C11: out-of-bounds byte-span read -/

/-- C11 fails on the code. `ReadBytes` takes `buf.bytes[pointer : pointer+num]`, a slice
expression, which Go checks against the capacity of `buf.bytes` and not against its length. On
the storage `[1, 2]` whose backing array goes on with `[3, 4]` (a buffer made from `b[:2]` of a
four-byte `b`), `ReadBytes(3)` returns `[1, 2, 3]`, one byte beyond the length, and leaves the
cursor at 3; the scalar read `ReadUint32` on the same state ends in a panic. The same happens
with the spare capacity `append` leaves behind: after `WriteUint8(1)` on the empty buffer (length
1, seven spare bytes), `SetPointer(0)` and `ReadBytes(5)` return `[1, 0, 0, 0, 0]`. -/
theorem C11_ReadBytes_beyond_length :
    (BufferFromBytes ⟨[1, 2], [3, 4]⟩).Valid ∧
    (BufferFromBytes ⟨[1, 2], [3, 4]⟩).bytes.len < (BufferFromBytes ⟨[1, 2], [3, 4]⟩).pointer + 3 ∧
    ReadBytes 3 (BufferFromBytes ⟨[1, 2], [3, 4]⟩)
      = .ok ⟨[1, 2, 3], [4]⟩ ⟨⟨[1, 2], [3, 4]⟩, 3⟩ ∧
    ReadUint32 (BufferFromBytes ⟨[1, 2], [3, 4]⟩) = .fault (BufferFromBytes ⟨[1, 2], [3, 4]⟩) ∧
    (do WriteUint8 (fun _ _ => 7) 1; SetPointer 0; ReadBytes 5 : Op Slice)
        (BufferFromBytes ⟨[], []⟩)
      = .ok ⟨[1, 0, 0, 0, 0], [0, 0, 0]⟩ ⟨⟨[1], [0, 0, 0, 0, 0, 0, 0]⟩, 5⟩ := by
  decide

/-! ## C12: byte-span round trip -/

theorem storeByte_ok_inv {buf b1 : Buffer} {i : Int} {b : Byte}
    (h : storeByte i b buf = .ok () b1) :
    0 ≤ i ∧ i < buf.bytes.len ∧
    b1 = ⟨⟨buf.bytes.elems.set i.toNat b, buf.bytes.spare⟩, buf.pointer⟩ := by
  by_cases hc : 0 ≤ i ∧ i < buf.bytes.len
  · rw [storeByte_eq buf i b hc.1 hc.2] at h
    have : (⟨⟨buf.bytes.elems.set i.toNat b, buf.bytes.spare⟩, buf.pointer⟩ : Buffer) = b1 := by
      injection h
    exact ⟨hc.1, hc.2, this.symm⟩
  · rw [storeByte_fault buf i b hc] at h
    exact Outcome.noConfusion h

theorem getD_set_append (l sp : List Byte) (n k : Nat) (b : Byte) (h : k ≠ n) :
    (l.set n b ++ sp).getD k 0 = (l ++ sp).getD k 0 := by
  rw [List.getD_eq_getElem?_getD, List.getD_eq_getElem?_getD]
  congr 1
  by_cases hk : k < l.length
  · rw [List.getElem?_append_left (by rw [List.length_set]; exact hk),
      List.getElem?_append_left hk, List.getElem?_set_ne (Ne.symm h)]
  · rw [List.getElem?_append_right (by rw [List.length_set]; omega),
      List.getElem?_append_right (by omega), List.length_set]

/-- What `EnsureSize` leaves of the backing array when the storage keeps it (the capacity is the
same): the elements below the old length and from the new length on are as they were, and the new
length is within the capacity. -/
theorem EnsureSize_sameArray {grow : Nat → Nat → Nat} {size : Int} {buf b1 : Buffer}
    (he : EnsureSize grow size buf = .ok () b1) (hc : b1.bytes.cap = buf.bytes.cap) :
    ∀ k, (k < buf.bytes.elems.length ∨ b1.bytes.elems.length ≤ k) →
      (b1.bytes.elems ++ b1.bytes.spare).getD k 0
        = (buf.bytes.elems ++ buf.bytes.spare).getD k 0 := by
  generalize hd : wrapInt (wrapInt (buf.pointer + size) - buf.bytes.len) = d at *
  by_cases hn : d > 0
  · by_cases hfit : buf.bytes.len + ((d.toNat : Nat) : Int) ≤ maxInt
    · by_cases hsp : d.toNat ≤ buf.bytes.spare.length
      · simp only [EnsureSize, hd, if_pos hn, Slice.appendZeros, if_pos hfit, if_pos hsp] at he
        have hb : (⟨⟨buf.bytes.elems ++ List.replicate d.toNat 0,
            buf.bytes.spare.drop d.toNat⟩, buf.pointer⟩ : Buffer) = b1 := by injection he
        subst hb
        intro k hk
        show (buf.bytes.elems ++ List.replicate d.toNat 0 ++ buf.bytes.spare.drop d.toNat).getD k 0
          = _
        rw [List.getD_eq_getElem?_getD, List.getD_eq_getElem?_getD]
        congr 1
        rcases hk with hk | hk
        · rw [List.append_assoc, List.getElem?_append_left hk, List.getElem?_append_left hk]
        · have hk' : buf.bytes.elems.length + d.toNat ≤ k := by
            simpa [List.length_append, List.length_replicate] using hk
          rw [List.getElem?_append_right (by simp; omega),
            List.getElem?_append_right (by omega), List.getElem?_drop]
          congr 1
          simp only [List.length_append, List.length_replicate]
          omega
      · simp only [EnsureSize, hd, if_pos hn, Slice.appendZeros, if_pos hfit, if_neg hsp] at he
        have hb : (⟨⟨buf.bytes.elems ++ List.replicate d.toNat 0, List.replicate
            (grow (buf.bytes.elems.length + buf.bytes.spare.length)
              (buf.bytes.elems.length + d.toNat)) 0⟩, buf.pointer⟩ : Buffer) = b1 := by
          injection he
        subst hb
        exfalso
        simp only [Slice.cap, List.length_append, List.length_replicate] at hc
        omega
    · simp only [EnsureSize, hd, if_pos hn, Slice.appendZeros, if_neg hfit] at he
      exact Outcome.noConfusion he
  · simp only [EnsureSize, hd, if_neg hn] at he
    have hb : buf = b1 := by injection he
    subst hb
    intro k _
    rfl

/-- The value of an element of the argument after a store at another index. -/
theorem read_after_store {buf b1 : Buffer} {i : Int} {b : Byte}
    (h : storeByte i b buf = .ok () b1) (c : Cell)
    (hc : ∀ k, c = .shared k → k ≠ i.toNat) : c.read b1 = c.read buf := by
  obtain ⟨-, -, hb⟩ := storeByte_ok_inv h
  subst hb
  cases c with
  | own v => rfl
  | shared k => exact getD_set_append _ _ _ _ _ (hc k rfl)

/-- The loop of `WriteBytes` stores the values the elements have at its start when no shared
element lies at an offset the loop writes before it copies that element. -/
theorem loop_untouched : ∀ (cells : List Cell) (j : Nat) (buf : Buffer),
    0 ≤ buf.pointer → buf.pointer + ((j + cells.length : Nat) : Int) ≤ maxInt →
    (∀ i k, cells[i]? = some (.shared k) →
      k < buf.pointer.toNat + j ∨ buf.pointer.toNat + j + i ≤ k) →
    WriteBytes.loop (j : Int) cells buf = storeFrom (j : Int) (cells.map (Cell.read buf)) buf := by
  intro cells
  induction cells with
  | nil =>
    intro j buf _ _ _
    rw [WriteBytes.loop, List.map_nil, storeFrom]
  | cons c rest ih =>
    intro j buf hp hfit hk
    have hfit' : buf.pointer + ((j + (rest.length + 1) : Nat) : Int) ≤ 2 ^ 63 - 1 := hfit
    have hw1 : wrapInt (buf.pointer + (j : Int)) = buf.pointer + (j : Int) := by
      rw [wrapInt_eq]
      · simp only [minInt]; omega
      · simp only [maxInt]; omega
    have hw2 : wrapInt ((j : Int) + 1) = ((j + 1 : Nat) : Int) := by
      rw [wrapInt_eq]
      · omega
      · simp only [minInt]; omega
      · simp only [maxInt]; omega
    rw [WriteBytes.loop, List.map_cons, storeFrom, bind_getPointer, bind_getPointer,
      bind_loadCell, hw1, hw2]
    cases h : storeByte (buf.pointer + (j : Int)) (c.read buf) buf with
    | fault b1 => rw [bind_fault h, bind_fault h]
    | ok u b1 =>
      rw [bind_ok h, bind_ok h]
      have hb1 := (storeByte_ok_inv h).2.2
      have hp1 : b1.pointer = buf.pointer := by rw [hb1]
      have hsame : rest.map (Cell.read b1) = rest.map (Cell.read buf) := by
        apply List.map_congr_left
        intro c' hc'
        obtain ⟨i, hi⟩ := List.getElem?_of_mem hc'
        apply read_after_store h
        intro k hck
        subst hck
        have := hk (i + 1) k (by rw [List.getElem?_cons_succ]; exact hi)
        omega
      have hih := ih (j + 1) b1 (by rw [hp1]; exact hp)
        (by rw [hp1]; simp only [maxInt]; omega)
        (by
          intro i k hik
          have := hk (i + 1) k (by rw [List.getElem?_cons_succ]; exact hik)
          rw [hp1]
          omega)
      rw [hih, hsame]

theorem freeze_contents (buf : Buffer) (bytes : List Cell) :
    bytes.map (Cell.freeze buf) = owned (contents buf bytes) := by
  rw [owned, contents, List.map_map]
  rfl

theorem length_contents (buf : Buffer) (bytes : List Cell) :
    (contents buf bytes).length = bytes.length := by
  rw [contents, List.length_map]

/-- A call of `WriteBytes` that changes no element of its argument before copying it is the
write of the bytes the argument has at the call. -/
theorem WriteBytes_untouched (grow : Nat → Nat → Nat) (bytes : List Cell) (buf : Buffer)
    (hv : buf.Valid) (hp : 0 ≤ buf.pointer)
    (hfit : buf.pointer + (bytes.length : Int) ≤ maxInt) (hu : Untouched buf bytes) :
    WriteBytes grow bytes buf = writeSeq grow (contents buf bytes) buf := by
  have hmax : (buf.bytes.elems.length : Int) ≤ 2 ^ 63 - 1 := hv.2.2
  have hfit' : buf.pointer + (bytes.length : Int) ≤ 2 ^ 63 - 1 := hfit
  rw [WriteBytes_apply, writeSeq, length_contents]
  cases h : EnsureSize grow (bytes.length : Int) buf with
  | fault b1 => rw [bind_fault h, bind_fault h]
  | ok u b1 =>
    rw [bind_ok h, bind_ok h, bind_getBuffer]
    apply bind_congr_apply
    obtain ⟨hp1, -, -, -⟩ := EnsureSize_ok_facts h hv
    obtain ⟨sp, he, -⟩ := EnsureSize_eq grow (bytes.length : Int) buf hv
      (by simp only [minInt]; omega) hfit (by simp only [minInt, Slice.len]; omega)
    have hb1 : b1 = ⟨⟨buf.bytes.elems ++ List.replicate
        (buf.pointer + (bytes.length : Int) - buf.bytes.len).toNat 0, sp⟩, buf.pointer⟩ := by
      rw [he] at h
      injection h with _ h2
      exact h2.symm
    have hlen1 : (b1.bytes.elems.length : Int) = max buf.bytes.len
        (buf.pointer + (bytes.length : Int)) := by
      rw [hb1]
      simp only [List.length_append, List.length_replicate, Slice.len]
      omega
    by_cases hc : b1.bytes.cap = buf.bytes.cap
    · rw [if_pos hc]
      have hcap : b1.bytes.len ≤ buf.bytes.cap := by
        rw [← hc]
        simp only [Slice.len, Slice.cap]
        omega
      have hkept : ∀ i, i < bytes.length →
          (bytes.getD i (.own 0)).keptUntil buf bytes.length i := by
        rcases hu with hu | hu
        · exfalso
          simp only [Slice.len] at hcap hlen1
          omega
        · exact hu
      have hcell : ∀ (i k : Nat), bytes[i]? = some (.shared k) →
          (((k : Int) < buf.pointer ∨ buf.pointer + (i : Int) ≤ (k : Int)) ∧
           ((k : Int) < buf.bytes.len ∨ buf.pointer + (bytes.length : Int) ≤ (k : Int))) := by
        intro i k hik
        have hi : i < bytes.length := by
          by_contra hcon
          rw [List.getElem?_eq_none (by omega)] at hik
          exact Option.noConfusion hik
        have := hkept i hi
        rw [List.getD_eq_getElem?_getD, hik] at this
        exact this
      have hloop := loop_untouched bytes 0 b1 (by rw [hp1]; exact hp)
        (by rw [hp1, Nat.zero_add]; exact hfit)
        (by
          intro i k hik
          have := (hcell i k hik).1
          rw [hp1]
          omega)
      rw [Nat.cast_zero] at hloop
      rw [hloop]
      have hsame : bytes.map (Cell.read b1) = contents buf bytes := by
        rw [contents]
        apply List.map_congr_left
        intro c hcm
        obtain ⟨i, hi⟩ := List.getElem?_of_mem hcm
        cases c with
        | own v => rfl
        | shared k =>
          have := (hcell i k hi).2
          apply EnsureSize_sameArray h hc k
          simp only [Slice.len] at this hlen1
          omega
      rw [hsame]
    · rw [if_neg hc, freeze_contents]
      exact loop_owned _ 0 b1

/-- An argument that shares no memory with the storage is not changed by the call. -/
theorem untouched_owned (buf : Buffer) (bs : List Byte) : Untouched buf (owned bs) := by
  right
  intro i hi
  rw [length_owned] at hi
  have : (owned bs).getD i (.own 0) = .own (bs.getD i 0) := by
    rw [owned, List.getD_eq_getElem?_getD, List.getD_eq_getElem?_getD, List.getElem?_map,
      List.getElem?_eq_getElem hi]
    rfl
  rw [this]
  trivial

theorem contents_owned (buf : Buffer) (bs : List Byte) : contents buf (owned bs) = bs := by
  rw [contents, owned, List.map_map]
  exact List.map_id _

theorem span_of_overwrite (l : List Byte) (n : Nat) (bs sp : List Byte)
    (h : n + bs.length ≤ l.length) :
    ((overwrite l n bs ++ sp).drop n).take bs.length = bs := by
  unfold overwrite
  have h1 : (List.take n l).length = n := by
    rw [List.length_take]; omega
  rw [List.append_assoc, List.append_assoc, List.drop_left' h1, List.take_left' rfl]

/-- A write of the bytes `bs` that fits, and the byte span read back from the old cursor. -/
theorem readBackSeq (grow : Nat → Nat → Nat) (bs : List Byte) (buf : Buffer) (hv : buf.Valid)
    (hp : 0 ≤ buf.pointer) (hfit : buf.pointer + (bs.length : Int) ≤ maxInt) :
    ∃ s v, writeSeq grow bs buf = .ok () ⟨s, buf.pointer + (bs.length : Int)⟩ ∧
      ReadBytes (bs.length : Int) ⟨s, buf.pointer⟩
        = .ok v ⟨s, buf.pointer + (bs.length : Int)⟩ ∧
      v.elems = bs ∧
      (s.elems.length : Int) = max buf.bytes.len (buf.pointer + (bs.length : Int)) := by
  obtain ⟨sp, hw, -⟩ := writeSeq_eq grow bs buf hv hp hfit
  have hmax : buf.bytes.len ≤ 2 ^ 63 - 1 := hv.2.2
  have hfit' : buf.pointer + (bs.length : Int) ≤ 2 ^ 63 - 1 := hfit
  have hgl := grown_length buf.bytes.elems (buf.pointer.toNat + bs.length)
  have hol := overwrite_length (grown buf.bytes.elems (buf.pointer.toNat + bs.length))
    buf.pointer.toNat bs (by rw [hgl]; omega)
  have hwrap : wrapInt (buf.pointer + (bs.length : Int)) = buf.pointer + (bs.length : Int) := by
    apply wrapInt_eq
    · simp only [minInt]; omega
    · exact hfit
  rcases ReadBytes_cases (bs.length : Int)
    ⟨⟨overwrite (grown buf.bytes.elems (buf.pointer.toNat + bs.length))
      buf.pointer.toNat bs, sp⟩, buf.pointer⟩ with ⟨-, -, -, hr⟩ | ⟨hc, -⟩
  · rw [hwrap] at hr
    refine ⟨_, _, hw, hr, ?_, ?_⟩
    · show List.take _ (List.drop _ (overwrite _ _ _ ++ sp)) = _
      have he : (buf.pointer + (bs.length : Int)).toNat - buf.pointer.toNat = bs.length := by
        omega
      rw [he]
      exact span_of_overwrite (grown buf.bytes.elems (buf.pointer.toNat + bs.length))
        buf.pointer.toNat bs sp (by rw [hgl]; omega)
    · show ((overwrite _ _ _).length : Int) = _
      rw [hol, hgl]
      simp only [Slice.len]
      omega
  · exfalso
    apply hc
    refine ⟨hp, ?_, ?_⟩
    · show buf.pointer ≤ wrapInt (buf.pointer + (bs.length : Int))
      rw [hwrap]; omega
    · show wrapInt (buf.pointer + (bs.length : Int)) ≤ Slice.cap ⟨_, sp⟩
      rw [hwrap]
      simp only [Slice.cap, hol, hgl]
      omega

/-- C12, as stated, fails, in two ways. With the cursor at the largest `int`, `WriteBytes([1])`
on the empty buffer ends in an out-of-range store (the sum `pointer + 1` in `EnsureSize` wraps
around and nothing is appended), so the round trip returns nothing. And when the argument shares
the backing array of the storage, the loop reads bytes it has already written: on the storage
`[1, 2, 3, 4]`, `v := ReadBytes(3)` is `[1, 2, 3]`; after `SetPointer(1)`, `WriteBytes(v)` leaves
the storage `[1, 1, 1, 1]`, and `SetPointer(1); ReadBytes(3)` returns `[1, 1, 1]`.  The zeros
that `EnsureSize` appends in place change the argument as well: on the storage `[1, 2]` whose
backing array goes on with `[3, 4]`, the argument `[3, 4]` kept in those two spare elements is
written at cursor 1 as `[0, 4]`. -/
theorem C12_counterexample :
    (Buffer.Valid ⟨⟨[], []⟩, maxInt⟩ ∧ (0 : Int) ≤ maxInt ∧
      WriteBytes (fun _ _ => 0) (owned [1]) ⟨⟨[], []⟩, maxInt⟩ = .fault ⟨⟨[], []⟩, maxInt⟩ ∧
      (writeThenRead (WriteBytes (fun _ _ => 0) (owned [1])) maxInt (ReadBytes 1)
        ⟨⟨[], []⟩, maxInt⟩).result = none) ∧
    (ReadBytes 3 (BufferFromBytes ⟨[1, 2, 3, 4], []⟩)
        = .ok ⟨[1, 2, 3], [4]⟩ ⟨⟨[1, 2, 3, 4], []⟩, 3⟩ ∧
      SetPointer 1 ⟨⟨[1, 2, 3, 4], []⟩, 3⟩ = .ok () ⟨⟨[1, 2, 3, 4], []⟩, 1⟩ ∧
      Buffer.Valid ⟨⟨[1, 2, 3, 4], []⟩, 1⟩ ∧ (1 : Int) + 3 ≤ maxInt ∧
      contents ⟨⟨[1, 2, 3, 4], []⟩, 1⟩ (sharedSpan 0 3) = [1, 2, 3] ∧
      WriteBytes (fun _ _ => 0) (sharedSpan 0 3) ⟨⟨[1, 2, 3, 4], []⟩, 1⟩
        = .ok () ⟨⟨[1, 1, 1, 1], []⟩, 4⟩ ∧
      (writeThenRead (WriteBytes (fun _ _ => 0) (sharedSpan 0 3)) 1 (ReadBytes 3)
        ⟨⟨[1, 2, 3, 4], []⟩, 1⟩).result.map Slice.elems = some [1, 1, 1]) ∧
    (Buffer.Valid ⟨⟨[1, 2], [3, 4]⟩, 1⟩ ∧ (1 : Int) + 2 ≤ maxInt ∧
      contents ⟨⟨[1, 2], [3, 4]⟩, 1⟩ (sharedSpan 2 2) = [3, 4] ∧
      WriteBytes (fun _ _ => 0) (sharedSpan 2 2) ⟨⟨[1, 2], [3, 4]⟩, 1⟩
        = .ok () ⟨⟨[1, 0, 4], [4]⟩, 3⟩ ∧
      (writeThenRead (WriteBytes (fun _ _ => 0) (sharedSpan 2 2)) 1 (ReadBytes 2)
        ⟨⟨[1, 2], [3, 4]⟩, 1⟩).result.map Slice.elems = some [0, 4]) := by
  decide

/-- C12 (amended). Byte-span round trip: for every byte sequence `seq`, sharing memory with the
storage or not, and every buffer with cursor `p`, `0 ≤ p` and `p + length(seq) ≤ maxInt`,
`WriteBytes(seq); SetPointer(p); ReadBytes(length(seq))` returns a sequence of the length of
`seq`, the cursor ends at `p + length(seq)`, and the storage length after the write is exactly
`max(old length, p + length(seq))` (no over-growth); and the sequence returned is equal byte for
byte to `seq` as it was at the call when the call changes no byte of `seq` before the loop copies
it (`Untouched`), as is the case for every `seq` that shares no memory with the storage. -/
theorem C12_byte_span_round_trip (grow : Nat → Nat → Nat) (buf : Buffer) (seq : List Cell)
    (hv : buf.Valid) (hp : 0 ≤ buf.pointer)
    (hfit : buf.pointer + (seq.length : Int) ≤ maxInt) :
    (Untouched buf seq →
      (writeThenRead (WriteBytes grow seq) buf.pointer (ReadBytes (seq.length : Int))
        buf).result.map Slice.elems = some (contents buf seq)) ∧
    (∀ bs, seq = owned bs →
      (writeThenRead (WriteBytes grow seq) buf.pointer (ReadBytes (seq.length : Int))
        buf).result.map Slice.elems = some bs) ∧
    ((writeThenRead (WriteBytes grow seq) buf.pointer (ReadBytes (seq.length : Int))
        buf).result.map fun v => v.elems.length) = some seq.length ∧
    (writeThenRead (WriteBytes grow seq) buf.pointer (ReadBytes (seq.length : Int))
      buf).state.pointer = buf.pointer + (seq.length : Int) ∧
    ((WriteBytes grow seq buf).state.bytes.elems.length : Int)
      = max buf.bytes.len (buf.pointer + (seq.length : Int)) := by
  have key : ∀ bs : List Byte, bs.length = seq.length →
      WriteBytes grow seq buf = writeSeq grow bs buf →
      (writeThenRead (WriteBytes grow seq) buf.pointer (ReadBytes (seq.length : Int))
        buf).result.map Slice.elems = some bs ∧
      (writeThenRead (WriteBytes grow seq) buf.pointer (ReadBytes (seq.length : Int))
        buf).state.pointer = buf.pointer + (seq.length : Int) ∧
      ((WriteBytes grow seq buf).state.bytes.elems.length : Int)
        = max buf.bytes.len (buf.pointer + (seq.length : Int)) := by
    intro bs hl hb
    obtain ⟨s, v, hw, hr, hve, hlen⟩ := readBackSeq grow bs buf hv hp (by rw [hl]; exact hfit)
    rw [hl] at hw hr hlen
    rw [writeThenRead_eq (hb.trans hw) hr, hb, hw]
    exact ⟨congrArg some hve, rfl, hlen⟩
  obtain ⟨bs, hl, hb⟩ := WriteBytes_shape grow seq buf
  obtain ⟨h1, h2, h3⟩ := key bs hl hb
  refine ⟨fun hu => ?_, fun bs' hs => ?_, ?_, h2, h3⟩
  · exact (key (contents buf seq) (length_contents buf seq)
      (WriteBytes_untouched grow seq buf hv hp hfit hu)).1
  · subst hs
    have := (key (contents buf (owned bs')) (length_contents buf _)
      (WriteBytes_untouched grow _ buf hv hp hfit (untouched_owned buf bs'))).1
    rw [contents_owned] at this
    exact this
  · cases hres : (writeThenRead (WriteBytes grow seq) buf.pointer (ReadBytes (seq.length : Int))
        buf).result with
    | none => rw [hres] at h1; exact Option.noConfusion h1
    | some v =>
      rw [hres] at h1
      have hv' : v.elems = bs := Option.some.inj h1
      show some v.elems.length = some seq.length
      rw [hv', hl]

/-- C12, witness: on the storage `[1, 2, 3, 4, 5, 6]` with the cursor at 0, `WriteBytes` of the
slice `storage[2:5]`, which shares the backing array and lies ahead of the cursor, reads back as
`[3, 4, 5]`. -/
theorem C12_byte_span_round_trip_witness :
    Buffer.Valid ⟨⟨[1, 2, 3, 4, 5, 6], []⟩, 0⟩ ∧ (0 : Int) ≤ 0 ∧
    (0 : Int) + ((sharedSpan 2 3).length : Int) ≤ maxInt ∧
    Untouched ⟨⟨[1, 2, 3, 4, 5, 6], []⟩, 0⟩ (sharedSpan 2 3) ∧
    (writeThenRead (WriteBytes (fun _ _ => 0) (sharedSpan 2 3)) 0
      (ReadBytes ((sharedSpan 2 3).length : Int)) ⟨⟨[1, 2, 3, 4, 5, 6], []⟩, 0⟩).result.map
      Slice.elems = some [3, 4, 5] ∧
    ((WriteBytes (fun _ _ => 0) (sharedSpan 2 3)
        ⟨⟨[1, 2, 3, 4, 5, 6], []⟩, 0⟩).state.bytes.elems.length : Int)
      = max (Slice.len ⟨[1, 2, 3, 4, 5, 6], []⟩) (0 + ((sharedSpan 2 3).length : Int)) :=
  ⟨by decide, by decide, by decide, by decide,
    (C12_byte_span_round_trip (fun _ _ => 0) ⟨⟨[1, 2, 3, 4, 5, 6], []⟩, 0⟩ (sharedSpan 2 3)
      (by decide) (by decide) (by decide)).1 (by decide),
    (C12_byte_span_round_trip (fun _ _ => 0) ⟨⟨[1, 2, 3, 4, 5, 6], []⟩, 0⟩ (sharedSpan 2 3)
      (by decide) (by decide) (by decide)).2.2.2.2⟩

/-! ## C13: cursor advancement -/

theorem ok_of_result {α : Type} {o : Outcome α} {a : α} (h : o.result = some a) :
    o = .ok a o.state := by
  cases o with
  | ok v b =>
    have : v = a := Option.some.inj h
    subst this
    rfl
  | fault b => exact Option.noConfusion h

theorem result_of_ok {α : Type} {o : Outcome α} {a : α} {b : Buffer} (h : o = .ok a b) :
    o.result = some a ∧ o.state = b := by
  subst h
  exact ⟨rfl, rfl⟩

theorem writeSeq_ok_valid (grow : Nat → Nat → Nat) (bs : List Byte) (buf : Buffer)
    (hv : buf.Valid) (hlen : (bs.length : Int) ≤ maxInt)
    (hr : (writeSeq grow bs buf).result = some ()) : (writeSeq grow bs buf).state.Valid := by
  obtain ⟨hp, hl⟩ := writeSeq_ok_len grow bs buf hv hlen hr
  have hv1 : -(2 ^ 63) ≤ buf.pointer := hv.1
  have hv2 : buf.pointer ≤ 2 ^ 63 - 1 := hv.2.1
  have hmax : buf.bytes.len ≤ 2 ^ 63 - 1 := hv.2.2
  have hfit : buf.pointer + (bs.length : Int) ≤ 2 ^ 63 - 1 := by
    by_cases hne : bs = []
    · subst hne
      simp only [List.length_nil, Nat.cast_zero, Int.add_zero]
      exact hv2
    · exact (writeSeq_ok_bounds grow bs buf hv hlen hne hr).2
  refine ⟨?_, ?_, ?_⟩
  · rw [hp]; simp only [minInt]; omega
  · rw [hp]; simp only [maxInt]; omega
  · show ((writeSeq grow bs buf).state.bytes.elems.length : Int) ≤ maxInt
    rw [hl]; simp only [maxInt]; omega

/-- A read or write that returns, on a valid state, advanced the cursor by exactly its width and
left a valid state. -/
theorem access_ok (grow : Nat → Nat → Nat) (a : Action) (buf : Buffer) (hv : buf.Valid)
    (hrw : a.isRead = true ∨ a.isWrite = true) (ht : a.Typed)
    (hr : (a.run grow buf).result = some ()) :
    (a.run grow buf).state.pointer = buf.pointer + a.width ∧ (a.run grow buf).state.Valid := by
  have hmax : buf.bytes.len ≤ 2 ^ 63 - 1 := hv.2.2
  rcases hrw with hread | hwrite
  · by_cases hb : ∃ n, a = .readBytes n
    · obtain ⟨n, rfl⟩ := hb
      rcases ReadBytes_cases n buf with ⟨h0, h1, h2, hok⟩ | ⟨-, hf⟩
      · have hrun : (Action.readBytes n).run grow buf
            = .ok () ⟨buf.bytes, wrapInt (buf.pointer + n)⟩ := discard_ok hok
        obtain ⟨-, hex⟩ := ReadBytes_ok_exact n buf hv ht ⟨h0, h1, h2⟩
        rw [hrun]
        refine ⟨hex, ?_⟩
        have hrg := wrapInt_range (buf.pointer + n)
        exact ⟨hrg.1, hrg.2, hv.2.2⟩
      · have hrun : (Action.readBytes n).run grow buf = .fault buf := discard_fault hf
        rw [hrun] at hr
        exact Option.noConfusion hr
    · rcases scalarRead_cases grow a buf hv hread (fun n hn => hb ⟨n, hn⟩) with
        ⟨h0, h1, hok⟩ | ⟨-, hf⟩
      · rw [hok]
        refine ⟨rfl, ?_, ?_, hv.2.2⟩
        · show minInt ≤ buf.pointer + a.width
          have hw : 0 ≤ a.width := by cases a <;> first | decide | exact Bool.noConfusion hread | exact absurd ⟨_, rfl⟩ hb
          simp only [minInt]; omega
        · show buf.pointer + a.width ≤ maxInt
          simp only [maxInt]; omega
      · rw [hf] at hr
        exact Option.noConfusion hr
  · obtain ⟨bs, hrun, hwid, hlen, -⟩ := write_shape grow a buf hwrite ht
    rw [hrun] at hr ⊢
    rw [hwid]
    exact ⟨(writeSeq_ok_len grow bs buf hv hlen hr).1, writeSeq_ok_valid grow bs buf hv hlen hr⟩

theorem runAll_pointer (grow : Nat → Nat → Nat) : ∀ (acts : List Action) (buf : Buffer),
    buf.Valid → (∀ a ∈ acts, (a.isRead = true ∨ a.isWrite = true) ∧ a.Typed) →
    (runAll grow acts buf).result = some () →
    (runAll grow acts buf).state.pointer = buf.pointer + (acts.map Action.width).sum := by
  intro acts
  induction acts with
  | nil =>
    intro buf _ _ _
    rw [runAll, pure_apply]
    show buf.pointer = buf.pointer + 0
    omega
  | cons a rest ih =>
    intro buf hv hall hr
    rw [runAll] at hr ⊢
    cases ha : a.run grow buf with
    | fault b1 =>
      rw [bind_fault ha] at hr
      exact Option.noConfusion hr
    | ok u b1 =>
      rw [bind_ok ha] at hr ⊢
      have hmem := hall a (List.mem_cons_self _ _)
      obtain ⟨hp, hv1⟩ := access_ok grow a buf hv hmem.1 hmem.2 (by rw [ha]; rfl)
      rw [ha] at hp hv1
      have := ih b1 hv1 (fun x hx => hall x (List.mem_cons_of_mem _ hx)) hr
      rw [this, List.map_cons, List.sum_cons]
      have hp' : b1.pointer = buf.pointer + a.width := hp
      rw [hp']
      omega

/-- C13. Cursor advancement: on every valid state, every successful scalar read or write
advances the cursor by exactly the byte width of its kind (1 for Uint8/Int8/Bool, 2 for
Uint16/Int16, 4 for Uint32/Int32/Float32, 8 for Uint64/Int64/Float64), `ReadBytes(n)` advances it
by `n` and `WriteBytes(seq)` by `length(seq)`; so after any sequence of successful reads and
writes started at cursor `p` the cursor equals `p` plus the sum of their widths. -/
theorem C13_cursor_advancement (grow : Nat → Nat → Nat) (buf : Buffer) (hv : buf.Valid) :
    (∀ a : Action, (a.isRead = true ∨ a.isWrite = true) → a.Typed →
      (a.run grow buf).result = some () →
      (a.run grow buf).state.pointer = buf.pointer + a.width) ∧
    (∀ acts : List Action, (∀ a ∈ acts, (a.isRead = true ∨ a.isWrite = true) ∧ a.Typed) →
      (runAll grow acts buf).result = some () →
      (runAll grow acts buf).state.pointer = buf.pointer + (acts.map Action.width).sum) :=
  ⟨fun a hrw ht hr => (access_ok grow a buf hv hrw ht hr).1,
    fun acts hall hr => runAll_pointer grow acts buf hv hall hr⟩

/-- C13, witness: `ReadUint16`, `WriteUint8(7)`, `ReadBytes(2)`, `WriteBytes([1, 2, 3])` run from
cursor 1 of the sample storage end with the cursor at `1 + (2 + 1 + 2 + 3)`. -/
theorem C13_cursor_advancement_witness :
    sampleBuffer.Valid ∧
    (runAll (fun _ _ => 0)
      [.readUint16, .writeUint8 7, .readBytes 2, .writeBytes (owned [1, 2, 3])]
      sampleBuffer).result = some () ∧
    (runAll (fun _ _ => 0)
      [.readUint16, .writeUint8 7, .readBytes 2, .writeBytes (owned [1, 2, 3])]
      sampleBuffer).state.pointer
      = sampleBuffer.pointer + (List.map Action.width
        [.readUint16, .writeUint8 7, .readBytes 2, .writeBytes (owned [1, 2, 3])]).sum :=
  ⟨by decide, by decide,
    (C13_cursor_advancement (fun _ _ => 0) sampleBuffer (by decide)).2
      [.readUint16, .writeUint8 7, .readBytes 2, .writeBytes (owned [1, 2, 3])]
      (by
        intro a ha
        simp only [List.mem_cons, List.mem_singleton, List.not_mem_nil, or_false] at ha
        rcases ha with h | h | h | h <;> subst h
        · exact ⟨Or.inl rfl, trivial⟩
        · exact ⟨Or.inr rfl, trivial⟩
        · exact ⟨Or.inl rfl, show minInt ≤ (2 : Int) ∧ (2 : Int) ≤ maxInt by decide⟩
        · exact ⟨Or.inr rfl, show ((owned [1, 2, 3]).length : Int) ≤ maxInt by decide⟩)
      (by decide)⟩

/-! ## C14: a failed operation leaves the cursor -/

/-- C14. Failure leaves the cursor where it was: for every valid buffer and every read or write
operation (scalar or byte span), if the operation fails (ends in a run-time panic, such as an
out-of-bounds access) then the cursor after the failure equals the cursor before the
operation. -/
theorem C14_failure_leaves_cursor (grow : Nat → Nat → Nat) (buf : Buffer) (a : Action)
    (hv : buf.Valid) (hrw : a.isRead = true ∨ a.isWrite = true) (ht : a.Typed)
    (hfail : (a.run grow buf).result = none) :
    (a.run grow buf).state.pointer = buf.pointer := by
  rcases hrw with hread | hwrite
  · by_cases hb : ∃ n, a = .readBytes n
    · obtain ⟨n, rfl⟩ := hb
      rcases ReadBytes_cases n buf with ⟨-, -, -, hok⟩ | ⟨-, hf⟩
      · have hrun : (Action.readBytes n).run grow buf
            = .ok () ⟨buf.bytes, wrapInt (buf.pointer + n)⟩ := discard_ok hok
        rw [hrun] at hfail
        exact Option.noConfusion hfail
      · have hrun : (Action.readBytes n).run grow buf = .fault buf := discard_fault hf
        rw [hrun]
        rfl
    · rcases scalarRead_cases grow a buf hv hread (fun n hn => hb ⟨n, hn⟩) with
        ⟨-, -, hok⟩ | ⟨-, hf⟩
      · rw [hok] at hfail
        exact Option.noConfusion hfail
      · rw [hf]
        rfl
  · obtain ⟨bs, hrun, -, hlen, -⟩ := write_shape grow a buf hwrite ht
    rw [hrun] at hfail ⊢
    exact writeSeq_fault_pointer grow bs buf hv hlen hfail

/-- C14, witness: `ReadUint16` on the one-byte storage `[1]` fails and the cursor stays at 0. -/
theorem C14_failure_leaves_cursor_witness :
    Buffer.Valid ⟨⟨[1], []⟩, 0⟩ ∧
    (Action.readUint16.run (fun _ _ => 0) ⟨⟨[1], []⟩, 0⟩).result = none ∧
    (Action.readUint16.run (fun _ _ => 0) ⟨⟨[1], []⟩, 0⟩).state.pointer = 0 :=
  ⟨by decide, by decide,
    C14_failure_leaves_cursor (fun _ _ => 0) ⟨⟨[1], []⟩, 0⟩ .readUint16 (by decide)
      (Or.inl rfl) trivial (by decide)⟩

/-! ## C15: `LeftToRead` and `SetPointer` -/

/-- C15, as stated, fails: with the cursor at the smallest `int` on the empty storage, the
difference `length - cursor` is `2^63`, no value of `int`; `LeftToRead()` computes it with
wrap-around and returns the smallest `int`, a negative number. -/
theorem C15_counterexample :
    Buffer.Valid ⟨⟨[], []⟩, minInt⟩ ∧
    SetPointer minInt (BufferFromBytes ⟨[], []⟩) = .ok () ⟨⟨[], []⟩, minInt⟩ ∧
    LeftToRead ⟨⟨[], []⟩, minInt⟩ = .ok minInt ⟨⟨[], []⟩, minInt⟩ ∧
    Slice.len ⟨[], []⟩ - minInt = 2 ^ 63 ∧
    minInt ≠ Slice.len ⟨[], []⟩ - minInt := by
  decide

/-- C15 (amended). `LeftToRead` (Remaining): for every buffer state in which
`length(storage) - cursor` is a value of `int` (`cursor ≥ length - maxInt`, so in particular for
every cursor `≥ 0`), `LeftToRead()` returns `length(Bytes()) - Pointer()` as a signed integer;
`SetPointer(n)` never fails for any `n`, sets the cursor to `n` and leaves the storage unchanged,
so after `SetPointer(n)` with `n > length(storage)` (`n` a value of `int`), `LeftToRead()` is
negative and equal to `length(storage) - n`. -/
theorem C15_LeftToRead (buf : Buffer) (n : Int) (hv : buf.Valid) :
    Bytes buf = .ok buf.bytes buf ∧ Pointer buf = .ok buf.pointer buf ∧
    (buf.bytes.len - maxInt ≤ buf.pointer →
      LeftToRead buf = .ok (buf.bytes.len - buf.pointer) buf) ∧
    SetPointer n buf = .ok () ⟨buf.bytes, n⟩ ∧
    (buf.bytes.len < n → n ≤ maxInt →
      (do SetPointer n; LeftToRead : Op Int) buf = .ok (buf.bytes.len - n) ⟨buf.bytes, n⟩ ∧
      buf.bytes.len - n < 0) := by
  have hmax : buf.bytes.len ≤ 2 ^ 63 - 1 := hv.2.2
  have hv2 : buf.pointer ≤ 2 ^ 63 - 1 := hv.2.1
  have hl : (0 : Int) ≤ buf.bytes.len := Int.natCast_nonneg _
  refine ⟨rfl, rfl, fun h => ?_, SetPointer_eq n buf, fun h hn => ⟨?_, by omega⟩⟩
  · have hw : wrapInt (buf.bytes.len - buf.pointer) = buf.bytes.len - buf.pointer := by
      apply wrapInt_eq
      · simp only [minInt]; omega
      · simp only [maxInt] at h ⊢; omega
    unfold LeftToRead
    rw [hw]
  · rw [bind_SetPointer]
    have hn' : n ≤ 2 ^ 63 - 1 := hn
    have hw : wrapInt (buf.bytes.len - n) = buf.bytes.len - n := by
      apply wrapInt_eq
      · simp only [minInt]; omega
      · simp only [maxInt]; omega
    unfold LeftToRead
    show Outcome.ok (wrapInt (buf.bytes.len - n)) _ = _
    rw [hw]

/-- C15, witness: `SetPointer(20)` on the sample storage (9 bytes), then `LeftToRead()`. -/
theorem C15_LeftToRead_witness :
    sampleBuffer.Valid ∧
    LeftToRead sampleBuffer = .ok (sampleBuffer.bytes.len - sampleBuffer.pointer) sampleBuffer ∧
    (do SetPointer 20; LeftToRead : Op Int) sampleBuffer
      = .ok (sampleBuffer.bytes.len - 20) ⟨sampleBuffer.bytes, 20⟩ ∧
    sampleBuffer.bytes.len - 20 < 0 :=
  ⟨by decide,
    (C15_LeftToRead sampleBuffer 20 (by decide)).2.2.1 (by decide),
    ((C15_LeftToRead sampleBuffer 20 (by decide)).2.2.2.2 (by decide) (by decide)).1,
    ((C15_LeftToRead sampleBuffer 20 (by decide)).2.2.2.2 (by decide) (by decide)).2⟩

/-! ## C16: a write with the cursor beyond the end -/

/-- C16, as stated, fails: on the empty buffer, after `SetPointer(4)` (so that `LeftToRead()` is
`-4` and `ReadUint8` ends in a panic), `WriteUint8(7)` does not fail: `EnsureSize` grows the
storage and the write gives `[0, 0, 0, 0, 7]` with the cursor at 5. -/
theorem C16_counterexample :
    SetPointer 4 (BufferFromBytes ⟨[], []⟩) = .ok () ⟨⟨[], []⟩, 4⟩ ∧
    Slice.len ⟨[], []⟩ < 4 ∧
    LeftToRead ⟨⟨[], []⟩, 4⟩ = .ok (-4) ⟨⟨[], []⟩, 4⟩ ∧
    ReadUint8 ⟨⟨[], []⟩, 4⟩ = .fault ⟨⟨[], []⟩, 4⟩ ∧
    WriteUint8 (fun _ _ => 0) 7 ⟨⟨[], []⟩, 4⟩ = .ok () ⟨⟨[0, 0, 0, 0, 7], []⟩, 5⟩ := by
  decide

/-- C16 (amended). With the cursor beyond the end a read fails and a write grows the storage: for
every buffer whose cursor has been set by `SetPointer` to a value `n` greater than the storage
length (so `LeftToRead()` is negative), a subsequent scalar read at that cursor fails, whereas a
subsequent scalar write of byte width `w` with `n + w ≤ maxInt` does not fail: it returns and
leaves a storage of length exactly `n + w`. -/
theorem C16_write_beyond_end_grows (grow : Nat → Nat → Nat) (buf : Buffer) (n : Int) (u : Nat)
    (i : Int) (b : Bool) (f : Float32) (d : Float64) (hv : buf.Valid)
    (hbeyond : buf.bytes.len < n) (hn : n ≤ maxInt) :
    SetPointer n buf = .ok () ⟨buf.bytes, n⟩ ∧
    (LeftToRead ⟨buf.bytes, n⟩).result = some (buf.bytes.len - n) ∧
    buf.bytes.len - n < 0 ∧
    (∀ rd ∈ scalarReads, rd.1 ⟨buf.bytes, n⟩ = false) ∧
    (∀ wr ∈ scalarWrites grow u i b f d, n + (wr.2 : Int) ≤ maxInt →
      (wr.1 ⟨buf.bytes, n⟩).result = some () ∧
      ((wr.1 ⟨buf.bytes, n⟩).state.bytes.elems.length : Int) = n + (wr.2 : Int)) := by
  have hmax : buf.bytes.len ≤ 2 ^ 63 - 1 := hv.2.2
  have hn' : n ≤ 2 ^ 63 - 1 := hn
  have hl : (0 : Int) ≤ buf.bytes.len := Int.natCast_nonneg _
  have hv' : (⟨buf.bytes, n⟩ : Buffer).Valid :=
    ⟨by show minInt ≤ n; simp only [minInt]; omega, hn, hv.2.2⟩
  refine ⟨SetPointer_eq n buf, ?_, by omega, fun rd hrd => ?_, fun wr hwr hfit => ?_⟩
  · have hw : wrapInt (buf.bytes.len - n) = buf.bytes.len - n := by
      apply wrapInt_eq
      · simp only [minInt]; omega
      · simp only [maxInt]; omega
    unfold LeftToRead
    show some (wrapInt (buf.bytes.len - n)) = _
    rw [hw]
  · have hiff := scalarReads_returned ⟨buf.bytes, n⟩ hv' hrd
    cases hc : rd.1 ⟨buf.bytes, n⟩ with
    | false => rfl
    | true =>
      exfalso
      obtain ⟨-, hle⟩ := hiff.mp hc
      have hle' : n + (rd.2 : Int) ≤ buf.bytes.len := hle
      omega
  · obtain ⟨bs, h1, h2⟩ := scalarWrites_shape hwr
    rw [h1]
    rw [h2] at hfit ⊢
    have hg := writeSeq_growth grow bs ⟨buf.bytes, n⟩ hv' (by show 0 ≤ n; omega)
      (by show buf.bytes.len < n + (bs.length : Int); omega) hfit
    exact ⟨hg.1, hg.2.1⟩

/-- C16, witness: the cursor set to 12 on the sample storage (9 bytes), then `WriteUint32`. -/
theorem C16_write_beyond_end_grows_witness :
    sampleBuffer.Valid ∧ sampleBuffer.bytes.len < 12 ∧ (12 : Int) ≤ maxInt ∧
    (WriteUint32 (fun _ _ => 0) 5 ⟨sampleBuffer.bytes, 12⟩).result = some () ∧
    ((WriteUint32 (fun _ _ => 0) 5 ⟨sampleBuffer.bytes, 12⟩).state.bytes.elems.length : Int)
      = 12 + ((4 : Nat) : Int) :=
  ⟨by decide, by decide, by decide,
    ((C16_write_beyond_end_grows (fun _ _ => 0) sampleBuffer 12 5 0 false 0 0 (by decide)
      (by decide) (by decide)).2.2.2.2 (WriteUint32 (fun _ _ => 0) 5, 4)
      (List.mem_cons_of_mem _ (List.mem_cons_of_mem _ (List.mem_cons_self _ _)))
      (by decide)).1,
    ((C16_write_beyond_end_grows (fun _ _ => 0) sampleBuffer 12 5 0 false 0 0 (by decide)
      (by decide) (by decide)).2.2.2.2 (WriteUint32 (fun _ _ => 0) 5, 4)
      (List.mem_cons_of_mem _ (List.mem_cons_of_mem _ (List.mem_cons_self _ _)))
      (by decide)).2⟩

/-! ## C17: the storage only grows -/

theorem Action.classify (a : Action) :
    a.isRead = true ∨ a.isWrite = true ∨ (∃ n, a = .setPointer n) ∨
      (∃ size, a = .ensureSize size) ∨ a = .leftToRead := by
  cases a <;> first
    | exact Or.inl rfl
    | exact Or.inr (Or.inl rfl)
    | exact Or.inr (Or.inr (Or.inl ⟨_, rfl⟩))
    | exact Or.inr (Or.inr (Or.inr (Or.inl ⟨_, rfl⟩)))
    | exact Or.inr (Or.inr (Or.inr (Or.inr rfl)))

/-- A read that returns leaves the slice of the buffer as it was. -/
theorem read_ok_bytes (grow : Nat → Nat → Nat) (a : Action) (buf : Buffer) (hv : buf.Valid)
    (hread : a.isRead = true) (hr : (a.run grow buf).result = some ()) :
    (a.run grow buf).state.bytes = buf.bytes := by
  by_cases hb : ∃ n, a = .readBytes n
  · obtain ⟨n, rfl⟩ := hb
    rcases ReadBytes_cases n buf with ⟨-, -, -, hok⟩ | ⟨-, hf⟩
    · have hrun : (Action.readBytes n).run grow buf
          = .ok () ⟨buf.bytes, wrapInt (buf.pointer + n)⟩ := discard_ok hok
      rw [hrun]
      rfl
    · have hrun : (Action.readBytes n).run grow buf = .fault buf := discard_fault hf
      rw [hrun]
      rfl
  · rcases scalarRead_cases grow a buf hv hread (fun n hn => hb ⟨n, hn⟩) with
      ⟨-, -, hok⟩ | ⟨-, hf⟩
    · rw [hok]; rfl
    · rw [hf]; rfl

/-- An `EnsureSize(size)` that returns, when `p + size` is a value of `int`: the storage is the
old one followed by `max(0, p + size - len)` zeros and the cursor is kept. -/
theorem EnsureSize_ok_exact (grow : Nat → Nat → Nat) (size : Int) (buf : Buffer)
    (hv : buf.Valid) (h1 : minInt ≤ buf.pointer + size) (h2 : buf.pointer + size ≤ maxInt)
    (hr : (EnsureSize grow size buf).result = some ()) :
    (EnsureSize grow size buf).state.pointer = buf.pointer ∧
    (EnsureSize grow size buf).state.bytes.elems = buf.bytes.elems ++
      List.replicate (buf.pointer + size - buf.bytes.len).toNat 0 := by
  have hmax : buf.bytes.len ≤ 2 ^ 63 - 1 := hv.2.2
  have hl : (0 : Int) ≤ buf.bytes.len := Int.natCast_nonneg _
  have h1' : -(2 ^ 63) ≤ buf.pointer + size := h1
  have h2' : buf.pointer + size ≤ 2 ^ 63 - 1 := h2
  have hw : wrapInt (buf.pointer + size) = buf.pointer + size := wrapInt_eq h1 h2
  rcases EnsureSize_any grow size buf with ⟨k, sp, h, hpos, hneg⟩ | h
  · rw [h]
    refine ⟨rfl, ?_⟩
    show buf.bytes.elems ++ List.replicate k 0 = _
    rw [hw] at hpos hneg
    have hk : k = (buf.pointer + size - buf.bytes.len).toNat := by
      by_cases hd : 0 < wrapInt (buf.pointer + size - buf.bytes.len)
      · obtain ⟨hk1, hk2⟩ := hpos hd
        unfold wrapInt at hk1 hd
        simp only [maxInt] at hk2
        omega
      · obtain ⟨hk1, -⟩ := hneg hd
        unfold wrapInt at hd
        omega
    rw [hk]
  · rw [h] at hr
    exact Option.noConfusion hr

/-- An `EnsureSize(size)` that returns and changes the length, when `p + size` is not below the
smallest `int`: `p + size` is above the old length and is the new length.  (When `p + size` is
above the largest `int`, an `EnsureSize` that returns changes nothing.) -/
theorem EnsureSize_ok_change (grow : Nat → Nat → Nat) (size : Int) (buf : Buffer)
    (hv : buf.Valid) (hs : minInt ≤ size ∧ size ≤ maxInt) (h1 : minInt ≤ buf.pointer + size)
    (hr : (EnsureSize grow size buf).result = some ())
    (hne : (EnsureSize grow size buf).state.bytes.elems.length ≠ buf.bytes.elems.length) :
    buf.bytes.len < buf.pointer + size ∧
    ((EnsureSize grow size buf).state.bytes.elems.length : Int) = buf.pointer + size := by
  have hmax : (buf.bytes.elems.length : Int) ≤ 2 ^ 63 - 1 := hv.2.2
  have hv1 : -(2 ^ 63) ≤ buf.pointer := hv.1
  have hv2 : buf.pointer ≤ 2 ^ 63 - 1 := hv.2.1
  have hs1 : -(2 ^ 63) ≤ size := hs.1
  have hs2 : size ≤ 2 ^ 63 - 1 := hs.2
  have h1' : -(2 ^ 63) ≤ buf.pointer + size := h1
  rcases EnsureSize_any grow size buf with ⟨k, sp, h, hpos, hneg⟩ | h
  · rw [h] at hne ⊢
    have hlen : (⟨⟨buf.bytes.elems ++ List.replicate k 0, sp⟩, buf.pointer⟩ : Buffer).bytes.elems.length
        = buf.bytes.elems.length + k := by
      show (buf.bytes.elems ++ List.replicate k 0).length = _
      rw [List.length_append, List.length_replicate]
    have hlen' : (Outcome.ok () (⟨⟨buf.bytes.elems ++ List.replicate k 0, sp⟩,
        buf.pointer⟩ : Buffer)).state.bytes.elems.length = buf.bytes.elems.length + k := hlen
    rw [hlen'] at hne ⊢
    by_cases hd : 0 < wrapInt (wrapInt (buf.pointer + size) - buf.bytes.len)
    · obtain ⟨hk1, hk2⟩ := hpos hd
      simp only [Slice.len, maxInt] at hk1 hk2 hd ⊢
      unfold wrapInt at hk1 hd
      omega
    · obtain ⟨hk1, -⟩ := hneg hd
      omega
  · rw [h] at hr
    exact Option.noConfusion hr

/-- C17, as stated, fails for `EnsureSize`: on the empty storage with the cursor at the smallest
`int`, the sum `cursor + size` of `EnsureSize(minInt + 5)` is below the smallest `int`; the code
computes it with wrap-around as 5 and appends five zero bytes; the length changes although
`cursor + size` is not greater than the old length, and the new length is not `cursor + size`. -/
theorem C17_counterexample :
    Buffer.Valid ⟨⟨[], []⟩, minInt⟩ ∧ minInt ≤ minInt + 5 ∧ minInt + 5 ≤ maxInt ∧
    minInt + (minInt + 5) < minInt ∧
    EnsureSize (fun _ _ => 0) (minInt + 5) ⟨⟨[], []⟩, minInt⟩
      = .ok () ⟨⟨[0, 0, 0, 0, 0], []⟩, minInt⟩ ∧
    ¬ (Slice.len ⟨[], []⟩ < minInt + (minInt + 5)) ∧
    Slice.len ⟨[0, 0, 0, 0, 0], []⟩ ≠ minInt + (minInt + 5) := by
  decide

/-- C17 (amended). Storage only grows, and only by appended zeros: for every operation of the
buffer (reads, writes, `SetPointer`, `EnsureSize`, `LeftToRead`) and every valid state in which it
succeeds, the new storage length is `≥` the old length; reads, `SetPointer` and `LeftToRead` leave
the storage identical; the bytes `EnsureSize` adds are zeros, and the bytes a write adds below the
cursor are zeros; and, provided that for `EnsureSize(size)` the sum `cursor + size` is not below
the smallest `int` (always so when the cursor is `≥ 0`), the length changes only when a write or
`EnsureSize` has `cursor + width > old length`, in which case the new length is exactly
`cursor + width`. -/
theorem C17_storage_only_grows (grow : Nat → Nat → Nat) (buf : Buffer) (a : Action)
    (hv : buf.Valid) (ht : a.Typed) (hok : (a.run grow buf).result = some ()) :
    buf.bytes.elems.length ≤ (a.run grow buf).state.bytes.elems.length ∧
    ((a.isRead = true ∨ (∃ n, a = .setPointer n) ∨ a = .leftToRead) →
      (a.run grow buf).state.bytes = buf.bytes) ∧
    ((∃ size, a = .ensureSize size) → (a.run grow buf).state.bytes.elems = buf.bytes.elems ++
      List.replicate ((a.run grow buf).state.bytes.elems.length - buf.bytes.elems.length) 0) ∧
    (a.isWrite = true → ∀ k, buf.bytes.elems.length ≤ k → k < buf.pointer.toNat →
      (a.run grow buf).state.bytes.elems[k]? = some 0) ∧
    ((∀ size, a = .ensureSize size → minInt ≤ buf.pointer + size) →
      (a.run grow buf).state.bytes.elems.length ≠ buf.bytes.elems.length →
      (a.isWrite = true ∨ ∃ size, a = .ensureSize size) ∧
      buf.bytes.len < buf.pointer + a.width ∧
      ((a.run grow buf).state.bytes.elems.length : Int) = buf.pointer + a.width) := by
  rcases Action.classify a with hread | hwrite | ⟨n, rfl⟩ | ⟨size, rfl⟩ | rfl
  · have hb := read_ok_bytes grow a buf hv hread hok
    refine ⟨by rw [hb], fun _ => hb, fun h => ?_, fun h => ?_, fun _ hne => ?_⟩
    · obtain ⟨size, hs⟩ := h
      subst hs
      exact Bool.noConfusion hread
    · cases a <;> first | exact Bool.noConfusion h | exact Bool.noConfusion hread
    · rw [hb] at hne
      exact absurd rfl hne
  · obtain ⟨bs, hrun, hwid, hlen, -⟩ := write_shape grow a buf hwrite ht
    rw [hrun] at hok ⊢
    rw [hwid]
    obtain ⟨-, hl⟩ := writeSeq_ok_len grow bs buf hv hlen hok
    have hl0 : (0 : Int) ≤ buf.bytes.len := Int.natCast_nonneg _
    have hv2 : buf.pointer ≤ maxInt := hv.2.1
    have hfit : 0 ≤ buf.pointer →  buf.pointer + (bs.length : Int) ≤ maxInt := by
      intro _
      by_cases hnil : bs = []
      · subst hnil
        simp only [List.length_nil, Nat.cast_zero, Int.add_zero]
        exact hv2
      · exact (writeSeq_ok_bounds grow bs buf hv hlen hnil hok).2
    have hpos : buf.bytes.len < buf.pointer + (bs.length : Int) → 0 ≤ buf.pointer := by
      intro hgrow
      by_cases hnil : bs = []
      · subst hnil
        simp only [List.length_nil, Nat.cast_zero, Int.add_zero] at hgrow
        omega
      · exact (writeSeq_ok_bounds grow bs buf hv hlen hnil hok).1
    refine ⟨?_, fun h => ?_, fun h => ?_, fun _ k hk1 hk2 => ?_, fun _ hne => ?_⟩
    · simp only [Slice.len] at hl
      omega
    · rcases h with h | ⟨n, h⟩ | h
      · cases a <;> first | exact Bool.noConfusion h | exact Bool.noConfusion hwrite
      · subst h; exact Bool.noConfusion hwrite
      · subst h; exact Bool.noConfusion hwrite
    · obtain ⟨size, hs⟩ := h
      subst hs
      exact Bool.noConfusion hwrite
    · have hp : 0 ≤ buf.pointer := by omega
      have hgrow : buf.bytes.len < buf.pointer + (bs.length : Int) := by
        simp only [Slice.len]
        omega
      exact (writeSeq_growth grow bs buf hv hp hgrow (hfit hp)).2.2.2 k hk1 hk2
    · have hgrow : buf.bytes.len < buf.pointer + (bs.length : Int) := by
        simp only [Slice.len] at hl ⊢
        omega
      have hp := hpos hgrow
      exact ⟨Or.inl hwrite, hgrow, (writeSeq_growth grow bs buf hv hp hgrow (hfit hp)).2.1⟩
  · have hrun : (Action.setPointer n).run grow buf = .ok () ⟨buf.bytes, n⟩ := SetPointer_eq n buf
    rw [hrun]
    exact ⟨le_refl _, fun _ => rfl, fun h => h.elim fun _ e => Action.noConfusion e,
      fun h => Bool.noConfusion h, fun _ hne => absurd rfl hne⟩
  · have hrun : (Action.ensureSize size).run grow buf = EnsureSize grow size buf := rfl
    rw [hrun] at hok ⊢
    obtain ⟨-, -, ⟨k, hk⟩, -⟩ := EnsureSize_ok_facts (ok_of_result hok) hv
    have hlen : (EnsureSize grow size buf).state.bytes.elems.length
        = buf.bytes.elems.length + k := by
      rw [hk, List.length_append, List.length_replicate]
    refine ⟨by omega, fun h => ?_, fun _ => ?_, fun h => Bool.noConfusion h, fun hno hne => ?_⟩
    · rcases h with h | ⟨n, h⟩ | h
      · exact Bool.noConfusion h
      · exact Action.noConfusion h
      · exact Action.noConfusion h
    · rw [hlen, Nat.add_sub_cancel_left]
      exact hk
    · obtain ⟨h1, h2⟩ := EnsureSize_ok_change grow size buf hv ht (hno size rfl) hok hne
      exact ⟨Or.inr ⟨size, rfl⟩, h1, h2⟩
  · have hrun : Action.leftToRead.run grow buf = .ok () buf := rfl
    rw [hrun]
    exact ⟨le_refl _, fun _ => rfl, fun h => h.elim fun _ e => Action.noConfusion e,
      fun h => Bool.noConfusion h, fun _ hne => absurd rfl hne⟩

/-- C17, witness: `EnsureSize(2)` with the cursor at 12 on the sample storage (9 bytes) leaves a
storage of length 14, the old bytes followed by five zeros. -/
theorem C17_storage_only_grows_witness :
    Buffer.Valid ⟨sampleBuffer.bytes, 12⟩ ∧
    ((Action.ensureSize 2).run (fun _ _ => 0) ⟨sampleBuffer.bytes, 12⟩).result = some () ∧
    sampleBuffer.bytes.elems.length
      ≤ ((Action.ensureSize 2).run (fun _ _ => 0)
          ⟨sampleBuffer.bytes, 12⟩).state.bytes.elems.length ∧
    (((Action.ensureSize 2).run (fun _ _ => 0)
        ⟨sampleBuffer.bytes, 12⟩).state.bytes.elems.length : Int)
      = 12 + (Action.ensureSize 2).width :=
  ⟨by decide, by decide,
    (C17_storage_only_grows (fun _ _ => 0) ⟨sampleBuffer.bytes, 12⟩ (.ensureSize 2) (by decide)
      (show minInt ≤ (2 : Int) ∧ (2 : Int) ≤ maxInt by decide) (by decide)).1,
    ((C17_storage_only_grows (fun _ _ => 0) ⟨sampleBuffer.bytes, 12⟩ (.ensureSize 2) (by decide)
      (show minInt ≤ (2 : Int) ∧ (2 : Int) ≤ maxInt by decide) (by decide)).2.2.2.2
      (fun size h => by cases h; decide) (by decide)).2.2⟩

/-! ## C18: cursor-in-range invariant -/

/-- The byte width of a read or a write is not negative, `ReadBytes` apart. -/
theorem Action.width_nonneg (a : Action) (hrw : a.isRead = true ∨ a.isWrite = true)
    (hrb : ∀ n, a ≠ .readBytes n) : 0 ≤ a.width := by
  cases a with
  | readBytes n => exact absurd rfl (hrb n)
  | writeBytes seq => exact Int.natCast_nonneg _
  | setPointer n => rcases hrw with h | h <;> exact Bool.noConfusion h
  | ensureSize n => rcases hrw with h | h <;> exact Bool.noConfusion h
  | leftToRead => rcases hrw with h | h <;> exact Bool.noConfusion h
  | _ => first
    | exact (by decide : (0 : Int) ≤ 1)
    | exact (by decide : (0 : Int) ≤ 2)
    | exact (by decide : (0 : Int) ≤ 4)
    | exact (by decide : (0 : Int) ≤ 8)

/-- Every successful operation other than `SetPointer` and `ReadBytes` keeps the cursor in
range: the scalar reads and writes, `WriteBytes`, `EnsureSize` and `LeftToRead`. -/
theorem InRange_preserved (grow : Nat → Nat → Nat) (buf : Buffer) (a : Action)
    (hv : buf.Valid) (ht : a.Typed) (hin : buf.InRange)
    (hsp : ∀ n, a ≠ .setPointer n) (hrb : ∀ n, a ≠ .readBytes n)
    (hok : (a.run grow buf).result = some ()) : (a.run grow buf).state.InRange := by
  obtain ⟨hin0, hin1⟩ := hin
  rcases Action.classify a with hread | hwrite | ⟨n, rfl⟩ | ⟨size, rfl⟩ | rfl
  · have hw := Action.width_nonneg a (Or.inl hread) hrb
    rcases scalarRead_cases grow a buf hv hread hrb with ⟨h0, h1, hrun⟩ | ⟨-, hf⟩
    · rw [hrun]
      exact ⟨by show 0 ≤ buf.pointer + a.width; omega, h1⟩
    · rw [hf] at hok; exact Option.noConfusion hok
  · have hw := Action.width_nonneg a (Or.inr hwrite) hrb
    obtain ⟨bs, hrun, hwid, hlen, -⟩ := write_shape grow a buf hwrite ht
    rw [hrun] at hok ⊢
    obtain ⟨hp, hl⟩ := writeSeq_ok_len grow bs buf hv hlen hok
    refine ⟨by rw [hp]; omega, ?_⟩
    show _ ≤ (((writeSeq grow bs buf).state.bytes.elems.length : Nat) : Int)
    rw [hp, hl]
    exact le_max_right _ _
  · exact absurd rfl (hsp n)
  · have hrun : (Action.ensureSize size).run grow buf = EnsureSize grow size buf := rfl
    rw [hrun] at hok ⊢
    obtain ⟨hp, -, ⟨k, hk⟩, -⟩ := EnsureSize_ok_facts (ok_of_result hok) hv
    refine ⟨by rw [hp]; exact hin0, ?_⟩
    show _ ≤ (((EnsureSize grow size buf).state.bytes.elems.length : Nat) : Int)
    rw [hp, hk, List.length_append]
    simp only [Slice.len] at hin1
    omega
  · have hrun : Action.leftToRead.run grow buf = .ok () buf := rfl
    rw [hrun]
    exact ⟨hin0, hin1⟩

/-- C18 fails on the code, through `ReadBytes`. `BufferFromBytes` gives a state with
`0 ≤ cursor ≤ length(storage)`, and the scalar reads and writes, `WriteBytes` and `EnsureSize`
keep it; but `ReadBytes` slices against the capacity of the storage, so on the storage `[1, 2]`
whose backing array goes on with `[3, 4]` the successful `ReadBytes(3)` leaves the cursor at 3,
above the length 2. The same state is reached from the empty buffer without `SetPointer`:
after `WriteUint8(1)` (length 1, seven spare bytes) `ReadBytes(5)` succeeds and leaves the
cursor at 6, above the length 1. -/
theorem C18_ReadBytes_breaks_cursor_in_range :
    (BufferFromBytes ⟨[1, 2], [3, 4]⟩).Valid ∧
    (BufferFromBytes ⟨[1, 2], [3, 4]⟩).InRange ∧
    (ReadBytes 3 (BufferFromBytes ⟨[1, 2], [3, 4]⟩)).returned = true ∧
    (ReadBytes 3 (BufferFromBytes ⟨[1, 2], [3, 4]⟩)).state = ⟨⟨[1, 2], [3, 4]⟩, 3⟩ ∧
    ¬ (ReadBytes 3 (BufferFromBytes ⟨[1, 2], [3, 4]⟩)).state.InRange ∧
    (BufferFromBytes ⟨[], []⟩).InRange ∧
    (do WriteUint8 (fun _ _ => 7) 1; ReadBytes 5 : Op Slice) (BufferFromBytes ⟨[], []⟩)
      = .ok ⟨[0, 0, 0, 0, 0], [0, 0]⟩ ⟨⟨[1], [0, 0, 0, 0, 0, 0, 0]⟩, 6⟩ ∧
    ¬ Buffer.InRange ⟨⟨[1], [0, 0, 0, 0, 0, 0, 0]⟩, 6⟩ := by
  decide

/-! ## C19: write frame -/

/-- C19. Write frame: for every scalar write of byte width `w` (and `WriteBytes(seq)` with
`w = length(seq)`) on a valid buffer with cursor `p ≥ 0`, every storage offset `i < old length`
with `i < p` or `i ≥ p + w` holds the same byte after the write as before, whether the write
returns or ends in a panic; and when the write returns, every offset at or past the old length
and outside `[p, p+w)` holds a zero byte: only the bytes in `[p, p+w)` and the zero padding
appended past the old length can differ. -/
theorem C19_write_frame (grow : Nat → Nat → Nat) (buf : Buffer) (a : Action)
    (hv : buf.Valid) (hw : a.isWrite = true) (ht : a.Typed) (hp : 0 ≤ buf.pointer) :
    (∀ i : Nat, i < buf.bytes.elems.length →
      ((i : Int) < buf.pointer ∨ buf.pointer + a.width ≤ (i : Int)) →
      (a.run grow buf).state.bytes.elems[i]? = buf.bytes.elems[i]?) ∧
    ((a.run grow buf).result = some () →
      ∀ i : Nat, buf.bytes.elems.length ≤ i → i < (a.run grow buf).state.bytes.elems.length →
      ((i : Int) < buf.pointer ∨ buf.pointer + a.width ≤ (i : Int)) →
      (a.run grow buf).state.bytes.elems[i]? = some 0) := by
  obtain ⟨bs, hrun, hwid, hlen, -⟩ := write_shape grow a buf hw ht
  rw [hrun, hwid]
  refine ⟨fun i hi hout => writeSeq_frame grow bs buf hv hlen hp i hi hout,
    fun hok i hi1 hi2 hout => ?_⟩
  obtain ⟨-, hl⟩ := writeSeq_ok_len grow bs buf hv hlen hok
  have hv2 : buf.pointer ≤ maxInt := hv.2.1
  have hfit : buf.pointer + (bs.length : Int) ≤ maxInt := by
    by_cases hnil : bs = []
    · subst hnil
      simp only [List.length_nil, Nat.cast_zero, Int.add_zero]
      exact hv2
    · exact (writeSeq_ok_bounds grow bs buf hv hlen hnil hok).2
  simp only [Slice.len] at hl
  have hip : (i : Int) < buf.pointer := by omega
  have hgrow : buf.bytes.len < buf.pointer + (bs.length : Int) := by
    simp only [Slice.len]
    omega
  exact (writeSeq_growth grow bs buf hv hp hgrow hfit).2.2.2 i hi1 (by omega)

/-- C19, witness: `WriteUint16(5)` with the cursor at 3 on the sample storage leaves the byte at
offset 1 as it was. -/
theorem C19_write_frame_witness :
    Buffer.Valid ⟨sampleBuffer.bytes, 3⟩ ∧ (0 : Int) ≤ 3 ∧
    ((Action.writeUint16 5).run (fun _ _ => 0) ⟨sampleBuffer.bytes, 3⟩).state.bytes.elems[1]?
      = sampleBuffer.bytes.elems[1]? :=
  ⟨by decide, by decide,
    (C19_write_frame (fun _ _ => 0) ⟨sampleBuffer.bytes, 3⟩ (.writeUint16 5) (by decide) rfl
      trivial (by decide)).1 1 (by decide) (Or.inl (by decide))⟩

/-! ## C20: sequential writes -/

/-- A write that fits: it returns, the cursor advances by the number of bytes, the bytes are at
the offsets from the old cursor on, and the bytes below the old cursor are kept. -/
theorem writeSeq_written (grow : Nat → Nat → Nat) (bs : List Byte) (buf : Buffer)
    (hv : buf.Valid) (hp : 0 ≤ buf.pointer)
    (hfit : buf.pointer + (bs.length : Int) ≤ maxInt) :
    ∃ b1, writeSeq grow bs buf = .ok () b1 ∧ b1.pointer = buf.pointer + (bs.length : Int) ∧
      b1.Valid ∧
      (∀ k, k < bs.length → b1.bytes.elems[buf.pointer.toNat + k]? = bs[k]?) ∧
      (∀ i, i < buf.bytes.elems.length → i < buf.pointer.toNat →
        b1.bytes.elems[i]? = buf.bytes.elems[i]?) := by
  obtain ⟨sp, hw, -⟩ := writeSeq_eq grow bs buf hv hp hfit
  have hlen : (bs.length : Int) ≤ maxInt := by
    have : buf.pointer + (bs.length : Int) ≤ 2 ^ 63 - 1 := hfit
    simp only [maxInt]
    omega
  have hval := writeSeq_ok_valid grow bs buf hv hlen (by rw [hw]; rfl)
  have hfr : ∀ i, i < buf.bytes.elems.length → i < buf.pointer.toNat →
      (writeSeq grow bs buf).state.bytes.elems[i]? = buf.bytes.elems[i]? :=
    fun i hi hlt => writeSeq_frame grow bs buf hv hlen hp i hi (Or.inl (by omega))
  rw [hw] at hval hfr
  exact ⟨_, hw, rfl, hval, fun k hk => getElem?_written _ _ _ k hk, hfr⟩

/-- One more write after the bytes `acc` written from the offset `n` on: the bytes
`acc ++ bs` stand from the offset `n` on. -/
theorem writeSeq_after (grow : Nat → Nat → Nat) (n : Nat) (acc bs : List Byte) (b1 : Buffer)
    (hv : b1.Valid) (hp : b1.pointer = (n : Int) + (acc.length : Int))
    (hwr : ∀ k, k < acc.length → b1.bytes.elems[n + k]? = acc[k]?)
    (hfit : (n : Int) + ((acc ++ bs).length : Int) ≤ maxInt) :
    ∃ b2, writeSeq grow bs b1 = .ok () b2 ∧
      b2.pointer = (n : Int) + ((acc ++ bs).length : Int) ∧ b2.Valid ∧
      (∀ k, k < (acc ++ bs).length → b2.bytes.elems[n + k]? = (acc ++ bs)[k]?) := by
  have hfit' : (n : Int) + ((acc ++ bs).length : Int) ≤ 2 ^ 63 - 1 := hfit
  rw [List.length_append, Nat.cast_add] at hfit'
  have htn : b1.pointer.toNat = n + acc.length := by omega
  obtain ⟨b2, hw, hp2, hv2, hwr2, hfr⟩ := writeSeq_written grow bs b1 hv (by omega)
    (by simp only [maxInt]; omega)
  refine ⟨b2, hw, ?_, hv2, fun k hk => ?_⟩
  · rw [hp2, hp, List.length_append, Nat.cast_add]
    omega
  · by_cases hka : k < acc.length
    · have hb1 := hwr k hka
      have hlt : n + k < b1.bytes.elems.length := by
        rw [List.getElem?_eq_getElem hka] at hb1
        exact lt_length_of_getElem? hb1
      rw [hfr (n + k) hlt (by omega), hb1, List.getElem?_append_left hka]
    · rw [List.length_append] at hk
      have h2 := hwr2 (k - acc.length) (by omega)
      rw [htn, show n + acc.length + (k - acc.length) = n + k by omega] at h2
      rw [h2, List.getElem?_append_right (by omega)]

/-- The three writes of C20 that fit: the thirteen bytes stand from the cursor on. -/
theorem threeWrites (grow : Nat → Nat → Nat) (a b c : Nat) (buf : Buffer) (hv : buf.Valid)
    (hp : 0 ≤ buf.pointer) (hfit : buf.pointer + 13 ≤ maxInt) :
    ∃ b1 b2 b3, WriteUint32 grow a buf = .ok () b1 ∧ WriteUint64 grow b b1 = .ok () b2 ∧
      WriteUint8 grow c b2 = .ok () b3 ∧ b3.Valid ∧
      (∀ k, k < 13 → b3.bytes.elems[buf.pointer.toNat + k]?
        = (bytes32 a ++ bytes64 b ++ bytes8 c)[k]?) := by
  have hfit' : buf.pointer + 13 ≤ 2 ^ 63 - 1 := hfit
  have hn : ((buf.pointer.toNat : Nat) : Int) = buf.pointer := Int.toNat_of_nonneg hp
  obtain ⟨b1, hw1, hp1, hv1, hwr1⟩ := writeSeq_after grow buf.pointer.toNat [] (bytes32 a) buf hv
    (by rw [hn]; simp) (fun k hk => absurd hk (Nat.not_lt_zero k))
    (by rw [hn]; show buf.pointer + ((4 : Nat) : Int) ≤ 2 ^ 63 - 1; omega)
  obtain ⟨b2, hw2, hp2, hv2, hwr2⟩ := writeSeq_after grow buf.pointer.toNat ([] ++ bytes32 a)
    (bytes64 b) b1 hv1 hp1 hwr1
    (by rw [hn]; show buf.pointer + ((12 : Nat) : Int) ≤ 2 ^ 63 - 1; omega)
  obtain ⟨b3, hw3, hp3, hv3, hwr3⟩ := writeSeq_after grow buf.pointer.toNat
    ([] ++ bytes32 a ++ bytes64 b) (bytes8 c) b2 hv2 hp2 hwr2
    (by rw [hn]; show buf.pointer + ((13 : Nat) : Int) ≤ 2 ^ 63 - 1; omega)
  refine ⟨b1, b2, b3, ?_, ?_, ?_, hv3, fun k hk => hwr3 k hk⟩
  · rw [WriteUint32_eq_loop]; exact hw1
  · rw [WriteUint64_eq_loop]; exact hw2
  · rw [WriteUint8_eq_loop]; exact hw3

/-- C20, as stated, fails: with the cursor at `maxInt` on the empty storage the sum
`pointer + 4` in `EnsureSize` wraps around, nothing is appended and the first store of
`WriteUint32` is out of range, so the sequence ends in a panic and returns nothing. -/
theorem C20_counterexample :
    Buffer.Valid ⟨⟨[], []⟩, maxInt⟩ ∧ (0 : Int) ≤ maxInt ∧
    (1 : Nat) < 2 ^ 32 ∧ (2 : Nat) < 2 ^ 64 ∧ (3 : Nat) < 2 ^ 8 ∧
    (writesThenReads (fun _ _ => 0) 1 2 3 maxInt ⟨⟨[], []⟩, maxInt⟩).result = none ∧
    (WriteUint32 (fun _ _ => 0) 1 ⟨⟨[], []⟩, maxInt⟩).result = none := by
  decide

/-- C20 (amended). Sequential writes do not clobber each other: for every valid buffer with
cursor `p ≥ 0` and `p + 13 ≤ MaxInt`, and all values `a : uint32`, `b : uint64`, `c : uint8`,
doing `WriteUint32(a); WriteUint64(b); WriteUint8(c); SetPointer(p)` and then `ReadUint32()`,
`ReadUint64()`, `ReadUint8()` in that order returns `a`, `b`, `c` respectively and leaves the
cursor at `p + 13`. -/
theorem C20_sequential_writes (grow : Nat → Nat → Nat) (a b c : Nat) (buf : Buffer)
    (hv : buf.Valid) (hp : 0 ≤ buf.pointer) (hfit : buf.pointer + 13 ≤ maxInt)
    (ha : a < 2 ^ 32) (hb : b < 2 ^ 64) (hc : c < 2 ^ 8) :
    ∃ s, writesThenReads grow a b c buf.pointer buf = .ok (a, b, c) ⟨s, buf.pointer + 13⟩ := by
  obtain ⟨b1, b2, b3, hw1, hw2, hw3, hv3, hs⟩ := threeWrites grow a b c buf hv hp hfit
  have hmax : b3.bytes.len ≤ maxInt := hv3.2.2
  have e4 : (buf.pointer + 4).toNat = buf.pointer.toNat + 4 := by omega
  have e12 : (buf.pointer + 12).toNat = buf.pointer.toNat + 12 := by omega
  have h4 : ∀ k, k < 8 → b3.bytes.elems[(buf.pointer + 4).toNat + k]?
      = (bytes32 a ++ bytes64 b ++ bytes8 c)[4 + k]? := by
    intro k hk
    rw [e4, Nat.add_assoc]
    exact hs (4 + k) (by omega)
  have h12 : b3.bytes.elems[(buf.pointer + 12).toNat + 0]?
      = (bytes32 a ++ bytes64 b ++ bytes8 c)[12]? := by
    rw [e12, Nat.add_zero]
    exact hs 12 (by decide)
  have hr1 : ReadUint32 ⟨b3.bytes, buf.pointer⟩ = .ok a ⟨b3.bytes, buf.pointer + 4⟩ := by
    have h := ReadUint32_eq ⟨b3.bytes, buf.pointer⟩
      (toByte (a >>> 24)) (toByte (a >>> 16)) (toByte (a >>> 8)) (toByte (a >>> 0)) hp hmax
      (hs 0 (by decide)) (hs 1 (by decide)) (hs 2 (by decide)) (hs 3 (by decide))
    rw [value32 a ha] at h
    exact h
  have hr2 : ReadUint64 ⟨b3.bytes, buf.pointer + 4⟩ = .ok b ⟨b3.bytes, buf.pointer + 12⟩ := by
    have h := ReadUint64_eq ⟨b3.bytes, buf.pointer + 4⟩
      (toByte (b >>> 56)) (toByte (b >>> 48)) (toByte (b >>> 40)) (toByte (b >>> 32))
      (toByte (b >>> 24)) (toByte (b >>> 16)) (toByte (b >>> 8)) (toByte (b >>> 0))
      (show (0 : Int) ≤ buf.pointer + 4 by omega) hmax
      (h4 0 (by decide)) (h4 1 (by decide)) (h4 2 (by decide)) (h4 3 (by decide))
      (h4 4 (by decide)) (h4 5 (by decide)) (h4 6 (by decide)) (h4 7 (by decide))
    rw [value64 b hb] at h
    have e : buf.pointer + 4 + 8 = buf.pointer + 12 := by omega
    have h' : ReadUint64 ⟨b3.bytes, buf.pointer + 4⟩
        = .ok b ⟨b3.bytes, buf.pointer + 4 + 8⟩ := h
    rw [e] at h'
    exact h'
  have hr3 : ReadUint8 ⟨b3.bytes, buf.pointer + 12⟩ = .ok c ⟨b3.bytes, buf.pointer + 13⟩ := by
    have h := ReadUint8_eq ⟨b3.bytes, buf.pointer + 12⟩ (toByte (c >>> 0))
      (show (0 : Int) ≤ buf.pointer + 12 by omega) hmax h12
    rw [value8 c hc] at h
    have e : buf.pointer + 12 + 1 = buf.pointer + 13 := by omega
    have h' : ReadUint8 ⟨b3.bytes, buf.pointer + 12⟩
        = .ok c ⟨b3.bytes, buf.pointer + 12 + 1⟩ := h
    rw [e] at h'
    exact h'
  refine ⟨b3.bytes, ?_⟩
  unfold writesThenReads
  rw [bind_ok hw1, bind_ok hw2, bind_ok hw3, bind_SetPointer, bind_ok hr1, bind_ok hr2,
    bind_ok hr3, pure_apply]

/-- C20, witness: on the sample state (cursor 1, nine bytes) the three values 0x01020304,
0x05060708090A0B0C and 0xFF come back and the cursor ends at 14. -/
theorem C20_sequential_writes_witness :
    sampleBuffer.Valid ∧ 0 ≤ sampleBuffer.pointer ∧ sampleBuffer.pointer + 13 ≤ maxInt ∧
    ∃ s, writesThenReads (fun _ _ => 0) 0x01020304 0x05060708090A0B0C 0xFF
        sampleBuffer.pointer sampleBuffer
      = .ok (0x01020304, 0x05060708090A0B0C, 0xFF) ⟨s, sampleBuffer.pointer + 13⟩ :=
  ⟨by decide, by decide, by decide,
    C20_sequential_writes (fun _ _ => 0) 0x01020304 0x05060708090A0B0C 0xFF sampleBuffer
      (by decide) (by decide) (by decide) (by decide) (by decide) (by decide)⟩

end LittleEndianBuffer
